import Mathlib

/-!
Virtual timer manager (`samples/sysctrl/src/modules/tmr_mngr/tmr_mngr.c`).

A shallow embedding of the timer multiplexing engine: the slot allocator, `tmr_mngr_init`,
`tmr_mngr_start` / `vrtc_reconfig`, `tmr_mngr_stop` and the compare interrupt handler
`tmr_mngr_back_cc_irq`.

* The static arrays and bitmasks of the C file are the fields of `State`.
* `timer_native_t` values are natural numbers; every addition the C code performs on them is
  taken modulo `2 ^ width`, where `width` is the bit width of `timer_native_t`.
* The hardware backend (`tmr_mngr_backend.h`) is a parameter: a record of state-passing functions
  over an arbitrary backend state.
* The priority-ordered tree (`pot.h`) is modelled from the specification as an ordered queue of
  element indices.
* Calls of the application handler and of the backend's arm functions are recorded in a ghost log.
* The slot index parameters of `vrtc_reconfig` and `tmr_mngr_stop` have type `uint8_t`: the
  index passed is reduced modulo 256 on entry. `tmr_mngr_start` and `tmr_mngr_free` index with
  an `int`.
* Each API call and each handler run is one atomic step (the critical sections of the C code);
  preemption between `tmr_mngr_alloc` and the critical section of `tmr_mngr_start` is not modelled.
-/

set_option autoImplicit false

namespace TmrMngr

/-! ## Constants and types -/

/-- Value of `EPERM` in `errno.h`. -/
def EPERM : Int := 1
/-- Value of `ENOMEM` in `errno.h`. -/
def ENOMEM : Int := 12
/-- Value of `EFAULT` in `errno.h`. -/
def EFAULT : Int := 14
/-- Value of `EINPROGRESS` in the minimal libc `errno.h`. -/
def EINPROGRESS : Int := 68

/-- The `TMR_MNGR_STATE_*` enumeration. -/
inductive tmr_mngr_state where
  | IDLE
  | ARMED
  | STOPPED
  deriving DecidableEq

/-- The `enum tmr_mngr_mode` enumeration. -/
inductive tmr_mngr_mode where
  | PERIODIC
  | ONE_SHOT
  | ONE_SHOT_FORCE
  deriving DecidableEq

/-- The fields of `struct pot_element` that `tmr_mngr.c` reads and writes. -/
structure pot_element where
  state : tmr_mngr_state
  timer_id : Nat
  vrtc_mode : tmr_mngr_mode
  periodic_value : Nat
  next_cc_value : Nat
  reload : Bool
  context : Nat
  deriving DecidableEq

/-- Configuration constants of `tmr_mngr_config.h` and of the types in use.
`num` is `TMR_MNGR_NUM`, `aval` is `TMR_MNGR_AVAL_TIMERS` read as a bit vector (bit `i` set
means slot `i` is eligible), `width` is the number of bits of `timer_native_t`, and
`pot_new_first` fixes the tie-break of the ordered queue (whether a pushed element goes in front
of queued elements with the same deadline). -/
structure Config where
  num : Nat
  aval : Nat
  width : Nat
  pot_new_first : Bool
  deriving DecidableEq

/-- The hardware backend interface of `tmr_mngr_backend.h`, as state-passing functions over a
backend state `β`; every function returns its result and the backend state after the call. -/
structure Backend (β : Type) where
  tmr_back_init : β → β
  tmr_back_cnt_get_handler : β → Nat × β
  tmr_back_cc_handler : β → Nat → Int × β
  tmr_back_cc_sync_handler : β → Nat → Int × β
  tmr_back_constr_check_handler : β → Nat → Bool × β
  tmr_back_cc_min_val_get_handler : β → Nat × β

/-- Ghost record of what the manager did towards its environment:
`pop e d` is a `pot_pop` in the interrupt handler that returned element `e` whose
`next_cc_value` was `d`; `callback id ctx` is a call `p_app_handler(id, ctx)`;
`cc v r` is a call `tmr_back_cc_handler(v)` that returned `r`;
`cc_sync v r` is a call `tmr_back_cc_sync_handler(v)` that returned `r`. -/
inductive Event where
  | pop (e : Nat) (deadline : Nat)
  | callback (id : Nat) (ctx : Nat)
  | cc (v : Nat) (r : Int)
  | cc_sync (v : Nat) (r : Int)
  deriving DecidableEq

/-- The static data of `tmr_mngr.c` together with the backend state and the ghost log.
`vrtc_instances` is the array of that name, `allocated_timers` the in-use bitmask read as a bit
vector, `pot` the content of the ordered queue (indices into `vrtc_instances`, root first),
`assert_failed` records that `NRF_ASSERT(0)` was reached. -/
structure State (β : Type) where
  vrtc_instances : Nat → pot_element
  allocated_timers : Nat
  pot : List Nat
  back : β
  log : List Event
  assert_failed : Bool

/-- Outcome of code that may dereference a null pointer or loop. -/
inductive Res (α : Type) where
  | ok (a : α)
  | null_deref
  | out_of_fuel

/-! ## Bitmask helpers (`nrf_bitmask.h`) -/

/-- The `nrf_bitmask_bit_is_set` helper. -/
def nrf_bitmask_bit_is_set (bit : Nat) (mask : Nat) : Bool := mask.testBit bit

/-- The `nrf_bitmask_bit_set` helper. -/
def nrf_bitmask_bit_set (bit : Nat) (mask : Nat) : Nat := mask ||| 2 ^ bit

/-- The `nrf_bitmask_bit_clear` helper: the conjunction with the complement of `1 << bit`. -/
def nrf_bitmask_bit_clear (bit : Nat) (mask : Nat) : Nat := mask ^^^ (mask &&& 2 ^ bit)

/-! ## Ordered deadline queue (`pot.h`) -/

/-- Modelled from the spec: `pot_push` of the priority-ordered tree, which is not among the
sources. The queue is ordered by `next_cc_value`; the pushed element is placed in front of the
first queued element whose deadline is later (or, with `new_first`, not earlier). Deadlines are
read through the element references at the time of the push. -/
def pot_push (inst : Nat → pot_element) (new_first : Bool) (e : Nat) : List Nat → List Nat
  | [] => [e]
  | x :: q =>
    if (inst e).next_cc_value < (inst x).next_cc_value
        ∨ (new_first = true ∧ (inst e).next_cc_value = (inst x).next_cc_value) then
      e :: x :: q
    else
      x :: pot_push inst new_first e q

/-- Modelled from the spec: `pot_get`, the peek of the minimum; `none` is the null pointer. -/
def pot_get (q : List Nat) : Option Nat := q.head?

/-- Modelled from the spec: `pot_pop`, which removes and returns the minimum. -/
def pot_pop (q : List Nat) : Option Nat × List Nat := (q.head?, q.tail)

/-- Modelled from the spec: `pot_remove`, which removes the given element and returns `0`, or
returns a non-zero code when the element is not in the queue. -/
def pot_remove (e : Nat) (q : List Nat) : Int × List Nat :=
  if e ∈ q then (0, q.erase e) else (-1, q)

/-! ## Allocator -/

/-- The function `tmr_mngr_alloc`: the first index below `TMR_MNGR_NUM` that is eligible and
not in use is marked in use and returned; otherwise `-ENOMEM`. -/
def tmr_mngr_alloc {β : Type} (cfg : Config) (s : State β) : Int × State β :=
  match (List.range cfg.num).find? (fun i =>
      nrf_bitmask_bit_is_set i cfg.aval && !nrf_bitmask_bit_is_set i s.allocated_timers) with
  | some i => ((i : Int), { s with allocated_timers := nrf_bitmask_bit_set i s.allocated_timers })
  | none => (-ENOMEM, s)

/-- The function `tmr_mngr_free`. -/
def tmr_mngr_free {β : Type} (cfg : Config) (s : State β) (inst : Nat) : State β :=
  if nrf_bitmask_bit_is_set inst cfg.aval && nrf_bitmask_bit_is_set inst s.allocated_timers then
    { s with allocated_timers := nrf_bitmask_bit_clear inst s.allocated_timers }
  else s

/-- Replace element `i` of `vrtc_instances`. -/
def set_inst {β : Type} (s : State β) (i : Nat) (e : pot_element) : State β :=
  { s with vrtc_instances := Function.update s.vrtc_instances i e }

/-- The function `check_vrtc_mode`, applied to the element with index `e`. -/
def check_vrtc_mode {β : Type} (cfg : Config) (s : State β) (e : Nat) : State β :=
  match (s.vrtc_instances e).vrtc_mode with
  | tmr_mngr_mode.PERIODIC =>
    set_inst s e { s.vrtc_instances e with
      next_cc_value :=
        ((s.vrtc_instances e).next_cc_value + (s.vrtc_instances e).periodic_value)
          % 2 ^ cfg.width,
      reload := true }
  | tmr_mngr_mode.ONE_SHOT_FORCE => tmr_mngr_free cfg s (s.vrtc_instances e).timer_id
  | tmr_mngr_mode.ONE_SHOT => tmr_mngr_free cfg s (s.vrtc_instances e).timer_id

/-! ## Interrupt handler -/

/-- The first half of the body of the inner loop of `tmr_mngr_back_cc_irq`, for the popped
element `e` and the rest `q` of the queue: an `ARMED` element gets its handler called and goes
through `check_vrtc_mode`, any other element is released. -/
def serve {β : Type} (cfg : Config) (s : State β) (e : Nat) (q : List Nat) : State β :=
  let s1 : State β :=
    { s with pot := q, log := s.log ++ [Event.pop e (s.vrtc_instances e).next_cc_value] }
  if (s1.vrtc_instances e).state = tmr_mngr_state.ARMED then
    check_vrtc_mode cfg
      { s1 with log := s1.log ++
          [Event.callback (s1.vrtc_instances e).timer_id (s1.vrtc_instances e).context] } e
  else
    tmr_mngr_free cfg s1 (s1.vrtc_instances e).timer_id

/-- The inner loop `while (current_process)` of `tmr_mngr_back_cc_irq`. Each iteration pops the
queue minimum without looking at its deadline, serves it, and leaves the loop when the queue is
empty or its new minimum is later than the counter. Popping from an empty queue yields the null
pointer, whose `state` the C code reads: `Res.null_deref`. The first argument bounds the number
of iterations. -/
def drain {β : Type} (cfg : Config) (B : Backend β) : Nat → State β → Res (State β)
  | 0, _ => Res.out_of_fuel
  | fuel + 1, s =>
    match pot_pop s.pot with
    | (none, _) => Res.null_deref
    | (some e, q) =>
      let s2 := serve cfg s e q
      let p_new_element := pot_get s2.pot
      let curr_time := B.tmr_back_cnt_get_handler s2.back
      let s3 : State β := { s2 with back := curr_time.2 }
      match p_new_element with
      | none => Res.ok s3
      | some n =>
        if curr_time.1 < (s3.vrtc_instances n).next_cc_value then Res.ok s3
        else drain cfg B fuel s3

/-- One iteration of the reload loop of `tmr_mngr_back_cc_irq` for index `i`. -/
def reload_one {β : Type} (cfg : Config) (s : State β) (i : Nat) : State β :=
  if (s.vrtc_instances i).reload = true then
    let s1 := set_inst s i { s.vrtc_instances i with reload := false }
    { s1 with pot := pot_push s1.vrtc_instances cfg.pot_new_first i s1.pot }
  else s

/-- The reload loop `for (i = 0; i < TMR_MNGR_NUM; ++i)` of `tmr_mngr_back_cc_irq`. -/
def reload_all {β : Type} (cfg : Config) (s : State β) : State β :=
  (List.range cfg.num).foldl (reload_one cfg) s

/-- The outer loop `while (once_again)` of `tmr_mngr_back_cc_irq`; `current_process` is the
variable of that name on entry to the loop body. The inner loop is run with a bound of one more
than the queue length, which it never exhausts (`drain_fuel_enough`). The first argument bounds
the number of iterations of the outer loop. -/
def irq_loop {β : Type} (cfg : Config) (B : Backend β) :
    Nat → Bool → State β → Res (State β)
  | 0, _, _ => Res.out_of_fuel
  | fuel + 1, current_process, s =>
    match (if current_process = true then drain cfg B (s.pot.length + 1) s else Res.ok s) with
    | Res.ok s1 =>
      let s2 := reload_all cfg s1
      match pot_get s2.pot with
      | some n =>
        let r := B.tmr_back_cc_handler s2.back (s2.vrtc_instances n).next_cc_value
        let s3 : State β :=
          { s2 with back := r.2,
                    log := s2.log ++ [Event.cc (s2.vrtc_instances n).next_cc_value r.1] }
        if r.1 = -EPERM then irq_loop cfg B fuel true s3 else Res.ok s3
      | none => Res.ok s2
    | Res.null_deref => Res.null_deref
    | Res.out_of_fuel => Res.out_of_fuel

/-- The function `tmr_mngr_back_cc_irq`, with a bound on the iterations of its outer loop. -/
def tmr_mngr_back_cc_irq {β : Type} (cfg : Config) (B : Backend β) (fuel : Nat)
    (s : State β) : Res (State β) :=
  irq_loop cfg B fuel true s

/-! ## Public API -/

/-- The function `tmr_mngr_init`; `handler` tells whether `p_handler` is non-null. The ghost log
starts afresh. -/
def tmr_mngr_init {β : Type} (cfg : Config) (B : Backend β) (handler : Bool)
    (s : State β) : Int × State β :=
  if handler = false then (-EPERM, s)
  else
    (0, { vrtc_instances := fun i =>
            if i < cfg.num then
              { s.vrtc_instances i with state := tmr_mngr_state.IDLE, timer_id := i }
            else s.vrtc_instances i,
          allocated_timers := 0,
          pot := [],
          back := B.tmr_back_init s.back,
          log := [],
          assert_failed := s.assert_failed })

/-- The function `vrtc_reconfig`. Its parameter `instance` has type `uint8_t`: the slot index
`slot` that the caller passes is converted to that type, that is, reduced modulo 256, and the
body works on the converted index `inst`. -/
def vrtc_reconfig {β : Type} (cfg : Config) (B : Backend β) (s : State β) (slot : Nat)
    (mode : tmr_mngr_mode) (value : Nat) : Int × State β :=
  let inst := slot % 256
  let s0 := set_inst s inst { s.vrtc_instances inst with vrtc_mode := mode }
  let p_curr_elem := pot_get s0.pot
  let s1 : State β :=
    match mode with
    | tmr_mngr_mode.PERIODIC =>
      let t := B.tmr_back_cnt_get_handler s0.back
      { set_inst s0 inst { s0.vrtc_instances inst with
          periodic_value := value,
          next_cc_value := (t.1 + value) % 2 ^ cfg.width } with back := t.2 }
    | tmr_mngr_mode.ONE_SHOT_FORCE =>
      set_inst s0 inst { s0.vrtc_instances inst with next_cc_value := value }
    | tmr_mngr_mode.ONE_SHOT =>
      set_inst s0 inst { s0.vrtc_instances inst with next_cc_value := value }
  let force : Bool :=
    match mode with
    | tmr_mngr_mode.ONE_SHOT_FORCE => true
    | _ => false
  let c := B.tmr_back_constr_check_handler s1.back (s1.vrtc_instances inst).next_cc_value
  let s2 : State β := { s1 with back := c.2 }
  if c.1 = false ∧ force = false then (-EFAULT, s2)
  else
    let s3 : State β :=
      if c.1 = false then
        let m := B.tmr_back_cc_min_val_get_handler s2.back
        { set_inst s2 inst { s2.vrtc_instances inst with
            next_cc_value := ((s2.vrtc_instances inst).next_cc_value + m.1) % 2 ^ cfg.width }
          with back := m.2 }
      else s2
    let s4 : State β :=
      { s3 with pot := pot_push s3.vrtc_instances cfg.pot_new_first inst s3.pot }
    match pot_get s4.pot with
    | some n =>
      if p_curr_elem ≠ some n then
        let r := B.tmr_back_cc_sync_handler s4.back (s4.vrtc_instances n).next_cc_value
        (r.1, { s4 with back := r.2,
                        log := s4.log ++ [Event.cc_sync (s4.vrtc_instances n).next_cc_value r.1] })
      else (0, s4)
    | none => (0, s4)

/-- The function `tmr_mngr_start`. -/
def tmr_mngr_start {β : Type} (cfg : Config) (B : Backend β) (s : State β)
    (mode : tmr_mngr_mode) (value : Nat) (context : Nat) : Int × State β :=
  let a := tmr_mngr_alloc cfg s
  if a.1 < 0 then (-EPERM, a.2)
  else
    let inst := a.1.toNat
    let s1 := set_inst a.2 inst { a.2.vrtc_instances inst with context := context }
    let r := vrtc_reconfig cfg B s1 inst mode value
    if r.1 = 0 then
      ((inst : Int), set_inst r.2 inst { r.2.vrtc_instances inst with
          state := tmr_mngr_state.ARMED })
    else
      (r.1, tmr_mngr_free cfg
        (set_inst r.2 inst { r.2.vrtc_instances inst with context := 0 }) inst)

/-- The function `tmr_mngr_stop`. Its parameter `instance` has type `uint8_t`: the slot index
`slot` that the caller passes is converted to that type, that is, reduced modulo 256, and the
body works on the converted index `inst`. -/
def tmr_mngr_stop {β : Type} (cfg : Config) (B : Backend β) (s : State β)
    (slot : Nat) : Int × State β :=
  let inst := slot % 256
  if (s.vrtc_instances inst).state ≠ tmr_mngr_state.ARMED then (-EPERM, s)
  else
    let c := B.tmr_back_constr_check_handler s.back (s.vrtc_instances inst).next_cc_value
    let s1 : State β := { s with back := c.2 }
    if c.1 = false then
      (-EINPROGRESS,
        set_inst s1 inst { s1.vrtc_instances inst with state := tmr_mngr_state.STOPPED })
    else
      let r := pot_remove inst s1.pot
      let s2 : State β :=
        if r.1 ≠ 0 then { s1 with pot := r.2, assert_failed := true }
        else { s1 with pot := r.2 }
      let s3 := set_inst s2 inst { s2.vrtc_instances inst with state := tmr_mngr_state.IDLE }
      ((if r.1 ≠ 0 then -EFAULT else 0), tmr_mngr_free cfg s3 inst)

/-- The function `tmr_mngr_cnt_get`. -/
def tmr_mngr_cnt_get {β : Type} (B : Backend β) (s : State β) : Nat × State β :=
  let t := B.tmr_back_cnt_get_handler s.back
  (t.1, { s with back := t.2 })

/-! ## Traces -/

/-- One step of a trace: an API call, a run of the interrupt handler (with the bound on its
outer loop), or a change of the backend state made by the environment (the counter advances). -/
inductive Cmd (β : Type) where
  | start (mode : tmr_mngr_mode) (value : Nat) (context : Nat)
  | stop (inst : Nat)
  | irq (fuel : Nat)
  | env (b : β)

/-- Execute one step; the integer is the value returned by the API call (`0` for the handler
and for the environment). -/
def step {β : Type} (cfg : Config) (B : Backend β) (s : State β) : Cmd β → Res (Int × State β)
  | Cmd.start mode value context => Res.ok (tmr_mngr_start cfg B s mode value context)
  | Cmd.stop inst => Res.ok (tmr_mngr_stop cfg B s inst)
  | Cmd.irq fuel =>
    match tmr_mngr_back_cc_irq cfg B fuel s with
    | Res.ok s1 => Res.ok (0, s1)
    | Res.null_deref => Res.null_deref
    | Res.out_of_fuel => Res.out_of_fuel
  | Cmd.env b => Res.ok (0, { s with back := b })

/-- Execute a trace from left to right. -/
def run {β : Type} (cfg : Config) (B : Backend β) : State β → List (Cmd β) → Res (State β)
  | s, [] => Res.ok s
  | s, c :: cs =>
    match step cfg B s c with
    | Res.ok r => run cfg B r.2 cs
    | Res.null_deref => Res.null_deref
    | Res.out_of_fuel => Res.out_of_fuel

/-- The state after a successful `tmr_mngr_init` on the state `s`. -/
def init_state {β : Type} (cfg : Config) (B : Backend β) (s : State β) : State β :=
  (tmr_mngr_init cfg B true s).2

/-- The value of the last arm request (`tmr_back_cc_handler` or `tmr_back_cc_sync_handler`)
recorded in a log, or `none` when no request was made: the value the hardware compare holds. -/
def last_armed : List Event → Option Nat
  | [] => none
  | ev :: l =>
    match last_armed l with
    | some v => some v
    | none =>
      match ev with
      | Event.cc v _ => some v
      | Event.cc_sync v _ => some v
      | _ => none

/-- Slot `i` is in use: its bit in `allocated_timers` is set. -/
def in_use {β : Type} (s : State β) (i : Nat) : Prop :=
  nrf_bitmask_bit_is_set i s.allocated_timers = true

instance {β : Type} (s : State β) (i : Nat) : Decidable (in_use s i) := by
  unfold in_use; infer_instance

/-! ## A mock backend -/

/-- State of the mock backend: its clock and the last value it was asked to arm. -/
structure Mock where
  now : Nat
  armed : Option Nat
  deriving DecidableEq

/-- A mock backend with a settable clock. It records every value it is asked to arm; an arm
request succeeds when the value is after the clock and reports `-EPERM` otherwise. A value is
safely programmable when it is at least `margin` after the clock, and `margin` is the minimum
safe offset. -/
def mock (margin : Nat) : Backend Mock where
  tmr_back_init := fun b => { b with armed := none }
  tmr_back_cnt_get_handler := fun b => (b.now, b)
  tmr_back_cc_handler := fun b v =>
    (if b.now < v then 0 else -EPERM, { b with armed := some v })
  tmr_back_cc_sync_handler := fun b v =>
    (if b.now < v then 0 else -EPERM, { b with armed := some v })
  tmr_back_constr_check_handler := fun b v => (decide (b.now + margin ≤ v), b)
  tmr_back_cc_min_val_get_handler := fun b => (margin, b)

/-- The zero-initialised static data of `tmr_mngr.c` before `tmr_mngr_init`. -/
def boot {β : Type} (b : β) : State β :=
  { vrtc_instances := fun _ =>
      { state := tmr_mngr_state.IDLE, timer_id := 0, vrtc_mode := tmr_mngr_mode.PERIODIC,
        periodic_value := 0, next_cc_value := 0, reload := false, context := 0 },
    allocated_timers := 0,
    pot := [],
    back := b,
    log := [],
    assert_failed := false }

/-- Four slots, all eligible, a 32-bit counter. -/
def cfg4 : Config := { num := 4, aval := 15, width := 32, pot_new_first := false }

/-- More than 256 slots: `TMR_MNGR_NUM` is 257 and slot 256 is the only eligible slot. -/
def cfg257 : Config := { num := 257, aval := 2 ^ 256, width := 32, pot_new_first := false }

/-- The state after `tmr_mngr_init` with the configuration `cfg257`, over the mock backend with
margin 10 and clock `0`. -/
def mock_init257 : State Mock :=
  init_state cfg257 (mock 10) (boot { now := 0, armed := none })

/-- The state after `tmr_mngr_init` over the mock backend with clock `0`. -/
def mock_init (margin : Nat) : State Mock :=
  init_state cfg4 (mock margin) (boot { now := 0, armed := none })

/-- The result of code that completed, as an option. -/
def Res.toOption {α : Type} : Res α → Option α
  | Res.ok a => some a
  | Res.null_deref => none
  | Res.out_of_fuel => none

/-! ## Predicates used in the statements -/

/-- Slot `i` is eligible and not in use. -/
def free_slot {β : Type} (cfg : Config) (s : State β) (i : Nat) : Prop :=
  nrf_bitmask_bit_is_set i cfg.aval = true ∧ nrf_bitmask_bit_is_set i s.allocated_timers = false

instance {β : Type} (cfg : Config) (s : State β) (i : Nat) : Decidable (free_slot cfg s i) := by
  unfold free_slot; infer_instance

/-- Slot `i` is the lowest-numbered slot below `TMR_MNGR_NUM` that is eligible and not in use. -/
def lowest_free {β : Type} (cfg : Config) (s : State β) (i : Nat) : Prop :=
  i < cfg.num ∧ free_slot cfg s i ∧ ∀ j, j < i → ¬ free_slot cfg s j

/-- The deadline `vrtc_reconfig` computes before it asks the backend whether the deadline is
safely programmable: counter plus period for a periodic timer, the given value otherwise. -/
def start_deadline {β : Type} (cfg : Config) (B : Backend β) (s : State β)
    (mode : tmr_mngr_mode) (value : Nat) : Nat :=
  match mode with
  | tmr_mngr_mode.PERIODIC => ((B.tmr_back_cnt_get_handler s.back).1 + value) % 2 ^ cfg.width
  | tmr_mngr_mode.ONE_SHOT_FORCE => value
  | tmr_mngr_mode.ONE_SHOT => value

/-- The backend state in which `vrtc_reconfig` asks whether the deadline is safely
programmable: after the counter read for a periodic timer, the current one otherwise. -/
def start_check_back {β : Type} (B : Backend β) (s : State β) (mode : tmr_mngr_mode) : β :=
  match mode with
  | tmr_mngr_mode.PERIODIC => (B.tmr_back_cnt_get_handler s.back).2
  | tmr_mngr_mode.ONE_SHOT_FORCE => s.back
  | tmr_mngr_mode.ONE_SHOT => s.back

/-- The answer of the backend, during `tmr_mngr_start`, to whether the computed deadline is
safely programmable. -/
def start_check {β : Type} (cfg : Config) (B : Backend β) (s : State β)
    (mode : tmr_mngr_mode) (value : Nat) : Bool :=
  (B.tmr_back_constr_check_handler (start_check_back B s mode)
    (start_deadline cfg B s mode value)).1

/-- The state in which `tmr_mngr_start` calls `vrtc_reconfig`, when `tmr_mngr_alloc` returned
slot `i`: the slot is marked in use and the context is stored. -/
def start_entry {β : Type} (s : State β) (i : Nat) (context : Nat) : State β :=
  set_inst { s with allocated_timers := nrf_bitmask_bit_set i s.allocated_timers } i
    { s.vrtc_instances i with context := context }

/-- The end of `tmr_mngr_start` for slot `i`, given the result `r` of `vrtc_reconfig`: mark the
slot armed and return it, or clear the context, release the slot and return the error. -/
def start_finish {β : Type} (cfg : Config) (i : Nat) (r : Int × State β) : Int × State β :=
  if r.1 = 0 then
    ((i : Int), set_inst r.2 i { r.2.vrtc_instances i with state := tmr_mngr_state.ARMED })
  else
    (r.1, tmr_mngr_free cfg (set_inst r.2 i { r.2.vrtc_instances i with context := 0 }) i)

/-- The deadline with which `vrtc_reconfig` pushes the instance: the computed deadline when the
backend accepts it, and the computed deadline plus the minimum safe offset otherwise. -/
def start_pushed_deadline {β : Type} (cfg : Config) (B : Backend β) (s : State β)
    (mode : tmr_mngr_mode) (value : Nat) : Nat :=
  if start_check cfg B s mode value = true then start_deadline cfg B s mode value
  else
    (start_deadline cfg B s mode value
      + (B.tmr_back_cc_min_val_get_handler
          (B.tmr_back_constr_check_handler (start_check_back B s mode)
            (start_deadline cfg B s mode value)).2).1) % 2 ^ cfg.width

/-- The result of `vrtc_reconfig` inside `tmr_mngr_start` when slot `i` was allocated: `0`,
`-EFAULT` from the deadline check, or what the backend's arm function returned. -/
def start_arm_result {β : Type} (cfg : Config) (B : Backend β) (s : State β) (i : Nat)
    (mode : tmr_mngr_mode) (value : Nat) (context : Nat) : Int :=
  (vrtc_reconfig cfg B (start_entry s i context) i mode value).1

/-- The state after `tmr_mngr_init` over the mock backend with margin 10, with the clock then
advanced to `t`. -/
def mock_at (t : Nat) : State Mock :=
  { mock_init 10 with back := { now := t, armed := none } }

/-- A property of the state that every elementary action of the interrupt handler preserves:
serving a popped element, a change of the backend state, one iteration of the reload loop, and
the record of an arm request. -/
structure IrqStable {β : Type} (cfg : Config) (P : State β → Prop) : Prop where
  on_serve : ∀ (s : State β) (e : Nat) (q : List Nat), P s → s.pot = e :: q → P (serve cfg s e q)
  on_back : ∀ (s : State β) (b : β), P s → P { s with back := b }
  on_reload : ∀ (s : State β) (i : Nat), i < cfg.num → P s → P (reload_one cfg s i)
  on_log : ∀ (s : State β) (v : Nat) (r : Int), P s → P { s with log := s.log ++ [Event.cc v r] }

/-- Consistency of the static data between API calls: every record below `TMR_MNGR_NUM`
carries its own index as `timer_id`, the queue holds indices below `TMR_MNGR_NUM`, only
eligible slots below `TMR_MNGR_NUM` are in use, and every slot in use is in the queue. -/
def wf {β : Type} (cfg : Config) (s : State β) : Prop :=
  (∀ i, i < cfg.num → (s.vrtc_instances i).timer_id = i)
  ∧ (∀ e, e ∈ s.pot → e < cfg.num)
  ∧ (∀ i, in_use s i → i < cfg.num ∧ nrf_bitmask_bit_is_set i cfg.aval = true)
  ∧ (∀ i, in_use s i → i ∈ s.pot)

/-- Consistency of the static data inside the interrupt handler: as `wf`, but a slot in use
may be out of the queue while its `reload` flag is set. -/
def wf_irq {β : Type} (cfg : Config) (s : State β) : Prop :=
  (∀ i, i < cfg.num → (s.vrtc_instances i).timer_id = i)
  ∧ (∀ e, e ∈ s.pot → e < cfg.num)
  ∧ (∀ i, in_use s i → i < cfg.num ∧ nrf_bitmask_bit_is_set i cfg.aval = true)
  ∧ (∀ i, in_use s i → i ∈ s.pot ∨ (s.vrtc_instances i).reload = true)

/-- The contexts of the handler calls for slot `i` recorded in a log, in order. -/
def callbacks_of (i : Nat) (log : List Event) : List Nat :=
  log.filterMap (fun ev =>
    match ev with
    | Event.callback id ctx => if id = i then some ctx else none
    | _ => none)

/-- The deadlines with which element `i` was popped by the handler, as recorded in a log, in
order. -/
def pops_of (i : Nat) (log : List Event) : List Nat :=
  log.filterMap (fun ev =>
    match ev with
    | Event.pop e d => if e = i then some d else none
    | _ => none)

/-- No `tmr_mngr_start` call of the trace returns the slot id `i`. -/
def quiet {β : Type} (cfg : Config) (B : Backend β) (i : Nat) : State β → List (Cmd β) → Prop
  | _, [] => True
  | s, c :: cs =>
    match step cfg B s c with
    | Res.ok r =>
      (match c with
        | Cmd.start _ _ _ => r.1 ≠ (i : Int)
        | _ => True) ∧ quiet cfg B i r.2 cs
    | _ => True

/-- The pops of element `i` and the handler calls for slot `i` recorded in a log, in order. -/
def timer_events (i : Nat) (log : List Event) : List Event :=
  log.filter (fun ev =>
    match ev with
    | Event.pop e _ => decide (e = i)
    | Event.callback id _ => decide (id = i)
    | _ => false)

/-- The record of the first `m` firings of a periodic timer on slot `i` started at counter
value `t0` with period `p` and context `ctx`: the `k`-th firing is a pop with deadline
`t0 + k * p` modulo `2 ^ width`, followed by the handler call. -/
def firings (cfg : Config) (i t0 p ctx : Nat) : Nat → List Event
  | 0 => []
  | m + 1 =>
    firings cfg i t0 p ctx m
      ++ [Event.pop i ((t0 + (m + 1) * p) % 2 ^ cfg.width), Event.callback i ctx]

/-- The periodic timer on slot `i`, started at counter value `t0` with period `p` and context
`ctx` when the slot's recorded events were `E0`, is still running: the slot is in use, `ARMED`
and periodic with that period and context, and for some `m` it has fired `m` times and its
`next_cc_value` is `t0 + (m + 1) * p` modulo `2 ^ width`. -/
def periodic_live {β : Type} (cfg : Config) (i t0 p ctx : Nat) (E0 : List Event)
    (s : State β) : Prop :=
  (s.vrtc_instances i).state = tmr_mngr_state.ARMED
  ∧ (s.vrtc_instances i).vrtc_mode = tmr_mngr_mode.PERIODIC
  ∧ (s.vrtc_instances i).periodic_value = p
  ∧ (s.vrtc_instances i).context = ctx
  ∧ in_use s i
  ∧ ∃ m, timer_events i s.log = E0 ++ firings cfg i t0 p ctx m
      ∧ (s.vrtc_instances i).next_cc_value = (t0 + (m + 1) * p) % 2 ^ cfg.width

/-- The queue is ordered by `next_cc_value`, read through the records `inst`. -/
def pot_sorted (inst : Nat → pot_element) (q : List Nat) : Prop :=
  q.Pairwise (fun a b => (inst a).next_cc_value ≤ (inst b).next_cc_value)

/-- The step is a call of `tmr_mngr_start`. -/
def Cmd.is_start {β : Type} : Cmd β → Bool
  | Cmd.start _ _ _ => true
  | _ => false

/-- The step is a call of `tmr_mngr_stop` that reaches slot `i`: its argument, converted to
`uint8_t`, is `i`. -/
def Cmd.stops {β : Type} (i : Nat) : Cmd β → Bool
  | Cmd.stop j => decide (j % 256 = i)
  | _ => false

/-- The step is a call of `tmr_mngr_start` or of `tmr_mngr_stop`. -/
def Cmd.is_call {β : Type} : Cmd β → Bool
  | Cmd.start _ _ _ => true
  | Cmd.stop _ => true
  | _ => false

/-- Invariant of the static data along start and stop calls over a backend whose arm requests
succeed: the data is consistent, the queue is duplicate-free, ordered and holds exactly slots
in use, every `ARMED` record below `TMR_MNGR_NUM` is queued, and when the queue is not empty
the hardware is armed at a value no later than the deadline of the queue minimum. -/
def edf_inv {β : Type} (cfg : Config) (s : State β) : Prop :=
  wf cfg s
  ∧ s.pot.Nodup
  ∧ pot_sorted s.vrtc_instances s.pot
  ∧ (∀ e, e ∈ s.pot → in_use s e)
  ∧ (∀ i, i < cfg.num → (s.vrtc_instances i).state = tmr_mngr_state.ARMED → i ∈ s.pot)
  ∧ (∀ n, pot_get s.pot = some n →
      ∃ a, last_armed s.log = some a ∧ a ≤ (s.vrtc_instances n).next_cc_value)

/-- Invariant of the static data along start calls alone: every queued record is `ARMED` and
the hardware is armed exactly at the deadline of the queue minimum, or not armed when the
queue is empty. -/
def edf_exact {β : Type} (s : State β) : Prop :=
  (∀ e, e ∈ s.pot → (s.vrtc_instances e).state = tmr_mngr_state.ARMED)
  ∧ last_armed s.log = (pot_get s.pot).map (fun n => (s.vrtc_instances n).next_cc_value)

/-- The mock backend with arm requests that always succeed: it records the value and
returns `0`. -/
def mock_lenient (margin : Nat) : Backend Mock :=
  { mock margin with
    tmr_back_cc_handler := fun b v => (0, { b with armed := some v }),
    tmr_back_cc_sync_handler := fun b v => (0, { b with armed := some v }) }

/-- The code dereferenced the null pointer. -/
def Res.is_null_deref {α : Type} : Res α → Bool
  | Res.null_deref => true
  | _ => false

/-- The event is a request to one of the backend's arm functions. -/
def Event.is_arm : Event → Bool
  | Event.cc _ _ => true
  | Event.cc_sync _ _ => true
  | _ => false

/-- The log segment begins with a pop, the first action of a pass of the inner loop. -/
def starts_with_pop : List Event → Bool
  | Event.pop _ _ :: _ => true
  | _ => false

/-- In the log segment, every `tmr_back_cc_handler` request that reported `-EPERM` is directly
followed by a pop, that is, by another pass of the inner loop. -/
def arm_retried : List Event → Bool
  | [] => true
  | Event.cc _ r :: rest => (decide (r ≠ -EPERM) || starts_with_pop rest) && arm_retried rest
  | _ :: rest => arm_retried rest

/-- Invariant of the queue between calls, over a backend whose arm requests in
`tmr_mngr_start` succeed: the data is consistent, the queue holds no element twice and only
slots in use, every slot in use is `ARMED` or `STOPPED`, and no `reload` flag is set. -/
def queue_inv {β : Type} (cfg : Config) (s : State β) : Prop :=
  wf cfg s
  ∧ s.pot.Nodup
  ∧ (∀ e, e ∈ s.pot → in_use s e)
  ∧ (∀ i, in_use s i → (s.vrtc_instances i).state = tmr_mngr_state.ARMED
      ∨ (s.vrtc_instances i).state = tmr_mngr_state.STOPPED)
  ∧ (∀ j, j < cfg.num → (s.vrtc_instances j).reload = false)

/-- Invariant of the queue inside the interrupt handler: as `queue_inv`, but a slot in use may
be out of the queue while its `reload` flag is set, and a slot whose flag is set is in use and
not queued. -/
def queue_inv_irq {β : Type} (cfg : Config) (s : State β) : Prop :=
  wf_irq cfg s
  ∧ s.pot.Nodup
  ∧ (∀ e, e ∈ s.pot → in_use s e)
  ∧ (∀ i, in_use s i → (s.vrtc_instances i).state = tmr_mngr_state.ARMED
      ∨ (s.vrtc_instances i).state = tmr_mngr_state.STOPPED)
  ∧ (∀ j, j < cfg.num → (s.vrtc_instances j).reload = true → in_use s j ∧ j ∉ s.pot)

/-- The eligible slots below `TMR_MNGR_NUM`. -/
def eligible_slots (cfg : Config) : Finset Nat :=
  (Finset.range cfg.num).filter (fun i => nrf_bitmask_bit_is_set i cfg.aval = true)

/-- The eligible slots below `TMR_MNGR_NUM` that are in use. -/
def used_slots {β : Type} (cfg : Config) (s : State β) : Finset Nat :=
  (Finset.range cfg.num).filter
    (fun i => nrf_bitmask_bit_is_set i cfg.aval = true ∧ in_use s i)

/-- The number of `tmr_mngr_start` calls of a trace that returned a slot id (a non-negative
value). -/
def successes {β : Type} (cfg : Config) (B : Backend β) : State β → List (Cmd β) → Nat
  | _, [] => 0
  | s, c :: cs =>
    match step cfg B s c with
    | Res.ok r => (if c.is_start = true ∧ 0 ≤ r.1 then 1 else 0) + successes cfg B r.2 cs
    | _ => 0

/-! # Theorems -/
/-! ## Bitmask helpers -/

theorem bit_is_set_set (i j m : Nat) :
    nrf_bitmask_bit_is_set j (nrf_bitmask_bit_set i m)
      = (decide (i = j) || nrf_bitmask_bit_is_set j m) := by
  simp [nrf_bitmask_bit_is_set, nrf_bitmask_bit_set, Nat.testBit_two_pow, Bool.or_comm]

theorem bit_is_set_clear (i j m : Nat) :
    nrf_bitmask_bit_is_set j (nrf_bitmask_bit_clear i m)
      = (nrf_bitmask_bit_is_set j m && !decide (i = j)) := by
  simp only [nrf_bitmask_bit_is_set, nrf_bitmask_bit_clear, Nat.testBit_xor, Nat.testBit_and,
    Nat.testBit_two_pow]
  cases m.testBit j <;> cases decide (i = j) <;> rfl

theorem bit_clear_set_of_not_set (i m : Nat) (h : nrf_bitmask_bit_is_set i m = false) :
    nrf_bitmask_bit_clear i (nrf_bitmask_bit_set i m) = m := by
  apply Nat.eq_of_testBit_eq
  intro j
  have h1 := bit_is_set_clear i j (nrf_bitmask_bit_set i m)
  rw [bit_is_set_set] at h1
  simp only [nrf_bitmask_bit_is_set] at h1 h
  rw [h1]
  by_cases hij : i = j
  · subst hij; simp [h]
  · simp [hij]

/-! ## Allocator -/

theorem alloc_of_lowest_free {β : Type} (cfg : Config) (s : State β) (i : Nat)
    (h : lowest_free cfg s i) :
    tmr_mngr_alloc cfg s
      = ((i : Int), { s with allocated_timers := nrf_bitmask_bit_set i s.allocated_timers }) := by
  obtain ⟨hi, hf, hlow⟩ := h
  have hfind : (List.range cfg.num).find? (fun i =>
      nrf_bitmask_bit_is_set i cfg.aval && !nrf_bitmask_bit_is_set i s.allocated_timers)
      = some i := by
    rw [List.find?_range_eq_some]
    refine ⟨by simp [hf.1, hf.2], by simpa using hi, ?_⟩
    intro j hj
    have := hlow j hj
    simp only [free_slot, not_and, Bool.not_eq_false] at this
    cases h1 : nrf_bitmask_bit_is_set j cfg.aval <;> simp [h1] at this ⊢
    exact this
  simp [tmr_mngr_alloc, hfind]

theorem alloc_of_no_free {β : Type} (cfg : Config) (s : State β)
    (h : ∀ i, i < cfg.num → ¬ free_slot cfg s i) :
    tmr_mngr_alloc cfg s = (-ENOMEM, s) := by
  have hfind : (List.range cfg.num).find? (fun i =>
      nrf_bitmask_bit_is_set i cfg.aval && !nrf_bitmask_bit_is_set i s.allocated_timers)
      = none := by
    rw [List.find?_range_eq_none]
    intro j hj
    have := h j hj
    simp only [free_slot, not_and, Bool.not_eq_false] at this
    cases h1 : nrf_bitmask_bit_is_set j cfg.aval <;> simp [h1] at this ⊢
    exact this
  simp [tmr_mngr_alloc, hfind]

theorem lowest_free_or_none {β : Type} (cfg : Config) (s : State β) :
    (∃ i, lowest_free cfg s i) ∨ (∀ i, i < cfg.num → ¬ free_slot cfg s i) := by
  by_cases h : ∃ i, i < cfg.num ∧ free_slot cfg s i
  · left
    classical
    refine ⟨Nat.find h, (Nat.find_spec h).1, (Nat.find_spec h).2, ?_⟩
    intro j hj hfj
    exact Nat.find_min h hj ⟨lt_trans hj (Nat.find_spec h).1, hfj⟩
  · right
    intro i hi hf
    exact h ⟨i, hi, hf⟩

theorem lowest_free_unique {β : Type} (cfg : Config) (s : State β) (i j : Nat)
    (hi : lowest_free cfg s i) (hj : lowest_free cfg s j) : i = j := by
  rcases Nat.lt_trichotomy i j with h | h | h
  · exact absurd hi.2.1 (hj.2.2 i h)
  · exact h
  · exact absurd hj.2.1 (hi.2.2 j h)
/-! ## `tmr_mngr_start` -/

theorem start_of_no_free {β : Type} (cfg : Config) (B : Backend β) (s : State β)
    (mode : tmr_mngr_mode) (value context : Nat)
    (h : ∀ i, i < cfg.num → ¬ free_slot cfg s i) :
    tmr_mngr_start cfg B s mode value context = (-EPERM, s) := by
  simp [tmr_mngr_start, alloc_of_no_free cfg s h, ENOMEM]

theorem start_of_lowest_free {β : Type} (cfg : Config) (B : Backend β) (s : State β)
    (mode : tmr_mngr_mode) (value context : Nat) (i : Nat) (h : lowest_free cfg s i) :
    tmr_mngr_start cfg B s mode value context =
      start_finish cfg i (vrtc_reconfig cfg B (start_entry s i context) i mode value) := by
  simp [tmr_mngr_start, alloc_of_lowest_free cfg s i h, start_finish, start_entry]

/-! ## `vrtc_reconfig` -/

/-- With at most 256 slots, the conversion of a slot index below `TMR_MNGR_NUM` to `uint8_t`
keeps the index. -/
theorem slot_narrow (cfg : Config) (hnum : cfg.num ≤ 256) (i : Nat) (hi : i < cfg.num) :
    i % 256 = i :=
  Nat.mod_eq_of_lt (lt_of_lt_of_le hi hnum)

theorem vrtc_reconfig_allocated {β : Type} (cfg : Config) (B : Backend β) (s : State β)
    (i : Nat) (mode : tmr_mngr_mode) (value : Nat) :
    (vrtc_reconfig cfg B s i mode value).2.allocated_timers = s.allocated_timers := by
  unfold vrtc_reconfig
  cases mode <;> simp only [set_inst] <;> split_ifs <;> (try rfl) <;> split <;>
    (try split_ifs) <;> rfl

theorem vrtc_reconfig_assert {β : Type} (cfg : Config) (B : Backend β) (s : State β)
    (i : Nat) (mode : tmr_mngr_mode) (value : Nat) :
    (vrtc_reconfig cfg B s i mode value).2.assert_failed = s.assert_failed := by
  unfold vrtc_reconfig
  cases mode <;> simp only [set_inst] <;> split_ifs <;> (try rfl) <;> split <;>
    (try split_ifs) <;> rfl

theorem vrtc_reconfig_inst_ne {β : Type} (cfg : Config) (B : Backend β) (s : State β)
    (i : Nat) (mode : tmr_mngr_mode) (value : Nat) (j : Nat) (hj : j ≠ i % 256) :
    (vrtc_reconfig cfg B s i mode value).2.vrtc_instances j = s.vrtc_instances j := by
  unfold vrtc_reconfig
  generalize i % 256 = k at hj ⊢
  cases mode <;> simp only [set_inst] <;> split_ifs <;> (try simp [hj]) <;> split <;>
    (try split_ifs) <;> simp [hj]

theorem vrtc_reconfig_inst_fields {β : Type} (cfg : Config) (B : Backend β) (s : State β)
    (i : Nat) (mode : tmr_mngr_mode) (value : Nat) (j : Nat) :
    ((vrtc_reconfig cfg B s i mode value).2.vrtc_instances j).state
        = (s.vrtc_instances j).state
    ∧ ((vrtc_reconfig cfg B s i mode value).2.vrtc_instances j).timer_id
        = (s.vrtc_instances j).timer_id
    ∧ ((vrtc_reconfig cfg B s i mode value).2.vrtc_instances j).reload
        = (s.vrtc_instances j).reload
    ∧ ((vrtc_reconfig cfg B s i mode value).2.vrtc_instances j).context
        = (s.vrtc_instances j).context := by
  by_cases hj : j = i % 256
  · unfold vrtc_reconfig
    generalize i % 256 = k at hj ⊢
    subst hj
    cases mode <;> simp only [set_inst] <;> split_ifs <;> (try simp) <;> split <;>
      (try split_ifs) <;> simp
  · rw [vrtc_reconfig_inst_ne cfg B s i mode value j hj]
    simp

/-- When the backend rejects the deadline of a timer that is not forced, `vrtc_reconfig`
returns `-EFAULT` without touching the queue or the log. -/
theorem vrtc_reconfig_rejected {β : Type} (cfg : Config) (B : Backend β) (s : State β)
    (i : Nat) (mode : tmr_mngr_mode) (value : Nat)
    (hc : start_check cfg B s mode value = false) (hm : mode ≠ tmr_mngr_mode.ONE_SHOT_FORCE) :
    (vrtc_reconfig cfg B s i mode value).1 = -EFAULT
    ∧ (vrtc_reconfig cfg B s i mode value).2.pot = s.pot
    ∧ (vrtc_reconfig cfg B s i mode value).2.log = s.log := by
  unfold vrtc_reconfig
  cases mode <;>
    simp_all [set_inst, start_check, start_deadline, start_check_back]

/-- When the deadline is accepted or forced, `vrtc_reconfig` pushes the instance with the
converted index, with the deadline `start_pushed_deadline`, and asks the backend to arm exactly
when the queue minimum changed; its result is the backend's answer, or `0` when no request was
made. -/
theorem vrtc_reconfig_accepted {β : Type} (cfg : Config) (B : Backend β) (s : State β)
    (i : Nat) (mode : tmr_mngr_mode) (value : Nat)
    (h : start_check cfg B s mode value = true ∨ mode = tmr_mngr_mode.ONE_SHOT_FORCE) :
    ((vrtc_reconfig cfg B s i mode value).2.vrtc_instances (i % 256)).next_cc_value
        = start_pushed_deadline cfg B s mode value
    ∧ ((vrtc_reconfig cfg B s i mode value).2.vrtc_instances (i % 256)).vrtc_mode = mode
    ∧ (mode = tmr_mngr_mode.PERIODIC →
        ((vrtc_reconfig cfg B s i mode value).2.vrtc_instances (i % 256)).periodic_value = value)
    ∧ (vrtc_reconfig cfg B s i mode value).2.pot
        = pot_push (vrtc_reconfig cfg B s i mode value).2.vrtc_instances cfg.pot_new_first
            (i % 256) s.pot
    ∧ ((pot_get (vrtc_reconfig cfg B s i mode value).2.pot = pot_get s.pot
          ∧ (vrtc_reconfig cfg B s i mode value).1 = 0
          ∧ (vrtc_reconfig cfg B s i mode value).2.log = s.log)
        ∨ (pot_get (vrtc_reconfig cfg B s i mode value).2.pot ≠ pot_get s.pot
          ∧ ∃ n v, pot_get (vrtc_reconfig cfg B s i mode value).2.pot = some n
            ∧ v = ((vrtc_reconfig cfg B s i mode value).2.vrtc_instances n).next_cc_value
            ∧ (vrtc_reconfig cfg B s i mode value).2.log
                = s.log ++ [Event.cc_sync v (vrtc_reconfig cfg B s i mode value).1])) := by
  unfold vrtc_reconfig
  generalize i % 256 = k
  have hpush : ∀ (inst : Nat → pot_element) (q : List Nat),
      ∃ n, pot_get (pot_push inst cfg.pot_new_first k q) = some n := by
    intro inst q
    cases q with
    | nil => exact ⟨k, rfl⟩
    | cons x q =>
      simp only [pot_push, pot_get]
      split_ifs
      · exact ⟨k, rfl⟩
      · exact ⟨x, rfl⟩
  cases hcv : start_check cfg B s mode value <;> cases mode <;>
    simp_all [set_inst, start_check, start_deadline, start_check_back, start_pushed_deadline]
  all_goals
    split
    · rename_i n hn
      split_ifs with hcur
      · simp [hn, hcur]
      · simp [hn]
        exact fun h => hcur h.symm
    · rename_i hn
      obtain ⟨n, hn1⟩ := hpush _ s.pot
      rw [hn1] at hn
      cases hn
/-! ## `tmr_mngr_free` and `start_finish` -/

@[simp] theorem free_pot {β : Type} (cfg : Config) (s : State β) (i : Nat) :
    (tmr_mngr_free cfg s i).pot = s.pot := by
  unfold tmr_mngr_free; split_ifs <;> rfl

@[simp] theorem free_log {β : Type} (cfg : Config) (s : State β) (i : Nat) :
    (tmr_mngr_free cfg s i).log = s.log := by
  unfold tmr_mngr_free; split_ifs <;> rfl

@[simp] theorem free_back {β : Type} (cfg : Config) (s : State β) (i : Nat) :
    (tmr_mngr_free cfg s i).back = s.back := by
  unfold tmr_mngr_free; split_ifs <;> rfl

@[simp] theorem free_inst {β : Type} (cfg : Config) (s : State β) (i : Nat) :
    (tmr_mngr_free cfg s i).vrtc_instances = s.vrtc_instances := by
  unfold tmr_mngr_free; split_ifs <;> rfl

@[simp] theorem free_assert {β : Type} (cfg : Config) (s : State β) (i : Nat) :
    (tmr_mngr_free cfg s i).assert_failed = s.assert_failed := by
  unfold tmr_mngr_free; split_ifs <;> rfl

/-- After `tmr_mngr_free`, the in-use bit of slot `j` is set exactly when it was set before and
`j` is not a released eligible slot. -/
theorem free_bit {β : Type} (cfg : Config) (s : State β) (i j : Nat) :
    nrf_bitmask_bit_is_set j (tmr_mngr_free cfg s i).allocated_timers
      = (nrf_bitmask_bit_is_set j s.allocated_timers
          && !(decide (i = j) && nrf_bitmask_bit_is_set i cfg.aval)) := by
  unfold tmr_mngr_free
  split_ifs with h
  · simp only [bit_is_set_clear]
    simp only [Bool.and_eq_true] at h
    simp [h.1]
  · by_cases hij : i = j
    · subst hij
      cases h1 : nrf_bitmask_bit_is_set i cfg.aval <;>
        cases h2 : nrf_bitmask_bit_is_set i s.allocated_timers <;> simp_all
    · simp [hij]

theorem free_bit_ne {β : Type} (cfg : Config) (s : State β) (i j : Nat) (h : i ≠ j) :
    nrf_bitmask_bit_is_set j (tmr_mngr_free cfg s i).allocated_timers
      = nrf_bitmask_bit_is_set j s.allocated_timers := by
  rw [free_bit]; simp [h]

/-- Releasing a slot that was just allocated restores the in-use bitmask. -/
theorem free_after_set {β : Type} (cfg : Config) (s t : State β) (i : Nat)
    (hf : free_slot cfg s i)
    (ht : t.allocated_timers = nrf_bitmask_bit_set i s.allocated_timers) :
    (tmr_mngr_free cfg t i).allocated_timers = s.allocated_timers := by
  unfold tmr_mngr_free
  have h1 : nrf_bitmask_bit_is_set i t.allocated_timers = true := by
    rw [ht, bit_is_set_set]; simp
  simp only [hf.1, h1, Bool.and_self, if_true]
  rw [ht]
  exact bit_clear_set_of_not_set i _ hf.2

@[simp] theorem set_inst_pot {β : Type} (s : State β) (i : Nat) (e : pot_element) :
    (set_inst s i e).pot = s.pot := rfl

@[simp] theorem set_inst_log {β : Type} (s : State β) (i : Nat) (e : pot_element) :
    (set_inst s i e).log = s.log := rfl

@[simp] theorem set_inst_back {β : Type} (s : State β) (i : Nat) (e : pot_element) :
    (set_inst s i e).back = s.back := rfl

@[simp] theorem set_inst_allocated {β : Type} (s : State β) (i : Nat) (e : pot_element) :
    (set_inst s i e).allocated_timers = s.allocated_timers := rfl

@[simp] theorem set_inst_assert {β : Type} (s : State β) (i : Nat) (e : pot_element) :
    (set_inst s i e).assert_failed = s.assert_failed := rfl

@[simp] theorem set_inst_same {β : Type} (s : State β) (i : Nat) (e : pot_element) :
    (set_inst s i e).vrtc_instances i = e := by
  simp [set_inst]

theorem set_inst_ne {β : Type} (s : State β) (i j : Nat) (e : pot_element) (h : j ≠ i) :
    (set_inst s i e).vrtc_instances j = s.vrtc_instances j := by
  simp [set_inst, h]

@[simp] theorem start_entry_pot {β : Type} (s : State β) (i c : Nat) :
    (start_entry s i c).pot = s.pot := rfl

@[simp] theorem start_entry_log {β : Type} (s : State β) (i c : Nat) :
    (start_entry s i c).log = s.log := rfl

@[simp] theorem start_entry_back {β : Type} (s : State β) (i c : Nat) :
    (start_entry s i c).back = s.back := rfl

@[simp] theorem start_entry_assert {β : Type} (s : State β) (i c : Nat) :
    (start_entry s i c).assert_failed = s.assert_failed := rfl

@[simp] theorem start_entry_allocated {β : Type} (s : State β) (i c : Nat) :
    (start_entry s i c).allocated_timers = nrf_bitmask_bit_set i s.allocated_timers := rfl

@[simp] theorem start_entry_check {β : Type} (cfg : Config) (B : Backend β) (s : State β)
    (i c : Nat) (mode : tmr_mngr_mode) (value : Nat) :
    start_check cfg B (start_entry s i c) mode value = start_check cfg B s mode value := by
  cases mode <;> rfl

@[simp] theorem start_entry_pushed_deadline {β : Type} (cfg : Config) (B : Backend β)
    (s : State β) (i c : Nat) (mode : tmr_mngr_mode) (value : Nat) :
    start_pushed_deadline cfg B (start_entry s i c) mode value
      = start_pushed_deadline cfg B s mode value := by
  cases mode <;> rfl

/-- The three ways `tmr_mngr_start` ends. Either no slot is free and it returns `-EPERM` with
the state untouched; or the deadline of a timer that is not forced is rejected and it returns
`-EFAULT` with bitmask, queue, log and slot states as before; or the instance is pushed. -/
theorem start_rejected {β : Type} (cfg : Config) (B : Backend β) (s : State β)
    (mode : tmr_mngr_mode) (value context : Nat)
    (hfree : ∃ i, i < cfg.num ∧ free_slot cfg s i)
    (hc : start_check cfg B s mode value = false) (hm : mode ≠ tmr_mngr_mode.ONE_SHOT_FORCE) :
    (tmr_mngr_start cfg B s mode value context).1 = -EFAULT
    ∧ (tmr_mngr_start cfg B s mode value context).2.allocated_timers = s.allocated_timers
    ∧ (tmr_mngr_start cfg B s mode value context).2.pot = s.pot
    ∧ (tmr_mngr_start cfg B s mode value context).2.log = s.log
    ∧ (tmr_mngr_start cfg B s mode value context).2.assert_failed = s.assert_failed
    ∧ ∀ j, ((tmr_mngr_start cfg B s mode value context).2.vrtc_instances j).state
          = (s.vrtc_instances j).state := by
  rcases lowest_free_or_none cfg s with ⟨i, hi⟩ | hnone
  · rw [start_of_lowest_free cfg B s mode value context i hi]
    have hr := vrtc_reconfig_rejected cfg B (start_entry s i context) i mode value
      (by simpa using hc) hm
    have hne : (vrtc_reconfig cfg B (start_entry s i context) i mode value).1 ≠ 0 := by
      rw [hr.1]; decide
    simp only [start_finish, hne, if_false]
    refine ⟨hr.1, ?_, by simp [hr.2.1], by simp [hr.2.2], ?_, ?_⟩
    · apply free_after_set cfg s _ i hi.2.1
      simp [vrtc_reconfig_allocated]
    · simp [vrtc_reconfig_assert]
    · intro j
      have hf := (vrtc_reconfig_inst_fields cfg B (start_entry s i context) i mode value j).1
      by_cases hj : j = i
      · subst hj
        simp only [free_inst, set_inst_same]
        rw [hf]; simp [start_entry]
      · simp only [free_inst, set_inst_ne _ _ _ _ hj]
        rw [hf]; simp [start_entry, set_inst, hj]
  · obtain ⟨i, hi, hf⟩ := hfree
    exact absurd hf (hnone i hi)
/-! ## The accepted path of `tmr_mngr_start` -/

theorem vrtc_reconfig_accepted_inst {β : Type} (cfg : Config) (B : Backend β) (s : State β)
    (i : Nat) (mode : tmr_mngr_mode) (value : Nat)
    (h : start_check cfg B s mode value = true ∨ mode = tmr_mngr_mode.ONE_SHOT_FORCE) :
    (vrtc_reconfig cfg B s i mode value).2.vrtc_instances
      = Function.update s.vrtc_instances (i % 256)
          { s.vrtc_instances (i % 256) with
            vrtc_mode := mode,
            periodic_value :=
              if mode = tmr_mngr_mode.PERIODIC then value
              else (s.vrtc_instances (i % 256)).periodic_value,
            next_cc_value := start_pushed_deadline cfg B s mode value } := by
  unfold vrtc_reconfig
  generalize i % 256 = k
  cases hcv : start_check cfg B s mode value <;> cases mode <;>
    simp_all [set_inst, start_check, start_deadline, start_check_back, start_pushed_deadline]
  all_goals
    split
    · split_ifs <;> rfl
    · rfl

theorem pot_push_congr (inst1 inst2 : Nat → pot_element) (nf : Bool) (e : Nat) (q : List Nat)
    (h : ∀ j, (inst1 j).next_cc_value = (inst2 j).next_cc_value) :
    pot_push inst1 nf e q = pot_push inst2 nf e q := by
  induction q with
  | nil => rfl
  | cons x q ih => simp only [pot_push, h, ih]

/-- The return value and the in-use bitmask of `tmr_mngr_start` when the instance is pushed:
the slot and its bit when `vrtc_reconfig` returned `0`, the error and the bitmask as before
otherwise. -/
theorem start_accepted_ret {β : Type} (cfg : Config) (B : Backend β) (s : State β)
    (mode : tmr_mngr_mode) (value context : Nat) (i : Nat) (hi : lowest_free cfg s i) :
    (start_arm_result cfg B s i mode value context = 0 →
      (tmr_mngr_start cfg B s mode value context).1 = (i : Int)
      ∧ (tmr_mngr_start cfg B s mode value context).2.allocated_timers
          = nrf_bitmask_bit_set i s.allocated_timers)
    ∧ (start_arm_result cfg B s i mode value context ≠ 0 →
      (tmr_mngr_start cfg B s mode value context).1
          = start_arm_result cfg B s i mode value context
      ∧ (tmr_mngr_start cfg B s mode value context).2.allocated_timers = s.allocated_timers) := by
  rw [start_of_lowest_free cfg B s mode value context i hi]
  unfold start_arm_result
  constructor
  · intro hr
    simp only [start_finish, hr, if_true]
    exact ⟨trivial, by simp [vrtc_reconfig_allocated]⟩
  · intro hr
    simp only [start_finish, hr, if_false]
    refine ⟨trivial, ?_⟩
    apply free_after_set cfg s _ i hi.2.1
    simp [vrtc_reconfig_allocated]

/-- The queue after `tmr_mngr_start` when the instance is pushed: the record with the converted
index is pushed with the deadline `start_pushed_deadline`, and the deadline of every other
record is as before. -/
theorem start_accepted_pot {β : Type} (cfg : Config) (B : Backend β) (s : State β)
    (mode : tmr_mngr_mode) (value context : Nat) (i : Nat) (hi : lowest_free cfg s i)
    (h : start_check cfg B s mode value = true ∨ mode = tmr_mngr_mode.ONE_SHOT_FORCE) :
    (tmr_mngr_start cfg B s mode value context).2.pot
        = pot_push (tmr_mngr_start cfg B s mode value context).2.vrtc_instances
            cfg.pot_new_first (i % 256) s.pot
    ∧ ((tmr_mngr_start cfg B s mode value context).2.vrtc_instances (i % 256)).next_cc_value
        = start_pushed_deadline cfg B s mode value
    ∧ ∀ j, j ≠ i % 256 →
        ((tmr_mngr_start cfg B s mode value context).2.vrtc_instances j).next_cc_value
          = (s.vrtc_instances j).next_cc_value := by
  have h1 : start_check cfg B (start_entry s i context) mode value = true
      ∨ mode = tmr_mngr_mode.ONE_SHOT_FORCE := by simpa using h
  have hacc := vrtc_reconfig_accepted cfg B (start_entry s i context) i mode value h1
  rw [start_entry_pushed_deadline] at hacc
  have hnc : ∀ (e : pot_element → pot_element), (∀ x, (e x).next_cc_value = x.next_cc_value) →
      ∀ j, ((set_inst (vrtc_reconfig cfg B (start_entry s i context) i mode value).2 i
          (e ((vrtc_reconfig cfg B (start_entry s i context) i mode value).2.vrtc_instances
            i))).vrtc_instances j).next_cc_value
        = ((vrtc_reconfig cfg B (start_entry s i context) i mode value).2.vrtc_instances
            j).next_cc_value := by
    intro e he j
    by_cases hj : j = i
    · subst hj; simp [he]
    · simp [set_inst_ne _ _ _ _ hj]
  have hfin : ∀ j, ((start_finish cfg i
        (vrtc_reconfig cfg B (start_entry s i context) i mode value)).2.vrtc_instances
          j).next_cc_value
      = ((vrtc_reconfig cfg B (start_entry s i context) i mode value).2.vrtc_instances
          j).next_cc_value := by
    intro j
    unfold start_finish
    split_ifs
    · exact hnc (fun x => { x with state := tmr_mngr_state.ARMED }) (fun _ => rfl) j
    · simp only [free_inst]
      exact hnc (fun x => { x with context := 0 }) (fun _ => rfl) j
  have hpot : (start_finish cfg i
        (vrtc_reconfig cfg B (start_entry s i context) i mode value)).2.pot
      = (vrtc_reconfig cfg B (start_entry s i context) i mode value).2.pot := by
    unfold start_finish
    split_ifs <;> simp
  rw [start_of_lowest_free cfg B s mode value context i hi]
  refine ⟨?_, ?_, ?_⟩
  · rw [hpot, hacc.2.2.2.1]
    simp only [start_entry_pot]
    apply pot_push_congr
    intro j
    exact (hfin j).symm
  · rw [hfin, hacc.1]
  · intro j hj
    rw [hfin, vrtc_reconfig_inst_ne cfg B (start_entry s i context) i mode value j hj]
    by_cases hji : j = i
    · subst hji; simp [start_entry]
    · simp [start_entry, set_inst, hji]

/-- The instance record `tmr_mngr_start` leaves in slot `i` when the instance is pushed and the
call succeeds. -/
theorem start_accepted_ok {β : Type} (cfg : Config) (hnum : cfg.num ≤ 256) (B : Backend β)
    (s : State β) (mode : tmr_mngr_mode) (value context : Nat) (i : Nat)
    (hi : lowest_free cfg s i)
    (h : start_check cfg B s mode value = true ∨ mode = tmr_mngr_mode.ONE_SHOT_FORCE)
    (hr : start_arm_result cfg B s i mode value context = 0) :
    (tmr_mngr_start cfg B s mode value context).1 = (i : Int)
    ∧ (tmr_mngr_start cfg B s mode value context).2.vrtc_instances
        = Function.update s.vrtc_instances i
            { s.vrtc_instances i with
              state := tmr_mngr_state.ARMED,
              context := context,
              vrtc_mode := mode,
              periodic_value :=
                if mode = tmr_mngr_mode.PERIODIC then value
                else (s.vrtc_instances i).periodic_value,
              next_cc_value := start_pushed_deadline cfg B s mode value }
    ∧ (tmr_mngr_start cfg B s mode value context).2.allocated_timers
        = nrf_bitmask_bit_set i s.allocated_timers
    ∧ (tmr_mngr_start cfg B s mode value context).2.pot
        = pot_push (tmr_mngr_start cfg B s mode value context).2.vrtc_instances
            cfg.pot_new_first i s.pot
    ∧ (tmr_mngr_start cfg B s mode value context).2.assert_failed = s.assert_failed := by
  have h1 : start_check cfg B (start_entry s i context) mode value = true
      ∨ mode = tmr_mngr_mode.ONE_SHOT_FORCE := by simpa using h
  have hinst := vrtc_reconfig_accepted_inst cfg B (start_entry s i context) i mode value h1
  rw [start_entry_pushed_deadline, slot_narrow cfg hnum i hi.1] at hinst
  have hacc := vrtc_reconfig_accepted cfg B (start_entry s i context) i mode value h1
  rw [slot_narrow cfg hnum i hi.1] at hacc
  rw [start_of_lowest_free cfg B s mode value context i hi]
  unfold start_arm_result at hr
  simp only [start_finish, hr, if_true]
  refine ⟨trivial, ?_, ?_, ?_, ?_⟩
  · simp only [set_inst, hinst]
    simp [start_entry, set_inst]
  · simp [vrtc_reconfig_allocated]
  · simp only [set_inst_pot]
    rw [hacc.2.2.2.1]
    simp only [start_entry_pot]
    apply pot_push_congr
    intro j
    by_cases hj : j = i
    · subst hj; simp
    · simp [set_inst_ne _ _ _ _ hj]
  · simp [vrtc_reconfig_assert]

/-- The state `tmr_mngr_start` leaves when the instance is pushed and the backend's arm
function reports a failure: the slot is released and its record keeps its state, but the
instance stays in the queue. -/
theorem start_accepted_err {β : Type} (cfg : Config) (hnum : cfg.num ≤ 256) (B : Backend β)
    (s : State β) (mode : tmr_mngr_mode) (value context : Nat) (i : Nat)
    (hi : lowest_free cfg s i)
    (h : start_check cfg B s mode value = true ∨ mode = tmr_mngr_mode.ONE_SHOT_FORCE)
    (hr : start_arm_result cfg B s i mode value context ≠ 0) :
    (tmr_mngr_start cfg B s mode value context).1
        = start_arm_result cfg B s i mode value context
    ∧ (tmr_mngr_start cfg B s mode value context).2.vrtc_instances
        = Function.update s.vrtc_instances i
            { s.vrtc_instances i with
              context := 0,
              vrtc_mode := mode,
              periodic_value :=
                if mode = tmr_mngr_mode.PERIODIC then value
                else (s.vrtc_instances i).periodic_value,
              next_cc_value := start_pushed_deadline cfg B s mode value }
    ∧ (tmr_mngr_start cfg B s mode value context).2.allocated_timers = s.allocated_timers
    ∧ (tmr_mngr_start cfg B s mode value context).2.pot
        = pot_push (tmr_mngr_start cfg B s mode value context).2.vrtc_instances
            cfg.pot_new_first i s.pot
    ∧ (tmr_mngr_start cfg B s mode value context).2.assert_failed = s.assert_failed := by
  have h1 : start_check cfg B (start_entry s i context) mode value = true
      ∨ mode = tmr_mngr_mode.ONE_SHOT_FORCE := by simpa using h
  have hinst := vrtc_reconfig_accepted_inst cfg B (start_entry s i context) i mode value h1
  rw [start_entry_pushed_deadline, slot_narrow cfg hnum i hi.1] at hinst
  have hacc := vrtc_reconfig_accepted cfg B (start_entry s i context) i mode value h1
  rw [slot_narrow cfg hnum i hi.1] at hacc
  rw [start_of_lowest_free cfg B s mode value context i hi]
  unfold start_arm_result at hr
  simp only [start_finish, hr, if_false]
  refine ⟨rfl, ?_, ?_, ?_, ?_⟩
  · simp only [free_inst, set_inst, hinst]
    simp [start_entry, set_inst]
  · apply free_after_set cfg s _ i hi.2.1
    simp [vrtc_reconfig_allocated]
  · simp only [free_pot, set_inst_pot, free_inst]
    rw [hacc.2.2.2.1]
    simp only [start_entry_pot]
    apply pot_push_congr
    intro j
    by_cases hj : j = i
    · subst hj; simp
    · simp [set_inst_ne _ _ _ _ hj]
  · simp [vrtc_reconfig_assert]

/-- The log and the result of `tmr_mngr_start` when the instance is pushed: either the queue
minimum is unchanged, no arm request is made and `vrtc_reconfig` returns `0`, or the minimum
changed and exactly one `tmr_back_cc_sync_handler` request is made, for the deadline of the new
minimum, whose answer is the result of `vrtc_reconfig`. -/
theorem start_accepted_log {β : Type} (cfg : Config) (B : Backend β) (s : State β)
    (mode : tmr_mngr_mode) (value context : Nat) (i : Nat) (hi : lowest_free cfg s i)
    (h : start_check cfg B s mode value = true ∨ mode = tmr_mngr_mode.ONE_SHOT_FORCE) :
    (pot_get (tmr_mngr_start cfg B s mode value context).2.pot = pot_get s.pot
      ∧ start_arm_result cfg B s i mode value context = 0
      ∧ (tmr_mngr_start cfg B s mode value context).2.log = s.log)
    ∨ (pot_get (tmr_mngr_start cfg B s mode value context).2.pot ≠ pot_get s.pot
      ∧ ∃ n, pot_get (tmr_mngr_start cfg B s mode value context).2.pot = some n
        ∧ (tmr_mngr_start cfg B s mode value context).2.log
            = s.log ++ [Event.cc_sync
                ((tmr_mngr_start cfg B s mode value context).2.vrtc_instances n).next_cc_value
                (start_arm_result cfg B s i mode value context)]) := by
  have h1 : start_check cfg B (start_entry s i context) mode value = true
      ∨ mode = tmr_mngr_mode.ONE_SHOT_FORCE := by simpa using h
  have hacc := vrtc_reconfig_accepted cfg B (start_entry s i context) i mode value h1
  rw [start_of_lowest_free cfg B s mode value context i hi]
  unfold start_arm_result
  rcases hacc.2.2.2.2 with ⟨hg, hz, hl⟩ | ⟨hg, n, v, hn, hv, hl⟩
  · left
    simp only [start_finish, hz, if_true, set_inst_pot, set_inst_log]
    exact ⟨hg, trivial, hl⟩
  · right
    by_cases hr : (vrtc_reconfig cfg B (start_entry s i context) i mode value).1 = 0
    · simp only [start_finish, hr, if_true, set_inst_pot, set_inst_log]
      refine ⟨hg, n, hn, ?_⟩
      rw [hl, hr, hv]
      by_cases hj : n = i
      · subst hj; simp
      · simp [set_inst_ne _ _ _ _ hj]
    · simp only [start_finish, hr, if_false, free_pot, free_log, free_inst, set_inst_pot,
        set_inst_log]
      refine ⟨hg, n, hn, ?_⟩
      rw [hl, hv]
      by_cases hj : n = i
      · subst hj; simp
      · simp [set_inst_ne _ _ _ _ hj]

/-- The result of `vrtc_reconfig` is `-EFAULT` from the deadline check exactly when the check
rejects a timer that is not forced. -/
theorem start_arm_result_rejected {β : Type} (cfg : Config) (B : Backend β) (s : State β)
    (mode : tmr_mngr_mode) (value context : Nat) (i : Nat)
    (hc : start_check cfg B s mode value = false) (hm : mode ≠ tmr_mngr_mode.ONE_SHOT_FORCE) :
    start_arm_result cfg B s i mode value context = -EFAULT := by
  unfold start_arm_result
  exact (vrtc_reconfig_rejected cfg B (start_entry s i context) i mode value
    (by simpa using hc) hm).1

theorem mem_pot_push (inst : Nat → pot_element) (nf : Bool) (e x : Nat) (q : List Nat) :
    x ∈ pot_push inst nf e q ↔ x = e ∨ x ∈ q := by
  induction q with
  | nil => simp [pot_push]
  | cons y q ih =>
    simp only [pot_push]
    split_ifs
    · simp
    · simp only [List.mem_cons, ih]
      tauto
theorem vrtc_reconfig_result {β : Type} (cfg : Config) (B : Backend β) (s : State β)
    (i : Nat) (mode : tmr_mngr_mode) (value : Nat) :
    (vrtc_reconfig cfg B s i mode value).1 = 0
    ∨ (vrtc_reconfig cfg B s i mode value).1 = -EFAULT
    ∨ ∃ b v, (vrtc_reconfig cfg B s i mode value).1 = (B.tmr_back_cc_sync_handler b v).1 := by
  unfold vrtc_reconfig
  simp only []
  split_ifs <;> (try split) <;> (try split_ifs) <;>
    first
    | exact Or.inl rfl
    | exact Or.inr (Or.inl rfl)
    | exact Or.inr (Or.inr ⟨_, _, rfl⟩)

theorem lowest_free_of_free {β : Type} (cfg : Config) (s : State β)
    (h : ∃ i, i < cfg.num ∧ free_slot cfg s i) : ∃ i, lowest_free cfg s i := by
  rcases lowest_free_or_none cfg s with hl | hn
  · exact hl
  · obtain ⟨i, hi, hf⟩ := h
    exact absurd hf (hn i hi)

/-! ## Rejected deadlines -/

/-- C10: `tmr_mngr_start` returns `-EFAULT` without having asked the backend to arm (that is,
`-EFAULT` from the deadline check) if and only if a slot is available, the mode is not
`ONE_SHOT_FORCE` and the backend reports the computed deadline as not safely programmable; in
that case the in-use bitmask, the queue and the log of backend requests are as before the
call. -/
theorem start_invalid_deadline_iff {β : Type} (cfg : Config) (B : Backend β) (s : State β)
    (mode : tmr_mngr_mode) (value context : Nat) :
    (((tmr_mngr_start cfg B s mode value context).1 = -EFAULT
        ∧ (tmr_mngr_start cfg B s mode value context).2.log = s.log)
      ↔ ((∃ i, i < cfg.num ∧ free_slot cfg s i)
          ∧ mode ≠ tmr_mngr_mode.ONE_SHOT_FORCE
          ∧ start_check cfg B s mode value = false))
    ∧ (((∃ i, i < cfg.num ∧ free_slot cfg s i)
          ∧ mode ≠ tmr_mngr_mode.ONE_SHOT_FORCE
          ∧ start_check cfg B s mode value = false)
        → (tmr_mngr_start cfg B s mode value context).2.allocated_timers = s.allocated_timers
          ∧ (tmr_mngr_start cfg B s mode value context).2.pot = s.pot
          ∧ (tmr_mngr_start cfg B s mode value context).2.log = s.log) := by
  refine ⟨⟨?_, ?_⟩, ?_⟩
  · rintro ⟨hret, hlog⟩
    rcases lowest_free_or_none cfg s with ⟨i, hi⟩ | hnone
    · refine ⟨⟨i, hi.1, hi.2.1⟩, ?_⟩
      by_cases hacc : start_check cfg B s mode value = true
          ∨ mode = tmr_mngr_mode.ONE_SHOT_FORCE
      · exfalso
        rcases start_accepted_log cfg B s mode value context i hi hacc with
          ⟨_, hz, _⟩ | ⟨_, n, _, hl⟩
        · have := ((start_accepted_ret cfg B s mode value context i hi).1 hz).1
          rw [this] at hret
          have h0 : (0 : Int) ≤ (i : Int) := Int.natCast_nonneg i
          rw [hret] at h0
          exact absurd h0 (by decide)
        · rw [hlog] at hl
          have := congrArg List.length hl
          simp at this
      · simp only [not_or, Bool.not_eq_true] at hacc
        exact ⟨hacc.2, hacc.1⟩
    · rw [start_of_no_free cfg B s mode value context hnone] at hret
      have hret1 : -EPERM = -EFAULT := hret
      exact absurd hret1 (by decide)
  · rintro ⟨hfree, hm, hc⟩
    have := start_rejected cfg B s mode value context hfree hc hm
    exact ⟨this.1, this.2.2.2.1⟩
  · rintro ⟨hfree, hm, hc⟩
    have := start_rejected cfg B s mode value context hfree hc hm
    exact ⟨this.2.1, this.2.2.1, this.2.2.2.1⟩

/-! ## Successful start -/

set_option maxRecDepth 1000000 in
/-- C9, counterexample: with 257 slots of which only slot 256 is eligible, the first start after
`tmr_mngr_init`, a one-shot timer with deadline 100, succeeds and returns slot 256, the lowest
free slot. `vrtc_reconfig` receives the slot as a `uint8_t`, that is, as 0: the queue holds
element 0 and not element 256, the `next_cc_value` of slot 256 is still 0, not 100, and the
`next_cc_value` of slot 0, another slot, has changed from 0 to 100. -/
theorem start_on_slot_256_queues_element_0 :
    (tmr_mngr_start cfg257 (mock 10) mock_init257 tmr_mngr_mode.ONE_SHOT 100 7).1 = 256
    ∧ (tmr_mngr_start cfg257 (mock 10) mock_init257 tmr_mngr_mode.ONE_SHOT 100 7).2.pot = [0]
    ∧ 256 ∉ (tmr_mngr_start cfg257 (mock 10) mock_init257 tmr_mngr_mode.ONE_SHOT 100 7).2.pot
    ∧ ((tmr_mngr_start cfg257 (mock 10) mock_init257 tmr_mngr_mode.ONE_SHOT 100
          7).2.vrtc_instances 256).next_cc_value = 0
    ∧ (mock_init257.vrtc_instances 0).next_cc_value = 0
    ∧ ((tmr_mngr_start cfg257 (mock 10) mock_init257 tmr_mngr_mode.ONE_SHOT 100
          7).2.vrtc_instances 0).next_cc_value = 100 := by
  refine ⟨by decide, by decide, by decide, by decide, by decide, by decide⟩

/-- C9, amended: with at most 256 slots, over a backend whose arm function returns `0` or a
negative error code, whenever `tmr_mngr_start` succeeds (returns a non-negative value), the
returned id is the lowest-numbered
slot that was eligible and not in use; afterwards that slot is in use, its state is `ARMED`,
its context is the given one, it is in the queue, and its `next_cc_value` is counter plus value
modulo `2 ^ width` for `PERIODIC`, the value for `ONE_SHOT` and for a safely programmable
`ONE_SHOT_FORCE`, and value plus minimum safe offset (in `timer_native_t` arithmetic, modulo
`2 ^ width`) for a `ONE_SHOT_FORCE` the backend rejects; in-use bit, state and `next_cc_value`
of every other slot are unchanged. -/
theorem start_success_post {β : Type} (cfg : Config) (hnum : cfg.num ≤ 256) (B : Backend β)
    (s : State β) (mode : tmr_mngr_mode) (value context : Nat)
    (hB : ∀ b v, (B.tmr_back_cc_sync_handler b v).1 ≤ 0)
    (hok : 0 ≤ (tmr_mngr_start cfg B s mode value context).1) :
    ∃ i, lowest_free cfg s i
      ∧ (tmr_mngr_start cfg B s mode value context).1 = (i : Int)
      ∧ in_use (tmr_mngr_start cfg B s mode value context).2 i
      ∧ ((tmr_mngr_start cfg B s mode value context).2.vrtc_instances i).state
          = tmr_mngr_state.ARMED
      ∧ ((tmr_mngr_start cfg B s mode value context).2.vrtc_instances i).context = context
      ∧ i ∈ (tmr_mngr_start cfg B s mode value context).2.pot
      ∧ (mode = tmr_mngr_mode.PERIODIC →
          ((tmr_mngr_start cfg B s mode value context).2.vrtc_instances i).next_cc_value
            = ((B.tmr_back_cnt_get_handler s.back).1 + value) % 2 ^ cfg.width)
      ∧ (mode = tmr_mngr_mode.ONE_SHOT →
          ((tmr_mngr_start cfg B s mode value context).2.vrtc_instances i).next_cc_value = value)
      ∧ (mode = tmr_mngr_mode.ONE_SHOT_FORCE →
          (B.tmr_back_constr_check_handler s.back value).1 = true →
          ((tmr_mngr_start cfg B s mode value context).2.vrtc_instances i).next_cc_value = value)
      ∧ (mode = tmr_mngr_mode.ONE_SHOT_FORCE →
          (B.tmr_back_constr_check_handler s.back value).1 = false →
          ((tmr_mngr_start cfg B s mode value context).2.vrtc_instances i).next_cc_value
            = (value + (B.tmr_back_cc_min_val_get_handler
                (B.tmr_back_constr_check_handler s.back value).2).1) % 2 ^ cfg.width)
      ∧ ∀ j, j ≠ i →
          nrf_bitmask_bit_is_set j (tmr_mngr_start cfg B s mode value context).2.allocated_timers
              = nrf_bitmask_bit_is_set j s.allocated_timers
          ∧ ((tmr_mngr_start cfg B s mode value context).2.vrtc_instances j).state
              = (s.vrtc_instances j).state
          ∧ ((tmr_mngr_start cfg B s mode value context).2.vrtc_instances j).next_cc_value
              = (s.vrtc_instances j).next_cc_value := by
  rcases lowest_free_or_none cfg s with ⟨i, hi⟩ | hnone
  · by_cases hacc : start_check cfg B s mode value = true
        ∨ mode = tmr_mngr_mode.ONE_SHOT_FORCE
    · by_cases hz : start_arm_result cfg B s i mode value context = 0
      · obtain ⟨hret, hinst, halloc, hpot, _⟩ :=
          start_accepted_ok cfg hnum B s mode value context i hi hacc hz
        refine ⟨i, hi, hret, ?_, ?_, ?_, ?_, ?_, ?_, ?_, ?_, ?_⟩
        · simp [in_use, halloc, bit_is_set_set]
        · simp [hinst]
        · simp [hinst]
        · rw [hpot, mem_pot_push]; exact Or.inl rfl
        · intro hm
          subst hm
          have hc : start_check cfg B s tmr_mngr_mode.PERIODIC value = true := by
            simpa using hacc
          simp [hinst, start_pushed_deadline, hc, start_deadline]
        · intro hm
          subst hm
          have hc : start_check cfg B s tmr_mngr_mode.ONE_SHOT value = true := by
            simpa using hacc
          simp [hinst, start_pushed_deadline, hc, start_deadline]
        · intro hm hc
          subst hm
          have hc1 : start_check cfg B s tmr_mngr_mode.ONE_SHOT_FORCE value = true := hc
          simp [hinst, start_pushed_deadline, hc1, start_deadline]
        · intro hm hc
          subst hm
          have hc1 : start_check cfg B s tmr_mngr_mode.ONE_SHOT_FORCE value = false := hc
          simp [hinst, start_pushed_deadline, hc1, start_deadline, start_check_back]
        · intro j hj
          refine ⟨?_, ?_, ?_⟩
          · rw [halloc, bit_is_set_set]; simp [Ne.symm hj]
          · rw [hinst]; simp [hj]
          · rw [hinst]; simp [hj]
      · exfalso
        have hret := (start_accepted_err cfg hnum B s mode value context i hi hacc hz).1
        rw [hret] at hok
        rcases vrtc_reconfig_result cfg B (start_entry s i context) i mode value with
          h0 | hf | ⟨b, v, hb⟩
        · exact hz h0
        · unfold start_arm_result at hok
          rw [hf] at hok
          exact absurd hok (by decide)
        · have := hB b v
          unfold start_arm_result at hok hz
          rw [hb] at hok hz
          exact hz (le_antisymm this hok)
    · exfalso
      simp only [not_or, Bool.not_eq_true] at hacc
      have := (start_rejected cfg B s mode value context ⟨i, hi.1, hi.2.1⟩ hacc.1 hacc.2).1
      rw [this] at hok
      exact absurd hok (by decide)
  · exfalso
    rw [start_of_no_free cfg B s mode value context hnone] at hok
    have hok1 : 0 ≤ -EPERM := hok
    exact absurd hok1 (by decide)

theorem mock_arm_nonpos (margin : Nat) (b : Mock) (v : Nat) :
    ((mock margin).tmr_back_cc_sync_handler b v).1 ≤ 0 := by
  simp only [mock]
  split_ifs <;> decide

set_option maxRecDepth 100000 in
/-- Witness of `start_success_post`: the first start of the specification scenario. -/
theorem start_success_post_witness :
    cfg4.num ≤ 256
    ∧ (∀ b v, ((mock 10).tmr_back_cc_sync_handler b v).1 ≤ 0)
    ∧ 0 ≤ (tmr_mngr_start cfg4 (mock 10) (mock_init 10) tmr_mngr_mode.PERIODIC 100 7).1
    ∧ ∃ i, lowest_free cfg4 (mock_init 10) i
      ∧ (tmr_mngr_start cfg4 (mock 10) (mock_init 10) tmr_mngr_mode.PERIODIC 100 7).1 = (i : Int)
      ∧ ((tmr_mngr_start cfg4 (mock 10) (mock_init 10) tmr_mngr_mode.PERIODIC 100
            7).2.vrtc_instances i).state = tmr_mngr_state.ARMED
      ∧ i ∈ (tmr_mngr_start cfg4 (mock 10) (mock_init 10) tmr_mngr_mode.PERIODIC 100 7).2.pot := by
  refine ⟨by decide, mock_arm_nonpos 10, by decide, ?_⟩
  obtain ⟨i, h1, h2, _, h4, _, h6, _⟩ :=
    start_success_post cfg4 (by decide) (mock 10) (mock_init 10) tmr_mngr_mode.PERIODIC 100 7
      (mock_arm_nonpos 10) (by decide)
  exact ⟨i, h1, h2, h4, h6⟩

/-! ## Forced one-shot timers -/

set_option maxRecDepth 100000 in
/-- C8, counterexample: over the mock backend with margin 10 and the clock at 100, a forced
one-shot timer with deadline 105 is rejected by the programmability check (105 is earlier than
100 + 10) and the start succeeds, but the instance is scheduled at 115, the requested deadline
plus the minimum safe offset, not at 110, the counter plus the minimum safe offset. -/
theorem forced_deadline_is_not_counter_plus_offset :
    ((mock 10).tmr_back_constr_check_handler (mock_at 100).back 105).1 = false
    ∧ ((mock 10).tmr_back_cnt_get_handler (mock_at 100).back).1
        + ((mock 10).tmr_back_cc_min_val_get_handler (mock_at 100).back).1 = 110
    ∧ (tmr_mngr_start cfg4 (mock 10) (mock_at 100) tmr_mngr_mode.ONE_SHOT_FORCE 105 7).1 = 0
    ∧ ((tmr_mngr_start cfg4 (mock 10) (mock_at 100) tmr_mngr_mode.ONE_SHOT_FORCE 105
          7).2.vrtc_instances 0).next_cc_value = 115
    ∧ ((tmr_mngr_start cfg4 (mock 10) (mock_at 100) tmr_mngr_mode.ONE_SHOT_FORCE 105
          7).2.vrtc_instances 0).next_cc_value
        ≠ ((mock 10).tmr_back_cnt_get_handler (mock_at 100).back).1
          + ((mock 10).tmr_back_cc_min_val_get_handler (mock_at 100).back).1 := by
  refine ⟨by decide, by decide, by decide, by decide, by decide⟩

/-- C8, amended: with at most 256 slots, a `ONE_SHOT_FORCE` start made while a slot is free,
whose deadline the backend's programmability check rejects, is not rejected by that check (it
does not return `-EFAULT` without an arm request); and when the call makes no arm request, or
its arm request returns `0`, it returns the lowest free slot, which is then `ARMED`, in use and
in the queue with `next_cc_value` equal to the requested deadline plus the backend's minimum
safe offset, modulo `2 ^ width`. -/
theorem start_forced_adds_min_offset {β : Type} (cfg : Config) (hnum : cfg.num ≤ 256)
    (B : Backend β) (s : State β) (value context : Nat)
    (hfree : ∃ i, i < cfg.num ∧ free_slot cfg s i)
    (hc : (B.tmr_back_constr_check_handler s.back value).1 = false) :
    ¬ ((tmr_mngr_start cfg B s tmr_mngr_mode.ONE_SHOT_FORCE value context).1 = -EFAULT
        ∧ (tmr_mngr_start cfg B s tmr_mngr_mode.ONE_SHOT_FORCE value context).2.log = s.log)
    ∧ ∃ i, lowest_free cfg s i
      ∧ (((tmr_mngr_start cfg B s tmr_mngr_mode.ONE_SHOT_FORCE value context).2.log = s.log
            ∨ ∃ v, (tmr_mngr_start cfg B s tmr_mngr_mode.ONE_SHOT_FORCE value context).2.log
                = s.log ++ [Event.cc_sync v 0])
          → (tmr_mngr_start cfg B s tmr_mngr_mode.ONE_SHOT_FORCE value context).1 = (i : Int)
            ∧ ((tmr_mngr_start cfg B s tmr_mngr_mode.ONE_SHOT_FORCE value
                  context).2.vrtc_instances i).next_cc_value
                = (value + (B.tmr_back_cc_min_val_get_handler
                    (B.tmr_back_constr_check_handler s.back value).2).1) % 2 ^ cfg.width
            ∧ i ∈ (tmr_mngr_start cfg B s tmr_mngr_mode.ONE_SHOT_FORCE value context).2.pot
            ∧ ((tmr_mngr_start cfg B s tmr_mngr_mode.ONE_SHOT_FORCE value
                  context).2.vrtc_instances i).state = tmr_mngr_state.ARMED
            ∧ in_use (tmr_mngr_start cfg B s tmr_mngr_mode.ONE_SHOT_FORCE value context).2 i) := by
  obtain ⟨i, hi⟩ := lowest_free_of_free cfg s hfree
  have hacc : start_check cfg B s tmr_mngr_mode.ONE_SHOT_FORCE value = true
      ∨ tmr_mngr_mode.ONE_SHOT_FORCE = tmr_mngr_mode.ONE_SHOT_FORCE := Or.inr rfl
  have hc1 : start_check cfg B s tmr_mngr_mode.ONE_SHOT_FORCE value = false := hc
  have hd : start_pushed_deadline cfg B s tmr_mngr_mode.ONE_SHOT_FORCE value
      = (value + (B.tmr_back_cc_min_val_get_handler
          (B.tmr_back_constr_check_handler s.back value).2).1) % 2 ^ cfg.width := by
    simp [start_pushed_deadline, hc1, start_deadline, start_check_back]
  refine ⟨?_, i, hi, ?_⟩
  · rintro ⟨hret, hlog⟩
    rcases start_accepted_log cfg B s _ value context i hi hacc with
      ⟨_, hz, _⟩ | ⟨_, n, _, hl⟩
    · rw [((start_accepted_ret cfg B s _ value context i hi).1 hz).1] at hret
      have h0 : (0 : Int) ≤ (i : Int) := Int.natCast_nonneg i
      rw [hret] at h0
      exact absurd h0 (by decide)
    · rw [hlog] at hl
      have := congrArg List.length hl
      simp at this
  · intro hlog
    have hz : start_arm_result cfg B s i tmr_mngr_mode.ONE_SHOT_FORCE value context = 0 := by
      rcases start_accepted_log cfg B s _ value context i hi hacc with
        ⟨_, hz, _⟩ | ⟨_, n, _, hl⟩
      · exact hz
      · rcases hlog with h0 | ⟨v, hv⟩
        · rw [h0] at hl
          have := congrArg List.length hl
          simp at this
        · rw [hv] at hl
          have h2 := List.append_cancel_left hl
          simp only [List.cons.injEq, Event.cc_sync.injEq, and_true] at h2
          exact h2.2.symm
    obtain ⟨hret, hinst, halloc, hpot, _⟩ :=
      start_accepted_ok cfg hnum B s tmr_mngr_mode.ONE_SHOT_FORCE value context i hi hacc hz
    refine ⟨hret, ?_, ?_, by simp [hinst], by simp [in_use, halloc, bit_is_set_set]⟩
    · rw [hinst]; simp [hd]
    · rw [hpot, mem_pot_push]; exact Or.inl rfl

set_option maxRecDepth 100000 in
/-- Witness of `start_forced_adds_min_offset`: the mock backend at clock 100 and the forced
deadline 105. -/
theorem start_forced_adds_min_offset_witness :
    cfg4.num ≤ 256
    ∧ (∃ i, i < cfg4.num ∧ free_slot cfg4 (mock_at 100) i)
    ∧ ((mock 10).tmr_back_constr_check_handler (mock_at 100).back 105).1 = false
    ∧ (∃ v, (tmr_mngr_start cfg4 (mock 10) (mock_at 100) tmr_mngr_mode.ONE_SHOT_FORCE 105
          7).2.log = (mock_at 100).log ++ [Event.cc_sync v 0])
    ∧ ∃ i, lowest_free cfg4 (mock_at 100) i
      ∧ (tmr_mngr_start cfg4 (mock 10) (mock_at 100) tmr_mngr_mode.ONE_SHOT_FORCE 105 7).1
          = (i : Int)
      ∧ ((tmr_mngr_start cfg4 (mock 10) (mock_at 100) tmr_mngr_mode.ONE_SHOT_FORCE 105
            7).2.vrtc_instances i).next_cc_value
          = (105 + ((mock 10).tmr_back_cc_min_val_get_handler
              ((mock 10).tmr_back_constr_check_handler (mock_at 100).back 105).2).1)
              % 2 ^ cfg4.width := by
  have hlog : ∃ v, (tmr_mngr_start cfg4 (mock 10) (mock_at 100) tmr_mngr_mode.ONE_SHOT_FORCE
      105 7).2.log = (mock_at 100).log ++ [Event.cc_sync v 0] := ⟨115, by decide⟩
  refine ⟨by decide, ⟨0, by decide, by decide⟩, by decide, hlog, ?_⟩
  obtain ⟨_, i, h1, h2⟩ :=
    start_forced_adds_min_offset cfg4 (by decide) (mock 10) (mock_at 100) 105 7
      ⟨0, by decide, by decide⟩ (by decide)
  exact ⟨i, h1, (h2 (Or.inr hlog)).1, (h2 (Or.inr hlog)).2.1⟩
/-! ## Evaluations on concrete traces -/

set_option maxRecDepth 100000 in
/-- C3: with the mock clock at 100, `tmr_mngr_start(ONE_SHOT_FORCE, 10)` computes the deadline
20, pushes slot 0 and asks the backend to arm at 20, which fails with `-EPERM`. The call
returns that error and releases the slot, but the instance stays in the queue: the queue was
empty before the call and holds slot 0 after it. -/
theorem start_arm_failure_leaves_instance_queued :
    (tmr_mngr_start cfg4 (mock 10) (mock_at 100) tmr_mngr_mode.ONE_SHOT_FORCE 10 7).1 = -EPERM
    ∧ (mock_at 100).pot = []
    ∧ (tmr_mngr_start cfg4 (mock 10) (mock_at 100) tmr_mngr_mode.ONE_SHOT_FORCE 10 7).2.pot = [0]
    ∧ (tmr_mngr_start cfg4 (mock 10) (mock_at 100) tmr_mngr_mode.ONE_SHOT_FORCE 10 7).2.log
        = [Event.cc_sync 20 (-EPERM)]
    ∧ (mock_at 100).allocated_timers = 0
    ∧ (tmr_mngr_start cfg4 (mock 10) (mock_at 100) tmr_mngr_mode.ONE_SHOT_FORCE 10
        7).2.allocated_timers = 0 := by
  refine ⟨by decide, by decide, by decide, by decide, by decide, by decide⟩

set_option maxRecDepth 100000 in
/-- C5: a one-shot timer is started on slot 0 with deadline 50 and fires in the handler run at
clock 50, which calls the handler and releases the slot but leaves its `state` field `ARMED`.
A following `tmr_mngr_stop(0)` does not fail with `-EPERM`: it returns `-EINPROGRESS` and
changes the state of the released slot to `STOPPED`. -/
theorem stop_after_one_shot_fired_is_accepted :
    (run cfg4 (mock 10) (mock_init 10)
        [Cmd.start tmr_mngr_mode.ONE_SHOT 50 9, Cmd.env { now := 50, armed := some 50 },
         Cmd.irq 1]).toOption.map
      (fun s => (s.log, nrf_bitmask_bit_is_set 0 s.allocated_timers, s.pot,
                 (s.vrtc_instances 0).state))
      = some ([Event.cc_sync 50 0, Event.pop 0 50, Event.callback 0 9], false, [],
              tmr_mngr_state.ARMED)
    ∧ (run cfg4 (mock 10) (mock_init 10)
        [Cmd.start tmr_mngr_mode.ONE_SHOT 50 9, Cmd.env { now := 50, armed := some 50 },
         Cmd.irq 1]).toOption.map
      (fun s => ((tmr_mngr_stop cfg4 (mock 10) s 0).1,
                 ((tmr_mngr_stop cfg4 (mock 10) s 0).2.vrtc_instances 0).state))
      = some (-EINPROGRESS, tmr_mngr_state.STOPPED) := by
  refine ⟨by decide, by decide⟩

set_option maxRecDepth 100000 in
/-- C6: one-shot timers are started on slot 0 (deadline 100) and slot 1 (deadline 500, never
stopped), and slot 0 is stopped on the safe path, which leaves the hardware armed at 100. The
handler run at clock 100 pops slot 1, whose deadline is 500, and calls its handler: the
callback happens in a handler run whose counter reading is 100, before the deadline. -/
theorem one_shot_fires_before_deadline :
    (run cfg4 (mock 10) (mock_init 10)
        [Cmd.start tmr_mngr_mode.ONE_SHOT 100 1]).toOption.map
      (fun s => (tmr_mngr_start cfg4 (mock 10) s tmr_mngr_mode.ONE_SHOT 500 2).1) = some 1
    ∧ (run cfg4 (mock 10) (mock_init 10)
        [Cmd.start tmr_mngr_mode.ONE_SHOT 100 1,
         Cmd.start tmr_mngr_mode.ONE_SHOT 500 2]).toOption.map
      (fun s => (tmr_mngr_stop cfg4 (mock 10) s 0).1) = some 0
    ∧ (run cfg4 (mock 10) (mock_init 10)
        [Cmd.start tmr_mngr_mode.ONE_SHOT 100 1, Cmd.start tmr_mngr_mode.ONE_SHOT 500 2,
         Cmd.stop 0]).toOption.map
      (fun s => (s.log, last_armed s.log, s.pot, (s.vrtc_instances 1).next_cc_value))
      = some ([Event.cc_sync 100 0], some 100, [1], 500)
    ∧ (run cfg4 (mock 10) (mock_init 10)
        [Cmd.start tmr_mngr_mode.ONE_SHOT 100 1, Cmd.start tmr_mngr_mode.ONE_SHOT 500 2,
         Cmd.stop 0, Cmd.env { now := 100, armed := some 100 }, Cmd.irq 1]).toOption.map
      (fun s => (s.log.drop 1, ((mock 10).tmr_back_cnt_get_handler s.back).1, s.pot,
                 nrf_bitmask_bit_is_set 1 s.allocated_timers))
      = some ([Event.pop 1 500, Event.callback 1 2], 100, [], false) := by
  refine ⟨by decide, by decide, by decide, by decide⟩

set_option maxRecDepth 100000 in
/-- C7, counterexample: a periodic timer with period 10 is started at counter 0 on slot 0. The
handler run at clock 25 pops it twice, with deadlines 10 and 20 (the arm request for 20 reports
`-EPERM` and the outer loop runs again); when that handler run returns, `next_cc_value` is 30,
not 20 as claimed for the first pop. -/
theorem periodic_popped_twice_in_one_run :
    (run cfg4 (mock 10) (mock_init 10)
        [Cmd.start tmr_mngr_mode.PERIODIC 10 1]).toOption.map
      (fun s => (s.log, s.pot, (s.vrtc_instances 0).next_cc_value)) = some ([Event.cc_sync 10 0], [0], 10)
    ∧ (run cfg4 (mock 10) (mock_init 10)
        [Cmd.start tmr_mngr_mode.PERIODIC 10 1, Cmd.env { now := 25, armed := some 10 },
         Cmd.irq 2]).toOption.map
      (fun s => (s.log.drop 1, s.pot, (s.vrtc_instances 0).next_cc_value))
      = some ([Event.pop 0 10, Event.callback 0 1, Event.cc 20 (-EPERM),
               Event.pop 0 20, Event.callback 0 1, Event.cc 30 0], [0], 30)
    ∧ (30 : Nat) ≠ (0 + (1 + 1) * 10) % 2 ^ cfg4.width := by
  refine ⟨by decide, by decide, by decide⟩

set_option maxRecDepth 100000 in
/-- C1, counterexample: after `tmr_mngr_init`, `start(OneShot, 100)` arms the hardware at 100
and `tmr_mngr_stop(0)` returns `0`; afterwards no instance is `ARMED` and the queue is empty,
but the last value the backend was asked to arm is still 100: the hardware is not disarmed. -/
theorem stop_leaves_hardware_armed :
    (run cfg4 (mock 10) (mock_init 10)
        [Cmd.start tmr_mngr_mode.ONE_SHOT 100 7]).toOption.map
      (fun s => (tmr_mngr_stop cfg4 (mock 10) s 0).1) = some 0
    ∧ (run cfg4 (mock 10) (mock_init 10)
        [Cmd.start tmr_mngr_mode.ONE_SHOT 100 7, Cmd.stop 0]).toOption.map
      (fun s => (s.back.armed, last_armed s.log, s.pot,
                 decide (∀ i, i < cfg4.num → (s.vrtc_instances i).state ≠ tmr_mngr_state.ARMED)))
      = some (some 100, some 100, [], true) := by
  refine ⟨by decide, by decide⟩

/-! ## The scenario of the specification -/

set_option maxRecDepth 100000 in
/-- C2: the scenario of the specification over four eligible slots and the mock backend with
margin 10. After `tmr_mngr_init`, `start(Periodic, 100)` at clock 0 returns slot 0 and arms the
hardware at 100; `start(OneShot, 50)` returns slot 1 and re-arms it at 50; the handler run at
clock 50 pops slot 1, calls the handler once, for slot 1 with its context 9, clears the in-use
bit of slot 1 and arms the hardware at 100; the handler run at clock 100 pops slot 0, calls the
handler for slot 0 with its context 7 and arms the hardware at 200. -/
theorem scenario_periodic_then_one_shot :
    (tmr_mngr_start cfg4 (mock 10) (mock_init 10) tmr_mngr_mode.PERIODIC 100 7).1 = 0
    ∧ (run cfg4 (mock 10) (mock_init 10)
          [Cmd.start tmr_mngr_mode.PERIODIC 100 7]).toOption.map
        (fun s => (s.log, s.back, last_armed s.log))
        = some ([Event.cc_sync 100 0], { now := 0, armed := some 100 }, some 100)
    ∧ (run cfg4 (mock 10) (mock_init 10)
          [Cmd.start tmr_mngr_mode.PERIODIC 100 7]).toOption.map
        (fun s => (tmr_mngr_start cfg4 (mock 10) s tmr_mngr_mode.ONE_SHOT 50 9).1) = some 1
    ∧ (run cfg4 (mock 10) (mock_init 10)
          [Cmd.start tmr_mngr_mode.PERIODIC 100 7,
           Cmd.start tmr_mngr_mode.ONE_SHOT 50 9]).toOption.map
        (fun s => (s.log.drop 1, s.back, last_armed s.log, s.allocated_timers))
        = some ([Event.cc_sync 50 0], { now := 0, armed := some 50 }, some 50, 3)
    ∧ (run cfg4 (mock 10) (mock_init 10)
          [Cmd.start tmr_mngr_mode.PERIODIC 100 7,
           Cmd.start tmr_mngr_mode.ONE_SHOT 50 9,
           Cmd.env { now := 50, armed := some 50 }, Cmd.irq 1]).toOption.map
        (fun s => (s.log.drop 2, s.back, last_armed s.log,
                   nrf_bitmask_bit_is_set 1 s.allocated_timers,
                   nrf_bitmask_bit_is_set 0 s.allocated_timers))
        = some ([Event.pop 1 50, Event.callback 1 9, Event.cc 100 0],
                { now := 50, armed := some 100 }, some 100, false, true)
    ∧ (run cfg4 (mock 10) (mock_init 10)
          [Cmd.start tmr_mngr_mode.PERIODIC 100 7,
           Cmd.start tmr_mngr_mode.ONE_SHOT 50 9,
           Cmd.env { now := 50, armed := some 50 }, Cmd.irq 1,
           Cmd.env { now := 100, armed := some 100 }, Cmd.irq 1]).toOption.map
        (fun s => (s.log.drop 5, s.back, last_armed s.log))
        = some ([Event.pop 0 100, Event.callback 0 7, Event.cc 200 0],
                { now := 100, armed := some 200 }, some 200) := by
  refine ⟨by decide, by decide, by decide, by decide, by decide, by decide⟩
/-! ## Invariants of the interrupt handler -/

theorem irq_stable_arm {β : Type} (cfg : Config) (P : State β → Prop) (hP : IrqStable cfg P)
    (s : State β) (b : β) (v : Nat) (r : Int) (hs : P s) :
    P { s with back := b, log := s.log ++ [Event.cc v r] } :=
  hP.on_log { s with back := b } v r (hP.on_back s b hs)

theorem drain_first_serve {β : Type} (cfg : Config) (B : Backend β) (P : State β → Prop)
    (hP : IrqStable cfg P) :
    ∀ (fuel : Nat) (s s1 : State β), drain cfg B fuel s = Res.ok s1 →
      ∃ e q, s.pot = e :: q ∧ (P (serve cfg s e q) → P s1) := by
  intro fuel
  induction fuel with
  | zero => intro s s1 h; simp [drain] at h
  | succ f ih =>
    intro s s1 h
    cases hp : s.pot with
    | nil => simp [drain, pot_pop, hp] at h
    | cons e q =>
      refine ⟨e, q, rfl, ?_⟩
      intro hs
      simp only [drain, pot_pop, hp, List.head?_cons, List.tail_cons] at h
      split at h
      · cases h
        exact hP.on_back _ _ hs
      · split_ifs at h
        · cases h
          exact hP.on_back _ _ hs
        · obtain ⟨e2, q2, hpot2, himp⟩ := ih _ _ h
          apply himp
          exact hP.on_serve _ _ _ (hP.on_back _ _ hs) hpot2

theorem drain_stable {β : Type} (cfg : Config) (B : Backend β) (P : State β → Prop)
    (hP : IrqStable cfg P) (fuel : Nat) (s s1 : State β) (hs : P s)
    (h : drain cfg B fuel s = Res.ok s1) : P s1 := by
  obtain ⟨e, q, hpot, himp⟩ := drain_first_serve cfg B P hP fuel s s1 h
  exact himp (hP.on_serve s e q hs hpot)

theorem reload_list_stable {β : Type} (cfg : Config) (P : State β → Prop)
    (hP : IrqStable cfg P) :
    ∀ (l : List Nat) (s : State β), (∀ i, i ∈ l → i < cfg.num) → P s →
      P (l.foldl (reload_one cfg) s) := by
  intro l
  induction l with
  | nil => intro s _ hs; exact hs
  | cons i l ih =>
    intro s hl hs
    simp only [List.foldl_cons]
    apply ih
    · intro j hj; exact hl j (List.mem_cons_of_mem _ hj)
    · exact hP.on_reload s i (hl i (List.mem_cons_self _ _)) hs

theorem reload_all_stable {β : Type} (cfg : Config) (P : State β → Prop)
    (hP : IrqStable cfg P) (s : State β) (hs : P s) : P (reload_all cfg s) := by
  unfold reload_all
  apply reload_list_stable cfg P hP _ s _ hs
  intro i hi
  exact List.mem_range.mp hi

/-- The end of one pass of the outer loop: whatever holds after the inner loop, and is
preserved by the handler's actions, holds when the handler returns. -/
theorem irq_loop_stable {β : Type} (cfg : Config) (B : Backend β) (P : State β → Prop)
    (hP : IrqStable cfg P) :
    ∀ (fuel : Nat) (cp : Bool) (s s1 : State β), P s →
      irq_loop cfg B fuel cp s = Res.ok s1 → P s1 := by
  intro fuel
  induction fuel with
  | zero => intro cp s s1 _ h; simp [irq_loop] at h
  | succ f ih =>
    intro cp s s1 hs h
    simp only [irq_loop] at h
    split at h
    · rename_i s2 hd
      have hs2 : P s2 := by
        split_ifs at hd
        · exact drain_stable cfg B P hP _ s s2 hs hd
        · cases hd; exact hs
      have hs3 := reload_all_stable cfg P hP s2 hs2
      split at h
      · split_ifs at h
        · refine ih true _ s1 ?_ h
          exact irq_stable_arm cfg P hP _ _ _ _ hs3
        · cases h
          exact irq_stable_arm cfg P hP _ _ _ _ hs3
      · cases h; exact hs3
    · cases h
    · cases h

/-- A run of the handler that returns has popped the queue minimum first; whatever holds after
serving that element, and is preserved by the handler's actions, holds when it returns. -/
theorem irq_first_serve {β : Type} (cfg : Config) (B : Backend β) (P : State β → Prop)
    (hP : IrqStable cfg P) (fuel : Nat) (s s1 : State β)
    (h : tmr_mngr_back_cc_irq cfg B fuel s = Res.ok s1) :
    ∃ e q, s.pot = e :: q ∧ (P (serve cfg s e q) → P s1) := by
  unfold tmr_mngr_back_cc_irq at h
  cases fuel with
  | zero => simp [irq_loop] at h
  | succ f =>
    simp only [irq_loop, if_true] at h
    split at h
    · rename_i s2 hd
      obtain ⟨e, q, hpot, himp⟩ := drain_first_serve cfg B P hP _ s s2 hd
      refine ⟨e, q, hpot, ?_⟩
      intro hs
      have hs3 := reload_all_stable cfg P hP s2 (himp hs)
      split at h
      · split_ifs at h
        · refine irq_loop_stable cfg B P hP f true _ s1 ?_ h
          exact irq_stable_arm cfg P hP _ _ _ _ hs3
        · cases h
          exact irq_stable_arm cfg P hP _ _ _ _ hs3
      · cases h; exact hs3
    · cases h
    · cases h

theorem irq_stable {β : Type} (cfg : Config) (B : Backend β) (P : State β → Prop)
    (hP : IrqStable cfg P) (fuel : Nat) (s s1 : State β) (hs : P s)
    (h : tmr_mngr_back_cc_irq cfg B fuel s = Res.ok s1) : P s1 :=
  irq_loop_stable cfg B P hP fuel true s s1 hs h

/-- When the handler returns, its last pass ended with the reload loop: the instances, the
queue and the in-use bitmask are those left by `reload_all` on a state satisfying any
property the handler's actions preserve. -/
theorem irq_loop_final {β : Type} (cfg : Config) (B : Backend β) (P : State β → Prop)
    (hP : IrqStable cfg P) :
    ∀ (fuel : Nat) (cp : Bool) (s s1 : State β), P s →
      irq_loop cfg B fuel cp s = Res.ok s1 →
      ∃ s2, P s2 ∧ s1.vrtc_instances = (reload_all cfg s2).vrtc_instances
        ∧ s1.pot = (reload_all cfg s2).pot
        ∧ s1.allocated_timers = (reload_all cfg s2).allocated_timers := by
  intro fuel
  induction fuel with
  | zero => intro cp s s1 _ h; simp [irq_loop] at h
  | succ f ih =>
    intro cp s s1 hs h
    simp only [irq_loop] at h
    split at h
    · rename_i s2 hd
      have hs2 : P s2 := by
        split_ifs at hd
        · exact drain_stable cfg B P hP _ s s2 hs hd
        · cases hd; exact hs
      have hs3 := reload_all_stable cfg P hP s2 hs2
      split at h
      · split_ifs at h
        · refine ih true _ s1 ?_ h
          exact irq_stable_arm cfg P hP _ _ _ _ hs3
        · cases h
          exact ⟨s2, hs2, rfl, rfl, rfl⟩
      · cases h; exact ⟨s2, hs2, rfl, rfl, rfl⟩
    · cases h
    · cases h
/-! ## The body of the inner loop and the reload loop -/

theorem serve_periodic {β : Type} (cfg : Config) (s : State β) (e : Nat) (q : List Nat)
    (h1 : (s.vrtc_instances e).state = tmr_mngr_state.ARMED)
    (h2 : (s.vrtc_instances e).vrtc_mode = tmr_mngr_mode.PERIODIC) :
    serve cfg s e q =
      { s with
        pot := q,
        log := s.log ++ [Event.pop e (s.vrtc_instances e).next_cc_value,
          Event.callback (s.vrtc_instances e).timer_id (s.vrtc_instances e).context],
        vrtc_instances := Function.update s.vrtc_instances e
          { s.vrtc_instances e with
            next_cc_value :=
              ((s.vrtc_instances e).next_cc_value + (s.vrtc_instances e).periodic_value)
                % 2 ^ cfg.width,
            reload := true } } := by
  simp [serve, h1, check_vrtc_mode, h2, set_inst]

theorem serve_one_shot {β : Type} (cfg : Config) (s : State β) (e : Nat) (q : List Nat)
    (h1 : (s.vrtc_instances e).state = tmr_mngr_state.ARMED)
    (h2 : (s.vrtc_instances e).vrtc_mode ≠ tmr_mngr_mode.PERIODIC) :
    serve cfg s e q =
      tmr_mngr_free cfg
        { s with
          pot := q,
          log := s.log ++ [Event.pop e (s.vrtc_instances e).next_cc_value,
            Event.callback (s.vrtc_instances e).timer_id (s.vrtc_instances e).context] }
        (s.vrtc_instances e).timer_id := by
  simp only [serve, h1, if_true, check_vrtc_mode]
  cases hm : (s.vrtc_instances e).vrtc_mode
  · exact absurd hm h2
  · simp
  · simp

theorem serve_not_armed {β : Type} (cfg : Config) (s : State β) (e : Nat) (q : List Nat)
    (h1 : (s.vrtc_instances e).state ≠ tmr_mngr_state.ARMED) :
    serve cfg s e q =
      tmr_mngr_free cfg
        { s with pot := q, log := s.log ++ [Event.pop e (s.vrtc_instances e).next_cc_value] }
        (s.vrtc_instances e).timer_id := by
  simp [serve, h1]

/-- The three ways an element is served. -/
theorem serve_cases {β : Type} (_cfg : Config) (s : State β) (e : Nat) (_q : List Nat) :
    ((s.vrtc_instances e).state = tmr_mngr_state.ARMED
      ∧ (s.vrtc_instances e).vrtc_mode = tmr_mngr_mode.PERIODIC)
    ∨ ((s.vrtc_instances e).state = tmr_mngr_state.ARMED
      ∧ (s.vrtc_instances e).vrtc_mode ≠ tmr_mngr_mode.PERIODIC)
    ∨ (s.vrtc_instances e).state ≠ tmr_mngr_state.ARMED := by
  by_cases h1 : (s.vrtc_instances e).state = tmr_mngr_state.ARMED
  · by_cases h2 : (s.vrtc_instances e).vrtc_mode = tmr_mngr_mode.PERIODIC
    · exact Or.inl ⟨h1, h2⟩
    · exact Or.inr (Or.inl ⟨h1, h2⟩)
  · exact Or.inr (Or.inr h1)

@[simp] theorem serve_pot {β : Type} (cfg : Config) (s : State β) (e : Nat) (q : List Nat) :
    (serve cfg s e q).pot = q := by
  rcases serve_cases cfg s e q with ⟨h1, h2⟩ | ⟨h1, h2⟩ | h1
  · rw [serve_periodic cfg s e q h1 h2]
  · rw [serve_one_shot cfg s e q h1 h2]; simp
  · rw [serve_not_armed cfg s e q h1]; simp

@[simp] theorem serve_back {β : Type} (cfg : Config) (s : State β) (e : Nat) (q : List Nat) :
    (serve cfg s e q).back = s.back := by
  rcases serve_cases cfg s e q with ⟨h1, h2⟩ | ⟨h1, h2⟩ | h1
  · rw [serve_periodic cfg s e q h1 h2]
  · rw [serve_one_shot cfg s e q h1 h2]; simp
  · rw [serve_not_armed cfg s e q h1]; simp

@[simp] theorem serve_assert {β : Type} (cfg : Config) (s : State β) (e : Nat) (q : List Nat) :
    (serve cfg s e q).assert_failed = s.assert_failed := by
  rcases serve_cases cfg s e q with ⟨h1, h2⟩ | ⟨h1, h2⟩ | h1
  · rw [serve_periodic cfg s e q h1 h2]
  · rw [serve_one_shot cfg s e q h1 h2]; simp
  · rw [serve_not_armed cfg s e q h1]; simp

/-- Serving an element changes no `state`, `timer_id`, `context`, `vrtc_mode` or
`periodic_value` field. -/
theorem serve_inst_fields {β : Type} (cfg : Config) (s : State β) (e : Nat) (q : List Nat)
    (j : Nat) :
    ((serve cfg s e q).vrtc_instances j).state = (s.vrtc_instances j).state
    ∧ ((serve cfg s e q).vrtc_instances j).timer_id = (s.vrtc_instances j).timer_id
    ∧ ((serve cfg s e q).vrtc_instances j).context = (s.vrtc_instances j).context
    ∧ ((serve cfg s e q).vrtc_instances j).vrtc_mode = (s.vrtc_instances j).vrtc_mode
    ∧ ((serve cfg s e q).vrtc_instances j).periodic_value
        = (s.vrtc_instances j).periodic_value := by
  rcases serve_cases cfg s e q with ⟨h1, h2⟩ | ⟨h1, h2⟩ | h1
  · rw [serve_periodic cfg s e q h1 h2]
    by_cases hj : j = e
    · subst hj; simp
    · simp [hj]
  · rw [serve_one_shot cfg s e q h1 h2]; simp
  · rw [serve_not_armed cfg s e q h1]; simp

/-- Serving an element other than `j` leaves the record of `j` untouched. -/
theorem serve_inst_ne {β : Type} (cfg : Config) (s : State β) (e : Nat) (q : List Nat)
    (j : Nat) (hj : j ≠ e) :
    (serve cfg s e q).vrtc_instances j = s.vrtc_instances j := by
  rcases serve_cases cfg s e q with ⟨h1, h2⟩ | ⟨h1, h2⟩ | h1
  · rw [serve_periodic cfg s e q h1 h2]; simp [hj]
  · rw [serve_one_shot cfg s e q h1 h2]; simp
  · rw [serve_not_armed cfg s e q h1]; simp

/-- Serving never sets an in-use bit. -/
theorem serve_in_use {β : Type} (cfg : Config) (s : State β) (e : Nat) (q : List Nat)
    (j : Nat) (h : in_use (serve cfg s e q) j) : in_use s j := by
  unfold in_use at h ⊢
  rcases serve_cases cfg s e q with ⟨h1, h2⟩ | ⟨h1, h2⟩ | h1
  · rw [serve_periodic cfg s e q h1 h2] at h; exact h
  · rw [serve_one_shot cfg s e q h1 h2, free_bit] at h
    simp only [Bool.and_eq_true] at h; exact h.1
  · rw [serve_not_armed cfg s e q h1, free_bit] at h
    simp only [Bool.and_eq_true] at h; exact h.1

/-- Serving never clears a `reload` flag. -/
theorem serve_reload {β : Type} (cfg : Config) (s : State β) (e : Nat) (q : List Nat)
    (j : Nat) (h : (s.vrtc_instances j).reload = true) :
    ((serve cfg s e q).vrtc_instances j).reload = true := by
  rcases serve_cases cfg s e q with ⟨h1, h2⟩ | ⟨h1, h2⟩ | h1
  · rw [serve_periodic cfg s e q h1 h2]
    by_cases hj : j = e
    · subst hj; simp
    · simp [hj, h]
  · rw [serve_one_shot cfg s e q h1 h2]; simpa using h
  · rw [serve_not_armed cfg s e q h1]; simpa using h

/-- After an element with its own index as `timer_id` is served, it is flagged for reload or
its in-use bit is clear (when the slot is eligible). -/
theorem serve_self {β : Type} (cfg : Config) (s : State β) (e : Nat) (q : List Nat)
    (hid : (s.vrtc_instances e).timer_id = e)
    (hav : nrf_bitmask_bit_is_set e cfg.aval = true) :
    ((serve cfg s e q).vrtc_instances e).reload = true ∨ ¬ in_use (serve cfg s e q) e := by
  unfold in_use
  rcases serve_cases cfg s e q with ⟨h1, h2⟩ | ⟨h1, h2⟩ | h1
  · left; rw [serve_periodic cfg s e q h1 h2]; simp
  · right; rw [serve_one_shot cfg s e q h1 h2, hid, free_bit]; simp [hav]
  · right; rw [serve_not_armed cfg s e q h1, hid, free_bit]; simp [hav]

@[simp] theorem reload_one_allocated {β : Type} (cfg : Config) (s : State β) (i : Nat) :
    (reload_one cfg s i).allocated_timers = s.allocated_timers := by
  unfold reload_one; split_ifs <;> rfl

@[simp] theorem reload_one_log {β : Type} (cfg : Config) (s : State β) (i : Nat) :
    (reload_one cfg s i).log = s.log := by
  unfold reload_one; split_ifs <;> rfl

@[simp] theorem reload_one_back {β : Type} (cfg : Config) (s : State β) (i : Nat) :
    (reload_one cfg s i).back = s.back := by
  unfold reload_one; split_ifs <;> rfl

@[simp] theorem reload_one_assert {β : Type} (cfg : Config) (s : State β) (i : Nat) :
    (reload_one cfg s i).assert_failed = s.assert_failed := by
  unfold reload_one; split_ifs <;> rfl

theorem reload_one_inst_ne {β : Type} (cfg : Config) (s : State β) (i j : Nat) (hj : j ≠ i) :
    (reload_one cfg s i).vrtc_instances j = s.vrtc_instances j := by
  unfold reload_one; split_ifs
  · simp [set_inst, hj]
  · rfl

/-- One reload iteration changes only the `reload` flag of its slot. -/
theorem reload_one_inst_fields {β : Type} (cfg : Config) (s : State β) (i j : Nat) :
    ((reload_one cfg s i).vrtc_instances j).state = (s.vrtc_instances j).state
    ∧ ((reload_one cfg s i).vrtc_instances j).timer_id = (s.vrtc_instances j).timer_id
    ∧ ((reload_one cfg s i).vrtc_instances j).context = (s.vrtc_instances j).context
    ∧ ((reload_one cfg s i).vrtc_instances j).vrtc_mode = (s.vrtc_instances j).vrtc_mode
    ∧ ((reload_one cfg s i).vrtc_instances j).periodic_value
        = (s.vrtc_instances j).periodic_value
    ∧ ((reload_one cfg s i).vrtc_instances j).next_cc_value
        = (s.vrtc_instances j).next_cc_value := by
  by_cases hj : j = i
  · subst hj
    unfold reload_one; split_ifs
    · simp [set_inst]
    · simp
  · rw [reload_one_inst_ne cfg s i j hj]; simp

theorem reload_one_reload_self {β : Type} (cfg : Config) (s : State β) (i : Nat) :
    ((reload_one cfg s i).vrtc_instances i).reload = false := by
  unfold reload_one; split_ifs with h
  · simp [set_inst]
  · simpa using h

/-- After one reload iteration the queue holds what it held before, and the slot itself when
its flag was set. -/
theorem mem_reload_one_pot {β : Type} (cfg : Config) (s : State β) (i x : Nat) :
    x ∈ (reload_one cfg s i).pot
      ↔ x ∈ s.pot ∨ (x = i ∧ (s.vrtc_instances i).reload = true) := by
  unfold reload_one; split_ifs with h
  · simp only [mem_pot_push, set_inst_pot]
    constructor
    · rintro (h1 | h1)
      · exact Or.inr ⟨h1, h⟩
      · exact Or.inl h1
    · rintro (h1 | ⟨h1, _⟩)
      · exact Or.inr h1
      · exact Or.inl h1
  · constructor
    · intro h1; exact Or.inl h1
    · rintro (h1 | ⟨_, h1⟩)
      · exact h1
      · exact absurd h1 h

theorem reload_list_flags {β : Type} (cfg : Config) :
    ∀ (l : List Nat) (s : State β) (i : Nat), i ∈ l →
      ((l.foldl (reload_one cfg) s).vrtc_instances i).reload = false := by
  intro l
  induction l using List.reverseRecOn with
  | nil => intro s i hi; cases hi
  | append_singleton l a ih =>
    intro s i hi
    rw [List.foldl_append]
    simp only [List.foldl_cons, List.foldl_nil]
    by_cases hia : i = a
    · subst hia; exact reload_one_reload_self cfg _ i
    · rw [reload_one_inst_ne cfg _ a i hia]
      apply ih
      rcases List.mem_append.mp hi with h | h
      · exact h
      · simp at h; exact absurd h hia

/-- After the reload loop no record below `TMR_MNGR_NUM` has its `reload` flag set. -/
theorem reload_all_flags {β : Type} (cfg : Config) (s : State β) (i : Nat) (hi : i < cfg.num) :
    ((reload_all cfg s).vrtc_instances i).reload = false :=
  reload_list_flags cfg _ s i (List.mem_range.mpr hi)
/-! ## `tmr_mngr_stop` -/

/-- The function `tmr_mngr_stop` sees its argument as a `uint8_t`. -/
theorem stop_narrow {β : Type} (cfg : Config) (B : Backend β) (s : State β) (i : Nat) :
    tmr_mngr_stop cfg B s i = tmr_mngr_stop cfg B s (i % 256) := by
  unfold tmr_mngr_stop
  rw [Nat.mod_mod]

theorem stop_not_armed {β : Type} (cfg : Config) (B : Backend β) (s : State β) (i : Nat)
    (h256 : i < 256)
    (h : (s.vrtc_instances i).state ≠ tmr_mngr_state.ARMED) :
    tmr_mngr_stop cfg B s i = (-EPERM, s) := by
  simp [tmr_mngr_stop, Nat.mod_eq_of_lt h256, h]

theorem stop_deferred {β : Type} (cfg : Config) (B : Backend β) (s : State β) (i : Nat)
    (h256 : i < 256)
    (h : (s.vrtc_instances i).state = tmr_mngr_state.ARMED)
    (hc : (B.tmr_back_constr_check_handler s.back (s.vrtc_instances i).next_cc_value).1 = false) :
    tmr_mngr_stop cfg B s i =
      (-EINPROGRESS,
        set_inst
          { s with back :=
              (B.tmr_back_constr_check_handler s.back (s.vrtc_instances i).next_cc_value).2 } i
          { s.vrtc_instances i with state := tmr_mngr_state.STOPPED }) := by
  simp [tmr_mngr_stop, Nat.mod_eq_of_lt h256, h, hc]

theorem stop_safe {β : Type} (cfg : Config) (B : Backend β) (s : State β) (i : Nat)
    (h256 : i < 256)
    (h : (s.vrtc_instances i).state = tmr_mngr_state.ARMED)
    (hc : (B.tmr_back_constr_check_handler s.back (s.vrtc_instances i).next_cc_value).1 = true) :
    (tmr_mngr_stop cfg B s i).1 = (if i ∈ s.pot then 0 else -EFAULT)
    ∧ (tmr_mngr_stop cfg B s i).2 =
      tmr_mngr_free cfg
        (set_inst
          { s with
            back := (B.tmr_back_constr_check_handler s.back
              (s.vrtc_instances i).next_cc_value).2,
            pot := s.pot.erase i,
            assert_failed := if i ∈ s.pot then s.assert_failed else true } i
          { s.vrtc_instances i with state := tmr_mngr_state.IDLE }) i := by
  by_cases hmem : i ∈ s.pot
  · simp [tmr_mngr_stop, Nat.mod_eq_of_lt h256, h, hc, pot_remove, hmem]
  · simp [tmr_mngr_stop, Nat.mod_eq_of_lt h256, h, hc, pot_remove, hmem,
      List.erase_of_not_mem hmem]

/-- The calls of `tmr_mngr_stop` make no entry in the log. -/
theorem stop_log {β : Type} (cfg : Config) (B : Backend β) (s : State β) (i : Nat) :
    (tmr_mngr_stop cfg B s i).2.log = s.log := by
  suffices hall : ∀ i, i < 256 → (tmr_mngr_stop cfg B s i).2.log = s.log by
    rw [stop_narrow]; exact hall _ (Nat.mod_lt _ (by decide))
  clear i
  intro i h256
  by_cases h : (s.vrtc_instances i).state = tmr_mngr_state.ARMED
  · cases hc : (B.tmr_back_constr_check_handler s.back (s.vrtc_instances i).next_cc_value).1
    · rw [stop_deferred cfg B s i h256 h hc]; rfl
    · rw [(stop_safe cfg B s i h256 h hc).2]; simp
  · rw [stop_not_armed cfg B s i h256 h]

/-- Effect of `tmr_mngr_stop` on the records: only the `state` of the stopped slot, the one
with the converted index, changes, and it never becomes `ARMED`. -/
theorem stop_inst {β : Type} (cfg : Config) (B : Backend β) (s : State β) (i j : Nat) :
    (j ≠ i % 256 → (tmr_mngr_stop cfg B s i).2.vrtc_instances j = s.vrtc_instances j)
    ∧ ((tmr_mngr_stop cfg B s i).2.vrtc_instances j).timer_id = (s.vrtc_instances j).timer_id
    ∧ ((tmr_mngr_stop cfg B s i).2.vrtc_instances j).reload = (s.vrtc_instances j).reload
    ∧ ((tmr_mngr_stop cfg B s i).2.vrtc_instances j).context = (s.vrtc_instances j).context
    ∧ ((tmr_mngr_stop cfg B s i).2.vrtc_instances j).vrtc_mode = (s.vrtc_instances j).vrtc_mode
    ∧ ((tmr_mngr_stop cfg B s i).2.vrtc_instances j).periodic_value
        = (s.vrtc_instances j).periodic_value
    ∧ ((tmr_mngr_stop cfg B s i).2.vrtc_instances j).next_cc_value
        = (s.vrtc_instances j).next_cc_value
    ∧ (((tmr_mngr_stop cfg B s i).2.vrtc_instances j).state = tmr_mngr_state.ARMED →
        (s.vrtc_instances j).state = tmr_mngr_state.ARMED ∧ (j = i % 256 → False)) := by
  rw [stop_narrow]
  have h256 : i % 256 < 256 := Nat.mod_lt _ (by decide)
  generalize i % 256 = k at h256 ⊢
  clear i
  by_cases h : (s.vrtc_instances k).state = tmr_mngr_state.ARMED
  · cases hc : (B.tmr_back_constr_check_handler s.back (s.vrtc_instances k).next_cc_value).1
    · rw [stop_deferred cfg B s k h256 h hc]
      by_cases hj : j = k
      · subst hj; simp
      · simp [set_inst_ne _ _ _ _ hj, hj]
    · rw [(stop_safe cfg B s k h256 h hc).2]
      by_cases hj : j = k
      · subst hj; simp
      · simp [set_inst_ne _ _ _ _ hj, hj]
  · rw [stop_not_armed cfg B s k h256 h]
    simp only [implies_true, true_and]
    intro hj
    refine ⟨hj, ?_⟩
    intro hji
    subst hji
    exact h hj

/-- The lemma `stop_inst` for an index that fits in a `uint8_t`. -/
theorem stop_inst_lt {β : Type} (cfg : Config) (B : Backend β) (s : State β) (i j : Nat)
    (h256 : i < 256) :
    (j ≠ i → (tmr_mngr_stop cfg B s i).2.vrtc_instances j = s.vrtc_instances j)
    ∧ ((tmr_mngr_stop cfg B s i).2.vrtc_instances j).timer_id = (s.vrtc_instances j).timer_id
    ∧ ((tmr_mngr_stop cfg B s i).2.vrtc_instances j).reload = (s.vrtc_instances j).reload
    ∧ ((tmr_mngr_stop cfg B s i).2.vrtc_instances j).context = (s.vrtc_instances j).context
    ∧ ((tmr_mngr_stop cfg B s i).2.vrtc_instances j).vrtc_mode = (s.vrtc_instances j).vrtc_mode
    ∧ ((tmr_mngr_stop cfg B s i).2.vrtc_instances j).periodic_value
        = (s.vrtc_instances j).periodic_value
    ∧ ((tmr_mngr_stop cfg B s i).2.vrtc_instances j).next_cc_value
        = (s.vrtc_instances j).next_cc_value
    ∧ (((tmr_mngr_stop cfg B s i).2.vrtc_instances j).state = tmr_mngr_state.ARMED →
        (s.vrtc_instances j).state = tmr_mngr_state.ARMED ∧ (j = i → False)) := by
  have h := stop_inst cfg B s i j
  rw [Nat.mod_eq_of_lt h256] at h
  exact h

/-! ## Frame of `tmr_mngr_start` -/

/-- What `tmr_mngr_start` does to records, queue and in-use bits, whatever its outcome:
`timer_id` and `reload` fields are unchanged, the queue keeps its elements and gains at most
the lowest free slot, and an in-use bit is set at most for that slot, which is then queued. -/
theorem start_frame {β : Type} (cfg : Config) (hnum : cfg.num ≤ 256) (B : Backend β)
    (s : State β) (mode : tmr_mngr_mode) (value context : Nat) :
    (∀ j, ((tmr_mngr_start cfg B s mode value context).2.vrtc_instances j).timer_id
            = (s.vrtc_instances j).timer_id
          ∧ ((tmr_mngr_start cfg B s mode value context).2.vrtc_instances j).reload
            = (s.vrtc_instances j).reload)
    ∧ (∀ x, x ∈ s.pot → x ∈ (tmr_mngr_start cfg B s mode value context).2.pot)
    ∧ (∀ x, x ∈ (tmr_mngr_start cfg B s mode value context).2.pot →
        x ∈ s.pot ∨ lowest_free cfg s x)
    ∧ (∀ j, in_use (tmr_mngr_start cfg B s mode value context).2 j →
        in_use s j
        ∨ (lowest_free cfg s j ∧ j ∈ (tmr_mngr_start cfg B s mode value context).2.pot)) := by
  rcases lowest_free_or_none cfg s with ⟨i, hi⟩ | hnone
  · by_cases hacc : start_check cfg B s mode value = true
        ∨ mode = tmr_mngr_mode.ONE_SHOT_FORCE
    · by_cases hz : start_arm_result cfg B s i mode value context = 0
      · obtain ⟨_, hinst, halloc, hpot, _⟩ :=
          start_accepted_ok cfg hnum B s mode value context i hi hacc hz
        refine ⟨?_, ?_, ?_, ?_⟩
        · intro j
          rw [hinst]
          by_cases hj : j = i
          · subst hj; simp
          · simp [hj]
        · intro x hx; rw [hpot, mem_pot_push]; exact Or.inr hx
        · intro x hx
          rw [hpot, mem_pot_push] at hx
          rcases hx with hx | hx
          · subst hx; exact Or.inr hi
          · exact Or.inl hx
        · intro j hj
          unfold in_use at hj ⊢
          rw [halloc, bit_is_set_set] at hj
          by_cases hji : i = j
          · subst hji
            right
            exact ⟨hi, by rw [hpot, mem_pot_push]; exact Or.inl rfl⟩
          · left; simpa [hji] using hj
      · obtain ⟨_, hinst, halloc, hpot, _⟩ :=
          start_accepted_err cfg hnum B s mode value context i hi hacc hz
        refine ⟨?_, ?_, ?_, ?_⟩
        · intro j
          rw [hinst]
          by_cases hj : j = i
          · subst hj; simp
          · simp [hj]
        · intro x hx; rw [hpot, mem_pot_push]; exact Or.inr hx
        · intro x hx
          rw [hpot, mem_pot_push] at hx
          rcases hx with hx | hx
          · subst hx; exact Or.inr hi
          · exact Or.inl hx
        · intro j hj
          unfold in_use at hj ⊢
          rw [halloc] at hj
          exact Or.inl hj
    · simp only [not_or, Bool.not_eq_true] at hacc
      obtain ⟨_, halloc, hpot, _, _, _⟩ :=
        start_rejected cfg B s mode value context ⟨i, hi.1, hi.2.1⟩ hacc.1 hacc.2
      refine ⟨?_, ?_, ?_, ?_⟩
      · intro j
        rw [start_of_lowest_free cfg B s mode value context i hi]
        have hf := vrtc_reconfig_inst_fields cfg B (start_entry s i context) i mode value
        unfold start_finish
        split_ifs
        · by_cases hj : j = i
          · subst hj
            simp only [set_inst_same]
            rw [(hf j).2.1, (hf j).2.2.1]
            simp [start_entry]
          · simp only [set_inst_ne _ _ _ _ hj]
            rw [(hf j).2.1, (hf j).2.2.1]
            simp [start_entry, set_inst, hj]
        · by_cases hj : j = i
          · subst hj
            simp only [free_inst, set_inst_same]
            rw [(hf j).2.1, (hf j).2.2.1]
            simp [start_entry]
          · simp only [free_inst, set_inst_ne _ _ _ _ hj]
            rw [(hf j).2.1, (hf j).2.2.1]
            simp [start_entry, set_inst, hj]
      · intro x hx; rw [hpot]; exact hx
      · intro x hx; rw [hpot] at hx; exact Or.inl hx
      · intro j hj
        unfold in_use at hj ⊢
        rw [halloc] at hj
        exact Or.inl hj
  · rw [start_of_no_free cfg B s mode value context hnone]
    exact ⟨fun j => ⟨rfl, rfl⟩, fun x hx => hx, fun x hx => Or.inl hx, fun j hj => Or.inl hj⟩
/-! ## Consistency of the static data along a trace -/

theorem wf_irq_of_wf {β : Type} (cfg : Config) (s : State β) (h : wf cfg s) : wf_irq cfg s :=
  ⟨h.1, h.2.1, h.2.2.1, fun i hi => Or.inl (h.2.2.2 i hi)⟩

theorem wf_irq_stable {β : Type} (cfg : Config) : IrqStable cfg (wf_irq (β := β) cfg) where
  on_serve := by
    intro s e q ⟨h1, h2, h3, h4⟩ hpot
    have he : e < cfg.num := h2 e (by rw [hpot]; exact List.mem_cons_self _ _)
    refine ⟨?_, ?_, ?_, ?_⟩
    · intro i hi
      rw [(serve_inst_fields cfg s e q i).2.1]; exact h1 i hi
    · intro x hx
      rw [serve_pot] at hx
      exact h2 x (by rw [hpot]; exact List.mem_cons_of_mem _ hx)
    · intro i hi
      exact h3 i (serve_in_use cfg s e q i hi)
    · intro i hi
      have hi0 := serve_in_use cfg s e q i hi
      rcases h4 i hi0 with hmem | hrel
      · rw [hpot] at hmem
        rcases List.mem_cons.mp hmem with hie | hiq
        · subst hie
          rcases serve_self cfg s i q (h1 i he) (h3 i hi0).2 with hr | hn
          · exact Or.inr hr
          · exact absurd hi hn
        · left; rw [serve_pot]; exact hiq
      · exact Or.inr (serve_reload cfg s e q i hrel)
  on_back := by
    intro s b h
    exact h
  on_reload := by
    intro s i hi ⟨h1, h2, h3, h4⟩
    refine ⟨?_, ?_, ?_, ?_⟩
    · intro j hj
      rw [(reload_one_inst_fields cfg s i j).2.1]; exact h1 j hj
    · intro x hx
      rcases (mem_reload_one_pot cfg s i x).mp hx with hx1 | ⟨hx1, _⟩
      · exact h2 x hx1
      · rw [hx1]; exact hi
    · intro j hj
      have hj0 : in_use s j := by
        unfold in_use at hj ⊢; rw [reload_one_allocated] at hj; exact hj
      exact h3 j hj0
    · intro j hj
      have hj0 : in_use s j := by
        unfold in_use at hj ⊢; rw [reload_one_allocated] at hj; exact hj
      rcases h4 j hj0 with hmem | hrel
      · left; exact (mem_reload_one_pot cfg s i j).mpr (Or.inl hmem)
      · by_cases hji : j = i
        · subst hji
          left; exact (mem_reload_one_pot cfg s j j).mpr (Or.inr ⟨rfl, hrel⟩)
        · right; rw [reload_one_inst_ne cfg s i j hji]; exact hrel
  on_log := by
    intro s v r h
    exact h

theorem wf_irq_done {β : Type} (cfg : Config) (B : Backend β) (fuel : Nat) (s s1 : State β)
    (hs : wf cfg s) (h : tmr_mngr_back_cc_irq cfg B fuel s = Res.ok s1) : wf cfg s1 := by
  have h1 := irq_stable cfg B _ (wf_irq_stable cfg) fuel s s1 (wf_irq_of_wf cfg s hs) h
  obtain ⟨s2, _, hinst, _, _⟩ :=
    irq_loop_final cfg B _ (wf_irq_stable cfg) fuel true s s1 (wf_irq_of_wf cfg s hs) h
  refine ⟨h1.1, h1.2.1, h1.2.2.1, ?_⟩
  intro i hi
  rcases h1.2.2.2 i hi with hmem | hrel
  · exact hmem
  · exfalso
    rw [hinst, reload_all_flags cfg s2 i (h1.2.2.1 i hi).1] at hrel
    cases hrel

theorem wf_init {β : Type} (cfg : Config) (B : Backend β) (s : State β) :
    wf cfg (init_state cfg B s) := by
  refine ⟨?_, ?_, ?_, ?_⟩
  · intro i hi
    simp [init_state, tmr_mngr_init, hi]
  · intro e he
    simp [init_state, tmr_mngr_init] at he
  · intro i hi
    simp [init_state, tmr_mngr_init, in_use, nrf_bitmask_bit_is_set] at hi
  · intro i hi
    simp [init_state, tmr_mngr_init, in_use, nrf_bitmask_bit_is_set] at hi

theorem wf_start {β : Type} (cfg : Config) (hnum : cfg.num ≤ 256) (B : Backend β) (s : State β)
    (mode : tmr_mngr_mode) (value context : Nat) (hs : wf cfg s) :
    wf cfg (tmr_mngr_start cfg B s mode value context).2 := by
  obtain ⟨h1, h2, h3, h4⟩ := hs
  obtain ⟨f1, f2, f3, f4⟩ := start_frame cfg hnum B s mode value context
  refine ⟨?_, ?_, ?_, ?_⟩
  · intro i hi; rw [(f1 i).1]; exact h1 i hi
  · intro x hx
    rcases f3 x hx with hx1 | hx1
    · exact h2 x hx1
    · exact hx1.1
  · intro j hj
    rcases f4 j hj with hj1 | ⟨hj1, _⟩
    · exact h3 j hj1
    · exact ⟨hj1.1, hj1.2.1.1⟩
  · intro j hj
    rcases f4 j hj with hj1 | ⟨_, hj1⟩
    · exact f2 j (h4 j hj1)
    · exact hj1

theorem wf_stop {β : Type} (cfg : Config) (B : Backend β) (s : State β) (i : Nat)
    (hs : wf cfg s) : wf cfg (tmr_mngr_stop cfg B s i).2 := by
  suffices hall : ∀ i, i < 256 → wf cfg (tmr_mngr_stop cfg B s i).2 by
    rw [stop_narrow]; exact hall _ (Nat.mod_lt _ (by decide))
  clear i
  intro i h256
  have hmod : i % 256 = i := Nat.mod_eq_of_lt h256
  obtain ⟨h1, h2, h3, h4⟩ := hs
  by_cases h : (s.vrtc_instances i).state = tmr_mngr_state.ARMED
  · cases hc : (B.tmr_back_constr_check_handler s.back (s.vrtc_instances i).next_cc_value).1
    · refine ⟨?_, ?_, ?_, ?_⟩
      · intro j hj; rw [(stop_inst cfg B s i j).2.1]; exact h1 j hj
      · rw [stop_deferred cfg B s i h256 h hc]; exact h2
      · rw [stop_deferred cfg B s i h256 h hc]; exact h3
      · rw [stop_deferred cfg B s i h256 h hc]; exact h4
    · have hst := (stop_safe cfg B s i h256 h hc).2
      refine ⟨?_, ?_, ?_, ?_⟩
      · intro j hj; rw [(stop_inst cfg B s i j).2.1]; exact h1 j hj
      · intro x hx
        rw [hst] at hx
        simp only [free_pot, set_inst_pot] at hx
        exact h2 x (List.mem_of_mem_erase hx)
      · intro j hj
        unfold in_use at hj
        rw [hst, free_bit] at hj
        simp only [set_inst_allocated, Bool.and_eq_true] at hj
        exact h3 j hj.1
      · intro j hj
        unfold in_use at hj
        rw [hst, free_bit] at hj
        simp only [set_inst_allocated, Bool.and_eq_true] at hj
        have hj0 : in_use s j := hj.1
        have hne : j ≠ i := by
          intro hji
          subst hji
          have := (h3 j hj0).2
          simp [this] at hj
        rw [hst]
        simp only [free_pot, set_inst_pot]
        exact (List.mem_erase_of_ne hne).mpr (h4 j hj0)
  · rw [stop_not_armed cfg B s i h256 h]
    exact ⟨h1, h2, h3, h4⟩

theorem wf_step {β : Type} (cfg : Config) (hnum : cfg.num ≤ 256) (B : Backend β) (s : State β) (c : Cmd β)
    (r : Int × State β) (hs : wf cfg s) (h : step cfg B s c = Res.ok r) : wf cfg r.2 := by
  cases c with
  | start mode value context =>
    simp only [step, Res.ok.injEq] at h
    rw [← h]; exact wf_start cfg hnum B s mode value context hs
  | stop i =>
    simp only [step, Res.ok.injEq] at h
    rw [← h]; exact wf_stop cfg B s i hs
  | irq fuel =>
    simp only [step] at h
    split at h
    · rename_i s1 hirq
      simp only [Res.ok.injEq] at h
      rw [← h]; exact wf_irq_done cfg B fuel s s1 hs hirq
    · cases h
    · cases h
  | env b =>
    simp only [step, Res.ok.injEq] at h
    rw [← h]; exact hs

theorem wf_run {β : Type} (cfg : Config) (hnum : cfg.num ≤ 256) (B : Backend β) :
    ∀ (cmds : List (Cmd β)) (s s1 : State β), wf cfg s → run cfg B s cmds = Res.ok s1 →
      wf cfg s1 := by
  intro cmds
  induction cmds with
  | nil =>
    intro s s1 hs h
    simp only [run, Res.ok.injEq] at h
    rw [← h]; exact hs
  | cons c cs ih =>
    intro s s1 hs h
    simp only [run] at h
    split at h
    · rename_i r hstep
      exact ih r.2 s1 (wf_step cfg hnum B s c r hs hstep) h
    · cases h
    · cases h
/-! ## Handler calls recorded in the log -/

@[simp] theorem callbacks_of_append (i : Nat) (l1 l2 : List Event) :
    callbacks_of i (l1 ++ l2) = callbacks_of i l1 ++ callbacks_of i l2 := by
  simp [callbacks_of, List.filterMap_append]

@[simp] theorem pops_of_append (i : Nat) (l1 l2 : List Event) :
    pops_of i (l1 ++ l2) = pops_of i l1 ++ pops_of i l2 := by
  simp [pops_of, List.filterMap_append]

/-- The log after serving an element: the pop, then the handler call when the element was
`ARMED`. -/
theorem serve_log {β : Type} (cfg : Config) (s : State β) (e : Nat) (q : List Nat) :
    (serve cfg s e q).log
      = s.log ++ (Event.pop e (s.vrtc_instances e).next_cc_value ::
          (if (s.vrtc_instances e).state = tmr_mngr_state.ARMED then
            [Event.callback (s.vrtc_instances e).timer_id (s.vrtc_instances e).context]
          else [])) := by
  rcases serve_cases cfg s e q with ⟨h1, h2⟩ | ⟨h1, h2⟩ | h1
  · rw [serve_periodic cfg s e q h1 h2]; simp [h1]
  · rw [serve_one_shot cfg s e q h1 h2]; simp [h1]
  · rw [serve_not_armed cfg s e q h1]; simp [h1]

/-- The log after `tmr_mngr_start`: unchanged, or extended by one arm request. -/
theorem start_log_cases {β : Type} (cfg : Config) (B : Backend β) (s : State β)
    (mode : tmr_mngr_mode) (value context : Nat) :
    (tmr_mngr_start cfg B s mode value context).2.log = s.log
    ∨ ∃ v r, (tmr_mngr_start cfg B s mode value context).2.log
        = s.log ++ [Event.cc_sync v r] := by
  rcases lowest_free_or_none cfg s with ⟨i, hi⟩ | hnone
  · by_cases hacc : start_check cfg B s mode value = true
        ∨ mode = tmr_mngr_mode.ONE_SHOT_FORCE
    · rcases start_accepted_log cfg B s mode value context i hi hacc with
        ⟨_, _, hl⟩ | ⟨_, n, _, hl⟩
      · exact Or.inl hl
      · exact Or.inr ⟨_, _, hl⟩
    · simp only [not_or, Bool.not_eq_true] at hacc
      exact Or.inl
        (start_rejected cfg B s mode value context ⟨i, hi.1, hi.2.1⟩ hacc.1 hacc.2).2.2.2.1
  · rw [start_of_no_free cfg B s mode value context hnone]
    exact Or.inl rfl

theorem start_callbacks {β : Type} (cfg : Config) (B : Backend β) (s : State β)
    (mode : tmr_mngr_mode) (value context : Nat) (i : Nat) :
    callbacks_of i (tmr_mngr_start cfg B s mode value context).2.log = callbacks_of i s.log
    ∧ pops_of i (tmr_mngr_start cfg B s mode value context).2.log = pops_of i s.log := by
  rcases start_log_cases cfg B s mode value context with h | ⟨v, r, h⟩
  · rw [h]; exact ⟨rfl, rfl⟩
  · rw [h]; simp [callbacks_of, pops_of]

/-- A slot whose state is `ARMED` after `tmr_mngr_start` was `ARMED` before, or is the slot the
call returned. -/
theorem start_armed_after {β : Type} (cfg : Config) (hnum : cfg.num ≤ 256) (B : Backend β) (s : State β)
    (mode : tmr_mngr_mode) (value context : Nat) (j : Nat)
    (h : ((tmr_mngr_start cfg B s mode value context).2.vrtc_instances j).state
      = tmr_mngr_state.ARMED) :
    (s.vrtc_instances j).state = tmr_mngr_state.ARMED
    ∨ (tmr_mngr_start cfg B s mode value context).1 = (j : Int) := by
  rcases lowest_free_or_none cfg s with ⟨i, hi⟩ | hnone
  · by_cases hacc : start_check cfg B s mode value = true
        ∨ mode = tmr_mngr_mode.ONE_SHOT_FORCE
    · by_cases hz : start_arm_result cfg B s i mode value context = 0
      · obtain ⟨hret, hinst, _⟩ := start_accepted_ok cfg hnum B s mode value context i hi hacc hz
        by_cases hj : j = i
        · subst hj; exact Or.inr hret
        · rw [hinst] at h; left; simpa [hj] using h
      · obtain ⟨_, hinst, _⟩ := start_accepted_err cfg hnum B s mode value context i hi hacc hz
        rw [hinst] at h
        by_cases hj : j = i
        · subst hj; left; simpa using h
        · left; simpa [hj] using h
    · simp only [not_or, Bool.not_eq_true] at hacc
      have hst :=
        (start_rejected cfg B s mode value context ⟨i, hi.1, hi.2.1⟩ hacc.1 hacc.2).2.2.2.2.2 j
      rw [hst] at h; exact Or.inl h
  · rw [start_of_no_free cfg B s mode value context hnone] at h
    exact Or.inl h

/-! ## Slots that are not armed get no handler call -/

/-- Inside the handler: the data is consistent, slot `i` is not `ARMED`, and the handler calls
recorded for it are `L`. -/
theorem not_armed_stable {β : Type} (cfg : Config) (i : Nat) (L : List Nat) :
    IrqStable cfg (fun (s : State β) =>
      wf_irq cfg s ∧ (s.vrtc_instances i).state ≠ tmr_mngr_state.ARMED
        ∧ callbacks_of i s.log = L) where
  on_serve := by
    intro s e q ⟨hw, hst, hcb⟩ hpot
    refine ⟨(wf_irq_stable cfg).on_serve s e q hw hpot, ?_, ?_⟩
    · rw [(serve_inst_fields cfg s e q i).1]; exact hst
    · rw [serve_log, callbacks_of_append, hcb]
      have he : e < cfg.num := hw.2.1 e (by rw [hpot]; exact List.mem_cons_self _ _)
      by_cases ha : (s.vrtc_instances e).state = tmr_mngr_state.ARMED
      · have hne : e ≠ i := by
          intro hei; subst hei; exact hst ha
        simp [callbacks_of, ha, hw.1 e he, hne]
      · simp [callbacks_of, ha]
  on_back := by
    intro s b h
    exact h
  on_reload := by
    intro s j hj ⟨hw, hst, hcb⟩
    refine ⟨(wf_irq_stable cfg).on_reload s j hj hw, ?_, ?_⟩
    · rw [(reload_one_inst_fields cfg s j i).1]; exact hst
    · rw [reload_one_log]; exact hcb
  on_log := by
    intro s v r ⟨hw, hst, hcb⟩
    refine ⟨hw, hst, ?_⟩
    simp only [callbacks_of_append, hcb]
    simp [callbacks_of]

/-- One step of a trace that is not a start returning `i` keeps slot `i` not `ARMED` and
records no handler call for it. -/
theorem not_armed_step {β : Type} (cfg : Config) (hnum : cfg.num ≤ 256) (B : Backend β) (i : Nat) (s : State β)
    (c : Cmd β) (r : Int × State β) (hw : wf cfg s)
    (hst : (s.vrtc_instances i).state ≠ tmr_mngr_state.ARMED)
    (hq : quiet cfg B i s [c]) (h : step cfg B s c = Res.ok r) :
    (r.2.vrtc_instances i).state ≠ tmr_mngr_state.ARMED
    ∧ callbacks_of i r.2.log = callbacks_of i s.log := by
  simp only [quiet, h] at hq
  cases c with
  | start mode value context =>
    simp only [step, Res.ok.injEq] at h
    subst h
    refine ⟨?_, (start_callbacks cfg B s mode value context i).1⟩
    intro ha
    rcases start_armed_after cfg hnum B s mode value context i ha with h1 | h1
    · exact hst h1
    · exact hq.1 h1
  | stop j =>
    simp only [step, Res.ok.injEq] at h
    subst h
    refine ⟨?_, by rw [stop_log]⟩
    intro ha
    exact hst ((stop_inst cfg B s j i).2.2.2.2.2.2.2 ha).1
  | irq fuel =>
    simp only [step] at h
    split at h
    · rename_i s1 hirq
      simp only [Res.ok.injEq] at h
      subst h
      have := irq_stable cfg B _ (not_armed_stable cfg i (callbacks_of i s.log)) fuel s s1
        ⟨wf_irq_of_wf cfg s hw, hst, rfl⟩ hirq
      exact ⟨this.2.1, this.2.2⟩
    · cases h
    · cases h
  | env b =>
    simp only [step, Res.ok.injEq] at h
    subst h
    exact ⟨hst, rfl⟩

theorem not_armed_run {β : Type} (cfg : Config) (hnum : cfg.num ≤ 256) (B : Backend β) (i : Nat) :
    ∀ (cmds : List (Cmd β)) (s s1 : State β), wf cfg s →
      (s.vrtc_instances i).state ≠ tmr_mngr_state.ARMED →
      quiet cfg B i s cmds → run cfg B s cmds = Res.ok s1 →
      callbacks_of i s1.log = callbacks_of i s.log := by
  intro cmds
  induction cmds with
  | nil =>
    intro s s1 _ _ _ h
    simp only [run, Res.ok.injEq] at h
    rw [← h]
  | cons c cs ih =>
    intro s s1 hw hst hq h
    simp only [run] at h
    split at h
    · rename_i r hstep
      have hq1 : quiet cfg B i s [c] := by
        simp only [quiet, hstep] at hq ⊢
        exact ⟨hq.1, trivial⟩
      have hq2 : quiet cfg B i r.2 cs := by
        simp only [quiet, hstep] at hq
        exact hq.2
      obtain ⟨hst1, hcb1⟩ := not_armed_step cfg hnum B i s c r hw hst hq1 hstep
      rw [ih r.2 s1 (wf_step cfg hnum B s c r hw hstep) hst1 hq2 h, hcb1]
    · cases h
    · cases h
/-! ## Race-safe stop -/

/-- Inside the handler: the data is consistent, element `e` is not `ARMED`, and once a pop of
`e` has been recorded beyond `Lp` its slot is not in use. -/
theorem popped_not_armed_stable {β : Type} (cfg : Config) (e : Nat) (Lp : List Nat) :
    IrqStable cfg (fun (s : State β) =>
      wf_irq cfg s ∧ (s.vrtc_instances e).state ≠ tmr_mngr_state.ARMED
        ∧ (pops_of e s.log ≠ Lp → ¬ in_use s e)) where
  on_serve := by
    intro s x q ⟨hw, hst, hp⟩ hpot
    refine ⟨(wf_irq_stable cfg).on_serve s x q hw hpot, ?_, ?_⟩
    · rw [(serve_inst_fields cfg s x q e).1]; exact hst
    · intro hne huse
      have hx : x < cfg.num := hw.2.1 x (by rw [hpot]; exact List.mem_cons_self _ _)
      have huse0 := serve_in_use cfg s x q e huse
      by_cases hxe : x = e
      · subst hxe
        rw [serve_not_armed cfg s x q hst] at huse
        unfold in_use at huse
        rw [hw.1 x hx, free_bit] at huse
        simp [(hw.2.2.1 x huse0).2] at huse
      · apply hp _ huse0
        intro hpops
        apply hne
        rw [serve_log, pops_of_append, hpops]
        by_cases ha : (s.vrtc_instances x).state = tmr_mngr_state.ARMED
        · simp [pops_of, ha, hxe]
        · simp [pops_of, ha, hxe]
  on_back := by
    intro s b h
    exact h
  on_reload := by
    intro s j hj ⟨hw, hst, hp⟩
    refine ⟨(wf_irq_stable cfg).on_reload s j hj hw, ?_, ?_⟩
    · rw [(reload_one_inst_fields cfg s j e).1]; exact hst
    · intro hne huse
      rw [reload_one_log] at hne
      apply hp hne
      unfold in_use at huse ⊢
      rw [reload_one_allocated] at huse
      exact huse
  on_log := by
    intro s v r ⟨hw, hst, hp⟩
    refine ⟨hw, hst, ?_⟩
    intro hne huse
    apply hp _ huse
    intro hpops
    apply hne
    simp only [pops_of_append, hpops]
    simp [pops_of]

set_option maxRecDepth 1000000 in
/-- C4, counterexample: with 257 slots of which only slot 256 is eligible, a one-shot timer with
deadline 100 is started after `tmr_mngr_init` and returns slot 256, which is then in use with
state `ARMED`. `tmr_mngr_stop` receives the slot as a `uint8_t`, that is, as 0, finds slot 0 not
`ARMED` and returns `-EPERM`, neither `0` nor `-EINPROGRESS`; the state is unchanged, so slot 256
stays armed and in use. -/
theorem stop_of_slot_256_is_refused :
    (tmr_mngr_start cfg257 (mock 10) mock_init257 tmr_mngr_mode.ONE_SHOT 100 7).1 = 256
    ∧ (run cfg257 (mock 10) mock_init257
        [Cmd.start tmr_mngr_mode.ONE_SHOT 100 7]).toOption.map
      (fun s => ((s.vrtc_instances 256).state, decide (in_use s 256),
                 (tmr_mngr_stop cfg257 (mock 10) s 256).1))
      = some (tmr_mngr_state.ARMED, true, -EPERM)
    ∧ (run cfg257 (mock 10) mock_init257
        [Cmd.start tmr_mngr_mode.ONE_SHOT 100 7, Cmd.stop 256]).toOption.map
      (fun s => ((s.vrtc_instances 256).state, decide (in_use s 256)))
      = some (tmr_mngr_state.ARMED, true) := by
  refine ⟨by decide, by decide, by decide⟩

/-- C4, amended: with at most 256 slots, in every state reached from `tmr_mngr_init` by start,
stop, handler and environment
steps, for a timer that is armed (its slot is in use and its state is `ARMED`):
`tmr_mngr_stop` returns `-EINPROGRESS` when the backend reports its deadline as not safely
programmable and `0` when it reports it as safely programmable; in both cases, along every
continuation of the trace in which no start returns the same slot id, no handler call for the
slot is recorded after the stop; and a later handler run records no handler call for an element
whose state is `STOPPED`, and leaves its slot not in use once it has popped it. -/
theorem stop_race_safe {β : Type} (cfg : Config) (hnum : cfg.num ≤ 256) (B : Backend β)
    (s0 : State β) (pre : List (Cmd β)) (s : State β) (i : Nat)
    (hreach : run cfg B (init_state cfg B s0) pre = Res.ok s)
    (harmed : (s.vrtc_instances i).state = tmr_mngr_state.ARMED)
    (huse : in_use s i) :
    ((B.tmr_back_constr_check_handler s.back (s.vrtc_instances i).next_cc_value).1 = false →
        (tmr_mngr_stop cfg B s i).1 = -EINPROGRESS)
    ∧ ((B.tmr_back_constr_check_handler s.back (s.vrtc_instances i).next_cc_value).1 = true →
        (tmr_mngr_stop cfg B s i).1 = 0)
    ∧ (∀ (post : List (Cmd β)) (s2 : State β),
        quiet cfg B i (tmr_mngr_stop cfg B s i).2 post →
        run cfg B (tmr_mngr_stop cfg B s i).2 post = Res.ok s2 →
        callbacks_of i s2.log = callbacks_of i s.log)
    ∧ (∀ (post : List (Cmd β)) (t t1 : State β) (fuel e : Nat),
        run cfg B (tmr_mngr_stop cfg B s i).2 post = Res.ok t →
        (t.vrtc_instances e).state = tmr_mngr_state.STOPPED →
        tmr_mngr_back_cc_irq cfg B fuel t = Res.ok t1 →
        callbacks_of e t1.log = callbacks_of e t.log
        ∧ (pops_of e t1.log ≠ pops_of e t.log → ¬ in_use t1 e)) := by
  have hw : wf cfg s := wf_run cfg hnum B pre _ s (wf_init cfg B s0) hreach
  have hw1 : wf cfg (tmr_mngr_stop cfg B s i).2 := wf_stop cfg B s i hw
  have h256 : i < 256 := lt_of_lt_of_le (hw.2.2.1 i huse).1 hnum
  refine ⟨?_, ?_, ?_, ?_⟩
  · intro hc
    rw [stop_deferred cfg B s i h256 harmed hc]
  · intro hc
    rw [(stop_safe cfg B s i h256 harmed hc).1, if_pos (hw.2.2.2 i huse)]
  · intro post s2 hq hrun
    have hst : ((tmr_mngr_stop cfg B s i).2.vrtc_instances i).state ≠ tmr_mngr_state.ARMED := by
      intro ha
      exact ((stop_inst cfg B s i i).2.2.2.2.2.2.2 ha).2 (Nat.mod_eq_of_lt h256).symm
    rw [not_armed_run cfg hnum B i post _ s2 hw1 hst hq hrun, stop_log]
  · intro post t t1 fuel e hrun hst hirq
    have hwt : wf cfg t := wf_run cfg hnum B post _ t hw1 hrun
    have hne : (t.vrtc_instances e).state ≠ tmr_mngr_state.ARMED := by
      rw [hst]; decide
    have h1 := irq_stable cfg B _ (not_armed_stable cfg e (callbacks_of e t.log)) fuel t t1
      ⟨wf_irq_of_wf cfg t hwt, hne, rfl⟩ hirq
    have h2 := irq_stable cfg B _ (popped_not_armed_stable cfg e (pops_of e t.log)) fuel t t1
      ⟨wf_irq_of_wf cfg t hwt, hne, fun h => absurd rfl h⟩ hirq
    exact ⟨h1.2.2, h2.2.2⟩

set_option maxRecDepth 100000 in
/-- Witness of `stop_race_safe`: the one-shot timer with deadline 100 started on slot 0 after
`tmr_mngr_init` over the mock backend is armed, and stopping it at clock 0 returns `0`. -/
theorem stop_race_safe_witness :
    cfg4.num ≤ 256
    ∧ run cfg4 (mock 10) (init_state cfg4 (mock 10) (boot { now := 0, armed := none }))
        [Cmd.start tmr_mngr_mode.ONE_SHOT 100 7]
      = Res.ok (tmr_mngr_start cfg4 (mock 10) (mock_init 10) tmr_mngr_mode.ONE_SHOT 100 7).2
    ∧ ((tmr_mngr_start cfg4 (mock 10) (mock_init 10) tmr_mngr_mode.ONE_SHOT 100
          7).2.vrtc_instances 0).state = tmr_mngr_state.ARMED
    ∧ in_use (tmr_mngr_start cfg4 (mock 10) (mock_init 10) tmr_mngr_mode.ONE_SHOT 100 7).2 0
    ∧ (tmr_mngr_stop cfg4 (mock 10)
        (tmr_mngr_start cfg4 (mock 10) (mock_init 10) tmr_mngr_mode.ONE_SHOT 100 7).2 0).1 = 0 :=
  ⟨by decide, rfl, by decide, by decide,
    (stop_race_safe cfg4 (by decide) (mock 10) (boot { now := 0, armed := none })
      [Cmd.start tmr_mngr_mode.ONE_SHOT 100 7]
      (tmr_mngr_start cfg4 (mock 10) (mock_init 10) tmr_mngr_mode.ONE_SHOT 100 7).2 0
      rfl (by decide) (by decide)).2.1 (by decide)⟩
/-! ## More frame lemmas -/

/-- Over a backend whose arm function returns `0` or a negative code, a start that returns a
non-negative value has pushed the lowest free slot and got `0` from `vrtc_reconfig`. -/
theorem start_success_inv {β : Type} (cfg : Config) (B : Backend β) (s : State β)
    (mode : tmr_mngr_mode) (value context : Nat)
    (hB : ∀ b v, (B.tmr_back_cc_sync_handler b v).1 ≤ 0)
    (hok : 0 ≤ (tmr_mngr_start cfg B s mode value context).1) :
    ∃ i, lowest_free cfg s i
      ∧ (start_check cfg B s mode value = true ∨ mode = tmr_mngr_mode.ONE_SHOT_FORCE)
      ∧ start_arm_result cfg B s i mode value context = 0 := by
  rcases lowest_free_or_none cfg s with ⟨i, hi⟩ | hnone
  · by_cases hacc : start_check cfg B s mode value = true
        ∨ mode = tmr_mngr_mode.ONE_SHOT_FORCE
    · by_cases hz : start_arm_result cfg B s i mode value context = 0
      · exact ⟨i, hi, hacc, hz⟩
      · exfalso
        have hret := ((start_accepted_ret cfg B s mode value context i hi).2 hz).1
        rw [hret] at hok
        rcases vrtc_reconfig_result cfg B (start_entry s i context) i mode value with
          h0 | hf | ⟨b, v, hb⟩
        · exact hz h0
        · unfold start_arm_result at hok
          rw [hf] at hok
          exact absurd hok (by decide)
        · have := hB b v
          unfold start_arm_result at hok hz
          rw [hb] at hok hz
          exact hz (le_antisymm this hok)
    · exfalso
      simp only [not_or, Bool.not_eq_true] at hacc
      have := (start_rejected cfg B s mode value context ⟨i, hi.1, hi.2.1⟩ hacc.1 hacc.2).1
      rw [this] at hok
      exact absurd hok (by decide)
  · exfalso
    rw [start_of_no_free cfg B s mode value context hnone] at hok
    have hok1 : 0 ≤ -EPERM := hok
    exact absurd hok1 (by decide)

/-- A call of `tmr_mngr_start` leaves the record of every slot that is not free untouched. -/
theorem start_inst_not_free {β : Type} (cfg : Config) (hnum : cfg.num ≤ 256) (B : Backend β)
    (s : State β) (mode : tmr_mngr_mode) (value context : Nat) (j : Nat)
    (hj : ¬ free_slot cfg s j) :
    (tmr_mngr_start cfg B s mode value context).2.vrtc_instances j = s.vrtc_instances j := by
  rcases lowest_free_or_none cfg s with ⟨i, hi⟩ | hnone
  · have hji : j ≠ i := by
      intro h; subst h; exact hj hi.2.1
    have hji8 : j ≠ i % 256 := by
      rw [slot_narrow cfg hnum i hi.1]; exact hji
    rw [start_of_lowest_free cfg B s mode value context i hi]
    unfold start_finish
    split_ifs
    · simp only [set_inst_ne _ _ _ _ hji]
      rw [vrtc_reconfig_inst_ne cfg B _ i mode value j hji8]
      simp [start_entry, set_inst, hji]
    · simp only [free_inst, set_inst_ne _ _ _ _ hji]
      rw [vrtc_reconfig_inst_ne cfg B _ i mode value j hji8]
      simp [start_entry, set_inst, hji]
  · rw [start_of_no_free cfg B s mode value context hnone]

/-- A call of `tmr_mngr_start` clears no in-use bit. -/
theorem start_in_use_mono {β : Type} (cfg : Config) (B : Backend β) (s : State β)
    (mode : tmr_mngr_mode) (value context : Nat) (j : Nat) (hj : in_use s j) :
    in_use (tmr_mngr_start cfg B s mode value context).2 j := by
  unfold in_use at hj ⊢
  rcases lowest_free_or_none cfg s with ⟨i, hi⟩ | hnone
  · by_cases hacc : start_check cfg B s mode value = true
        ∨ mode = tmr_mngr_mode.ONE_SHOT_FORCE
    · by_cases hz : start_arm_result cfg B s i mode value context = 0
      · rw [((start_accepted_ret cfg B s mode value context i hi).1 hz).2, bit_is_set_set]
        simp [hj]
      · rw [((start_accepted_ret cfg B s mode value context i hi).2 hz).2]
        exact hj
    · simp only [not_or, Bool.not_eq_true] at hacc
      rw [(start_rejected cfg B s mode value context ⟨i, hi.1, hi.2.1⟩ hacc.1 hacc.2).2.1]
      exact hj
  · rw [start_of_no_free cfg B s mode value context hnone]
    exact hj

/-- A call of `tmr_mngr_stop` clears at most the in-use bit of the stopped slot. -/
theorem stop_in_use_ne {β : Type} (cfg : Config) (B : Backend β) (s : State β) (i j : Nat)
    (hji : j ≠ i % 256) (hj : in_use s j) : in_use (tmr_mngr_stop cfg B s i).2 j := by
  unfold in_use at hj ⊢
  rw [stop_narrow]
  have h256 : i % 256 < 256 := Nat.mod_lt _ (by decide)
  generalize i % 256 = k at h256 hji ⊢
  by_cases h : (s.vrtc_instances k).state = tmr_mngr_state.ARMED
  · cases hc : (B.tmr_back_constr_check_handler s.back (s.vrtc_instances k).next_cc_value).1
    · rw [stop_deferred cfg B s k h256 h hc]; exact hj
    · rw [(stop_safe cfg B s k h256 h hc).2, free_bit_ne cfg _ k j (Ne.symm hji)]; exact hj
  · rw [stop_not_armed cfg B s k h256 h]; exact hj

/-- The lemma `stop_in_use_ne` for an index that fits in a `uint8_t`. -/
theorem stop_in_use_lt {β : Type} (cfg : Config) (B : Backend β) (s : State β) (i j : Nat)
    (h256 : i < 256) (hji : j ≠ i) (hj : in_use s j) : in_use (tmr_mngr_stop cfg B s i).2 j := by
  apply stop_in_use_ne cfg B s i j _ hj
  rw [Nat.mod_eq_of_lt h256]; exact hji

/-- Serving an element whose `timer_id` is not `j` leaves the in-use bit of `j` as it was. -/
theorem serve_in_use_ne {β : Type} (cfg : Config) (s : State β) (e : Nat) (q : List Nat)
    (j : Nat) (hne : (s.vrtc_instances e).timer_id ≠ j) (hj : in_use s j) :
    in_use (serve cfg s e q) j := by
  unfold in_use at hj ⊢
  rcases serve_cases cfg s e q with ⟨h1, h2⟩ | ⟨h1, h2⟩ | h1
  · rw [serve_periodic cfg s e q h1 h2]; exact hj
  · rw [serve_one_shot cfg s e q h1 h2, free_bit_ne cfg _ _ j hne]; exact hj
  · rw [serve_not_armed cfg s e q h1, free_bit_ne cfg _ _ j hne]; exact hj

/-! ## Reload flags between calls -/

theorem reload_clear_step {β : Type} (cfg : Config) (hnum : cfg.num ≤ 256) (B : Backend β) (s : State β) (c : Cmd β)
    (r : Int × State β) (hw : wf cfg s)
    (hs : ∀ j, j < cfg.num → (s.vrtc_instances j).reload = false)
    (h : step cfg B s c = Res.ok r) :
    ∀ j, j < cfg.num → (r.2.vrtc_instances j).reload = false := by
  cases c with
  | start mode value context =>
    simp only [step, Res.ok.injEq] at h
    subst h
    intro j hj
    rw [((start_frame cfg hnum B s mode value context).1 j).2]; exact hs j hj
  | stop i =>
    simp only [step, Res.ok.injEq] at h
    subst h
    intro j hj
    rw [(stop_inst cfg B s i j).2.2.1]; exact hs j hj
  | irq fuel =>
    simp only [step] at h
    split at h
    · rename_i s1 hirq
      simp only [Res.ok.injEq] at h
      subst h
      obtain ⟨s2, _, hinst, _, _⟩ :=
        irq_loop_final cfg B _ (wf_irq_stable cfg) fuel true s s1 (wf_irq_of_wf cfg s hw) hirq
      intro j hj
      rw [hinst]; exact reload_all_flags cfg s2 j hj
    · cases h
    · cases h
  | env b =>
    simp only [step, Res.ok.injEq] at h
    subst h
    exact hs

theorem reload_clear_run {β : Type} (cfg : Config) (hnum : cfg.num ≤ 256) (B : Backend β) :
    ∀ (cmds : List (Cmd β)) (s s1 : State β), wf cfg s →
      (∀ j, j < cfg.num → (s.vrtc_instances j).reload = false) →
      run cfg B s cmds = Res.ok s1 →
      ∀ j, j < cfg.num → (s1.vrtc_instances j).reload = false := by
  intro cmds
  induction cmds with
  | nil =>
    intro s s1 _ hs h
    simp only [run, Res.ok.injEq] at h
    rw [← h]; exact hs
  | cons c cs ih =>
    intro s s1 hw hs h
    simp only [run] at h
    split at h
    · rename_i r hstep
      exact ih r.2 s1 (wf_step cfg hnum B s c r hw hstep) (reload_clear_step cfg hnum B s c r hw hs hstep) h
    · cases h
    · cases h

theorem reload_clear_init {β : Type} (cfg : Config) (B : Backend β) (s : State β)
    (hs : ∀ j, j < cfg.num → (s.vrtc_instances j).reload = false) :
    ∀ j, j < cfg.num → ((init_state cfg B s).vrtc_instances j).reload = false := by
  intro j hj
  simp [init_state, tmr_mngr_init, hj, hs j hj]
/-! ## Periodic timers -/

@[simp] theorem timer_events_append (i : Nat) (l1 l2 : List Event) :
    timer_events i (l1 ++ l2) = timer_events i l1 ++ timer_events i l2 := by
  simp [timer_events, List.filter_append]

theorem start_timer_events {β : Type} (cfg : Config) (B : Backend β) (s : State β)
    (mode : tmr_mngr_mode) (value context : Nat) (i : Nat) :
    timer_events i (tmr_mngr_start cfg B s mode value context).2.log = timer_events i s.log := by
  rcases start_log_cases cfg B s mode value context with h | ⟨v, r, h⟩
  · rw [h]
  · rw [h]; simp [timer_events]

/-- The handler's actions keep a running periodic timer running. -/
theorem periodic_live_stable {β : Type} (cfg : Config) (i t0 p ctx : Nat) (E0 : List Event) :
    IrqStable cfg (fun (s : State β) => wf_irq cfg s ∧ periodic_live cfg i t0 p ctx E0 s) where
  on_serve := by
    intro s e q ⟨hw, hst, hmode, hper, hctx, huse, m, hev, hnext⟩ hpot
    refine ⟨(wf_irq_stable cfg).on_serve s e q hw hpot, ?_⟩
    have he : e < cfg.num := hw.2.1 e (by rw [hpot]; exact List.mem_cons_self _ _)
    have hi : i < cfg.num := (hw.2.2.1 i huse).1
    by_cases hei : e = i
    · subst hei
      rw [serve_periodic cfg s e q hst hmode]
      refine ⟨by simpa using hst, by simpa using hmode, by simpa using hper,
        by simpa using hctx, huse, m + 1, ?_, ?_⟩
      · simp only [timer_events_append, hev, firings, hw.1 e he, hctx, hnext]
        simp [timer_events]
      · simp only [Function.update_same, hnext, hper]
        rw [Nat.mod_add_mod]
        congr 1
        ring
    · have hne : i ≠ e := fun h => hei h.symm
      have hinst := serve_inst_ne cfg s e q i hne
      refine ⟨by rw [hinst]; exact hst, by rw [hinst]; exact hmode, by rw [hinst]; exact hper,
        by rw [hinst]; exact hctx, ?_, m, ?_, by rw [hinst]; exact hnext⟩
      · apply serve_in_use_ne cfg s e q i _ huse
        rw [hw.1 e he]; exact hei
      · rw [serve_log, timer_events_append, hev]
        by_cases ha : (s.vrtc_instances e).state = tmr_mngr_state.ARMED
        · simp [timer_events, ha, hw.1 e he, hei]
        · simp [timer_events, ha, hei]
  on_back := by
    intro s b h
    exact h
  on_reload := by
    intro s j hj ⟨hw, hst, hmode, hper, hctx, huse, m, hev, hnext⟩
    refine ⟨(wf_irq_stable cfg).on_reload s j hj hw, ?_⟩
    have hf := reload_one_inst_fields cfg s j i
    refine ⟨by rw [hf.1]; exact hst, by rw [hf.2.2.2.1]; exact hmode,
      by rw [hf.2.2.2.2.1]; exact hper, by rw [hf.2.2.1]; exact hctx, ?_, m, ?_,
      by rw [hf.2.2.2.2.2]; exact hnext⟩
    · unfold in_use at huse ⊢
      rw [reload_one_allocated]; exact huse
    · rw [reload_one_log]; exact hev
  on_log := by
    intro s v r ⟨hw, hst, hmode, hper, hctx, huse, m, hev, hnext⟩
    refine ⟨hw, hst, hmode, hper, hctx, huse, m, ?_, hnext⟩
    simp only [timer_events_append, hev]
    simp [timer_events]

/-- A step of a trace other than a stop that reaches slot `i` keeps the periodic timer on
slot `i` running. -/
theorem periodic_live_step {β : Type} (cfg : Config) (hnum : cfg.num ≤ 256) (B : Backend β)
    (i t0 p ctx : Nat)
    (E0 : List Event) (s : State β) (c : Cmd β) (r : Int × State β) (hw : wf cfg s)
    (hl : periodic_live cfg i t0 p ctx E0 s) (hc : c.stops i = false)
    (h : step cfg B s c = Res.ok r) : periodic_live cfg i t0 p ctx E0 r.2 := by
  obtain ⟨hst, hmode, hper, hctx, huse, m, hev, hnext⟩ := hl
  cases c with
  | start mode value context =>
    simp only [step, Res.ok.injEq] at h
    subst h
    have hnf : ¬ free_slot cfg s i := by
      intro hf
      unfold in_use at huse
      rw [hf.2] at huse
      cases huse
    have hinst := start_inst_not_free cfg hnum B s mode value context i hnf
    refine ⟨by rw [hinst]; exact hst, by rw [hinst]; exact hmode, by rw [hinst]; exact hper,
      by rw [hinst]; exact hctx, start_in_use_mono cfg B s mode value context i huse, m, ?_,
      by rw [hinst]; exact hnext⟩
    rw [start_timer_events]; exact hev
  | stop j =>
    simp only [step, Res.ok.injEq] at h
    subst h
    have hji : i ≠ j % 256 := by
      intro hij
      simp [Cmd.stops, hij] at hc
    have hinst := (stop_inst cfg B s j i).1 hji
    refine ⟨by rw [hinst]; exact hst, by rw [hinst]; exact hmode, by rw [hinst]; exact hper,
      by rw [hinst]; exact hctx, stop_in_use_ne cfg B s j i hji huse, m, ?_,
      by rw [hinst]; exact hnext⟩
    rw [stop_log]; exact hev
  | irq fuel =>
    simp only [step] at h
    split at h
    · rename_i s1 hirq
      simp only [Res.ok.injEq] at h
      subst h
      exact (irq_stable cfg B _ (periodic_live_stable cfg i t0 p ctx E0) fuel s s1
        ⟨wf_irq_of_wf cfg s hw, hst, hmode, hper, hctx, huse, m, hev, hnext⟩ hirq).2
    · cases h
    · cases h
  | env b =>
    simp only [step, Res.ok.injEq] at h
    subst h
    exact ⟨hst, hmode, hper, hctx, huse, m, hev, hnext⟩

theorem periodic_live_run {β : Type} (cfg : Config) (hnum : cfg.num ≤ 256) (B : Backend β)
    (i t0 p ctx : Nat) (E0 : List Event) :
    ∀ (cmds : List (Cmd β)) (s s1 : State β), wf cfg s →
      periodic_live cfg i t0 p ctx E0 s → (∀ c, c ∈ cmds → c.stops i = false) →
      run cfg B s cmds = Res.ok s1 → periodic_live cfg i t0 p ctx E0 s1 := by
  intro cmds
  induction cmds with
  | nil =>
    intro s s1 _ hl _ h
    simp only [run, Res.ok.injEq] at h
    rw [← h]; exact hl
  | cons c cs ih =>
    intro s s1 hw hl hns h
    simp only [run] at h
    split at h
    · rename_i r hstep
      have hc : c.stops i = false := hns c (List.mem_cons_self _ _)
      exact ih r.2 s1 (wf_step cfg hnum B s c r hw hstep)
        (periodic_live_step cfg hnum B i t0 p ctx E0 s c r hw hl hc hstep)
        (fun c1 hmem => hns c1 (List.mem_cons_of_mem _ hmem)) h
    · cases h
    · cases h

/-- A successful periodic start leaves a running periodic timer that has not fired yet. -/
theorem periodic_live_start {β : Type} (cfg : Config) (hnum : cfg.num ≤ 256) (B : Backend β)
    (s : State β) (p ctx i : Nat)
    (hB : ∀ b v, (B.tmr_back_cc_sync_handler b v).1 ≤ 0)
    (hstart : (tmr_mngr_start cfg B s tmr_mngr_mode.PERIODIC p ctx).1 = (i : Int)) :
    periodic_live cfg i (B.tmr_back_cnt_get_handler s.back).1 p ctx (timer_events i s.log)
      (tmr_mngr_start cfg B s tmr_mngr_mode.PERIODIC p ctx).2 := by
  have hok : 0 ≤ (tmr_mngr_start cfg B s tmr_mngr_mode.PERIODIC p ctx).1 := by
    rw [hstart]; exact Int.natCast_nonneg i
  obtain ⟨i1, hi1, hacc, hz⟩ := start_success_inv cfg B s _ p ctx hB hok
  obtain ⟨hret, hinst, halloc, _, _⟩ := start_accepted_ok cfg hnum B s _ p ctx i1 hi1 hacc hz
  have hii : i1 = i := by
    rw [hret] at hstart
    exact Int.ofNat.inj hstart
  subst hii
  have hc : start_check cfg B s tmr_mngr_mode.PERIODIC p = true := by simpa using hacc
  refine ⟨by simp [hinst], by simp [hinst], by simp [hinst], by simp [hinst],
    by simp [in_use, halloc, bit_is_set_set], 0, ?_, ?_⟩
  · rw [start_timer_events]; simp [firings]
  · simp [hinst, start_pushed_deadline, hc, start_deadline]
theorem res_ok_of_isSome {α : Type} (r : Res α) (h : r.toOption.isSome = true) :
    ∃ a, r = Res.ok a := by
  cases r with
  | ok a => exact ⟨a, rfl⟩
  | null_deref => cases h
  | out_of_fuel => cases h

/-- C7, amended: with at most 256 slots, let a periodic timer with period `p` and context
`ctx` be started successfully
on slot `i`, at counter value `t0`, in a state reached from `tmr_mngr_init` (on static data
whose `reload` flags are clear), over a backend whose arm function returns `0` or a negative
code. After every continuation of the trace that contains no stop of slot `i` (no call of
`tmr_mngr_stop` whose argument, converted to `uint8_t`, is `i`) there is a
number `m` of firings such that the events recorded for the slot since the start are, for
`k = 1, ..., m` in order, a pop with deadline `t0 + k * p` modulo `2 ^ width` followed by the
handler call with the slot id and `ctx`; the slot's `next_cc_value` is `t0 + (m + 1) * p`
modulo `2 ^ width`, its state is `ARMED`, it is in use, its `reload` flag is clear and it is in
the queue. (A single handler run may pop the timer more than once.) -/
theorem periodic_reload {β : Type} (cfg : Config) (hnum : cfg.num ≤ 256) (B : Backend β)
    (s0 : State β) (pre : List (Cmd β)) (s : State β) (p ctx i : Nat) (post : List (Cmd β)) (s2 : State β)
    (hclear : ∀ j, j < cfg.num → (s0.vrtc_instances j).reload = false)
    (hB : ∀ b v, (B.tmr_back_cc_sync_handler b v).1 ≤ 0)
    (hreach : run cfg B (init_state cfg B s0) pre = Res.ok s)
    (hstart : (tmr_mngr_start cfg B s tmr_mngr_mode.PERIODIC p ctx).1 = (i : Int))
    (hns : ∀ c, c ∈ post → c.stops i = false)
    (hrun : run cfg B (tmr_mngr_start cfg B s tmr_mngr_mode.PERIODIC p ctx).2 post
      = Res.ok s2) :
    ∃ m, timer_events i s2.log
          = timer_events i s.log
            ++ firings cfg i (B.tmr_back_cnt_get_handler s.back).1 p ctx m
      ∧ (s2.vrtc_instances i).next_cc_value
          = ((B.tmr_back_cnt_get_handler s.back).1 + (m + 1) * p) % 2 ^ cfg.width
      ∧ (s2.vrtc_instances i).state = tmr_mngr_state.ARMED
      ∧ in_use s2 i
      ∧ (s2.vrtc_instances i).reload = false
      ∧ i ∈ s2.pot := by
  have hw : wf cfg s := wf_run cfg hnum B pre _ s (wf_init cfg B s0) hreach
  have hrc := reload_clear_run cfg hnum B pre _ s (wf_init cfg B s0)
    (reload_clear_init cfg B s0 hclear) hreach
  have hw1 := wf_start cfg hnum B s tmr_mngr_mode.PERIODIC p ctx hw
  have hrc1 := reload_clear_step cfg hnum B s (Cmd.start tmr_mngr_mode.PERIODIC p ctx) _ hw hrc rfl
  have hw2 := wf_run cfg hnum B post _ s2 hw1 hrun
  have hrc2 := reload_clear_run cfg hnum B post _ s2 hw1 hrc1 hrun
  obtain ⟨hst, _, _, _, huse, m, hev, hnext⟩ :=
    periodic_live_run cfg hnum B i _ p ctx _ post _ s2 hw1
      (periodic_live_start cfg hnum B s p ctx i hB hstart) hns hrun
  exact ⟨m, hev, hnext, hst, huse, hrc2 i (hw2.2.2.1 i huse).1, hw2.2.2.2 i huse⟩

set_option maxRecDepth 100000 in
/-- Witness of `periodic_reload`: the periodic timer with period 10 started at clock 0 over
the mock backend, followed by a handler run at clock 25. -/
theorem periodic_reload_witness :
    cfg4.num ≤ 256
    ∧ (∀ j, j < cfg4.num →
        ((boot { now := 0, armed := none } : State Mock).vrtc_instances j).reload = false)
    ∧ (∀ b v, ((mock 10).tmr_back_cc_sync_handler b v).1 ≤ 0)
    ∧ (tmr_mngr_start cfg4 (mock 10) (mock_init 10) tmr_mngr_mode.PERIODIC 10 1).1 = ((0 : Nat) : Int)
    ∧ ∃ s2, run cfg4 (mock 10)
          (tmr_mngr_start cfg4 (mock 10) (mock_init 10) tmr_mngr_mode.PERIODIC 10 1).2
          [Cmd.env { now := 25, armed := some 10 }, Cmd.irq 2] = Res.ok s2
      ∧ ∃ m, timer_events 0 s2.log
            = timer_events 0 (mock_init 10).log ++ firings cfg4 0 0 10 1 m
        ∧ (s2.vrtc_instances 0).next_cc_value = (0 + (m + 1) * 10) % 2 ^ cfg4.width := by
  refine ⟨by decide, fun _ _ => rfl, mock_arm_nonpos 10, by decide, ?_⟩
  obtain ⟨s2, hs2⟩ := res_ok_of_isSome
    (run cfg4 (mock 10)
      (tmr_mngr_start cfg4 (mock 10) (mock_init 10) tmr_mngr_mode.PERIODIC 10 1).2
      [Cmd.env { now := 25, armed := some 10 }, Cmd.irq 2]) (by decide)
  obtain ⟨m, h1, h2, _⟩ :=
    periodic_reload cfg4 (by decide) (mock 10) (boot { now := 0, armed := none }) []
      (mock_init 10) 10 1 0
      [Cmd.env { now := 25, armed := some 10 }, Cmd.irq 2] s2
      (fun _ _ => rfl) (mock_arm_nonpos 10) rfl (by decide)
      (by intro c hc; simp at hc; rcases hc with hc | hc <;> rw [hc] <;> rfl) hs2
  exact ⟨s2, hs2, m, h1, h2⟩
/-! ## The ordered queue -/

theorem pot_push_perm (inst : Nat → pot_element) (nf : Bool) (e : Nat) (q : List Nat) :
    List.Perm (pot_push inst nf e q) (e :: q) := by
  induction q with
  | nil => exact List.Perm.refl _
  | cons x q ih =>
    simp only [pot_push]
    split_ifs
    · exact List.Perm.refl _
    · exact (List.Perm.cons x ih).trans (List.Perm.swap e x q)

theorem pot_push_nodup (inst : Nat → pot_element) (nf : Bool) (e : Nat) (q : List Nat)
    (hq : q.Nodup) (he : e ∉ q) : (pot_push inst nf e q).Nodup :=
  (pot_push_perm inst nf e q).nodup_iff.mpr (List.nodup_cons.mpr ⟨he, hq⟩)

theorem pot_sorted_congr (inst1 inst2 : Nat → pot_element) (q : List Nat)
    (h : ∀ x, x ∈ q → (inst1 x).next_cc_value = (inst2 x).next_cc_value)
    (hs : pot_sorted inst1 q) : pot_sorted inst2 q := by
  unfold pot_sorted at hs ⊢
  induction q with
  | nil => exact List.Pairwise.nil
  | cons x q ih =>
    rw [List.pairwise_cons] at hs ⊢
    refine ⟨?_, ih (fun y hy => h y (List.mem_cons_of_mem _ hy)) hs.2⟩
    intro y hy
    rw [← h x (List.mem_cons_self _ _), ← h y (List.mem_cons_of_mem _ hy)]
    exact hs.1 y hy

theorem pot_push_sorted (inst : Nat → pot_element) (nf : Bool) (e : Nat) (q : List Nat)
    (hs : pot_sorted inst q) : pot_sorted inst (pot_push inst nf e q) := by
  unfold pot_sorted at hs ⊢
  induction q with
  | nil => simp [pot_push]
  | cons x q ih =>
    rw [List.pairwise_cons] at hs
    simp only [pot_push]
    split_ifs with h
    · have hex : (inst e).next_cc_value ≤ (inst x).next_cc_value := by
        rcases h with h | h
        · exact Nat.le_of_lt h
        · exact Nat.le_of_eq h.2
      rw [List.pairwise_cons]
      refine ⟨?_, List.pairwise_cons.mpr hs⟩
      intro y hy
      rcases List.mem_cons.mp hy with hy | hy
      · rw [hy]; exact hex
      · exact Nat.le_trans hex (hs.1 y hy)
    · have hxe : (inst x).next_cc_value ≤ (inst e).next_cc_value := by
        by_contra hlt
        exact h (Or.inl (Nat.lt_of_not_le hlt))
      rw [List.pairwise_cons]
      refine ⟨?_, ih hs.2⟩
      intro y hy
      rcases (mem_pot_push inst nf e y q).mp hy with hy | hy
      · rw [hy]; exact hxe
      · exact hs.1 y hy

/-- The minimum of an ordered queue is no later than any queued element. -/
theorem pot_sorted_head_le (inst : Nat → pot_element) (q : List Nat) (n y : Nat)
    (hs : pot_sorted inst q) (hn : pot_get q = some n) (hy : y ∈ q) :
    (inst n).next_cc_value ≤ (inst y).next_cc_value := by
  cases q with
  | nil => cases hy
  | cons x q =>
    simp only [pot_get, List.head?_cons, Option.some.injEq] at hn
    subst hn
    unfold pot_sorted at hs
    rw [List.pairwise_cons] at hs
    rcases List.mem_cons.mp hy with hy | hy
    · rw [hy]
    · exact hs.1 y hy

theorem pot_get_mem (q : List Nat) (n : Nat) (h : pot_get q = some n) : n ∈ q := by
  cases q with
  | nil => cases h
  | cons x q =>
    simp only [pot_get, List.head?_cons, Option.some.injEq] at h
    rw [← h]; exact List.mem_cons_self _ _

theorem pot_get_of_mem (q : List Nat) (y : Nat) (h : y ∈ q) : ∃ n, pot_get q = some n := by
  cases q with
  | nil => cases h
  | cons x q => exact ⟨x, rfl⟩

/-! ## The last arm request -/

theorem last_armed_append_cc_sync (l : List Event) (v : Nat) (r : Int) :
    last_armed (l ++ [Event.cc_sync v r]) = some v := by
  induction l with
  | nil => rfl
  | cons ev l ih => simp [last_armed, ih]

/-- When the instance is pushed, the result of `vrtc_reconfig` is `0` or what the backend's
arm function returned. -/
theorem vrtc_reconfig_accepted_result {β : Type} (cfg : Config) (B : Backend β) (s : State β)
    (i : Nat) (mode : tmr_mngr_mode) (value : Nat)
    (h : start_check cfg B s mode value = true ∨ mode = tmr_mngr_mode.ONE_SHOT_FORCE) :
    (vrtc_reconfig cfg B s i mode value).1 = 0
    ∨ ∃ b v, (vrtc_reconfig cfg B s i mode value).1 = (B.tmr_back_cc_sync_handler b v).1 := by
  unfold vrtc_reconfig
  cases hcv : start_check cfg B s mode value <;> cases mode <;>
    simp_all [set_inst, start_check, start_deadline, start_check_back]
  all_goals
    split
    · split_ifs
      · exact Or.inl rfl
      · exact Or.inr ⟨_, _, rfl⟩
    · exact Or.inl rfl
/-! ## Earliest deadline first -/

theorem edf_inv_init {β : Type} (cfg : Config) (B : Backend β) (s : State β) :
    edf_inv cfg (init_state cfg B s) ∧ edf_exact (init_state cfg B s) := by
  refine ⟨⟨wf_init cfg B s, ?_, ?_, ?_, ?_, ?_⟩, ?_, ?_⟩
  · simp [init_state, tmr_mngr_init]
  · simp [init_state, tmr_mngr_init, pot_sorted]
  · intro e he; simp [init_state, tmr_mngr_init] at he
  · intro i hi hst; simp [init_state, tmr_mngr_init, hi] at hst
  · intro n hn; simp [init_state, tmr_mngr_init, pot_get] at hn
  · intro e he; simp [init_state, tmr_mngr_init] at he
  · simp [init_state, tmr_mngr_init, pot_get, last_armed]

theorem edf_inv_start {β : Type} (cfg : Config) (hnum : cfg.num ≤ 256) (B : Backend β) (s : State β)
    (mode : tmr_mngr_mode) (value context : Nat)
    (hB : ∀ b v, (B.tmr_back_cc_sync_handler b v).1 = 0)
    (hs : edf_inv cfg s) :
    edf_inv cfg (tmr_mngr_start cfg B s mode value context).2
    ∧ (edf_exact s → edf_exact (tmr_mngr_start cfg B s mode value context).2) := by
  obtain ⟨hw, hnd, hsort, huse, harm, hhw⟩ := hs
  have hw1 := wf_start cfg hnum B s mode value context hw
  have hkeep : ∀ x, x ∈ s.pot →
      (tmr_mngr_start cfg B s mode value context).2.vrtc_instances x = s.vrtc_instances x := by
    intro x hx
    apply start_inst_not_free cfg hnum
    intro hf
    have := huse x hx
    unfold in_use at this
    rw [hf.2] at this
    cases this
  rcases lowest_free_or_none cfg s with ⟨i, hi⟩ | hnone
  · have hnotin : i ∉ s.pot := by
      intro hmem
      have := huse i hmem
      unfold in_use at this
      rw [hi.2.1.2] at this
      cases this
    by_cases hacc : start_check cfg B s mode value = true
        ∨ mode = tmr_mngr_mode.ONE_SHOT_FORCE
    · have hz : start_arm_result cfg B s i mode value context = 0 := by
        unfold start_arm_result
        rcases vrtc_reconfig_accepted_result cfg B (start_entry s i context) i mode value
          (by simpa using hacc) with h0 | ⟨b, v, hb⟩
        · exact h0
        · rw [hb]; exact hB b v
      obtain ⟨_, hinst, halloc, hpot, _⟩ :=
        start_accepted_ok cfg hnum B s mode value context i hi hacc hz
      have hst_i : ((tmr_mngr_start cfg B s mode value context).2.vrtc_instances i).state
          = tmr_mngr_state.ARMED := by rw [hinst]; simp
      have hst_ne : ∀ j, j ≠ i →
          (tmr_mngr_start cfg B s mode value context).2.vrtc_instances j
            = s.vrtc_instances j := by
        intro j hj; rw [hinst]; simp [hj]
      have hlog := start_accepted_log cfg B s mode value context i hi hacc
      refine ⟨⟨hw1, ?_, ?_, ?_, ?_, ?_⟩, ?_⟩
      · rw [hpot]; exact pot_push_nodup _ _ i s.pot hnd hnotin
      · rw [hpot]
        apply pot_push_sorted
        exact pot_sorted_congr s.vrtc_instances _ s.pot
          (fun x hx => by rw [hkeep x hx]) hsort
      · intro e he
        rw [hpot, mem_pot_push] at he
        rcases he with he | he
        · subst he
          simp [in_use, halloc, bit_is_set_set]
        · exact start_in_use_mono cfg B s mode value context e (huse e he)
      · intro j hj hst
        rw [hpot, mem_pot_push]
        by_cases hji : j = i
        · exact Or.inl hji
        · rw [hst_ne j hji] at hst
          exact Or.inr (harm j hj hst)
      · intro n hn
        rcases hlog with ⟨hg, _, hl⟩ | ⟨_, n1, hn1, hl⟩
        · rw [hg] at hn
          obtain ⟨a, ha, hle⟩ := hhw n hn
          refine ⟨a, by rw [hl]; exact ha, ?_⟩
          rw [hkeep n (pot_get_mem _ _ hn)]; exact hle
        · rw [hn1] at hn
          cases hn
          exact ⟨_, by rw [hl]; exact last_armed_append_cc_sync _ _ _, Nat.le_refl _⟩
      · rintro ⟨hex1, hex2⟩
        refine ⟨?_, ?_⟩
        · intro e he
          rw [hpot, mem_pot_push] at he
          rcases he with he | he
          · subst he; exact hst_i
          · rw [hkeep e he]; exact hex1 e he
        · rcases hlog with ⟨hg, _, hl⟩ | ⟨_, n1, hn1, hl⟩
          · rw [hl, hg, hex2]
            cases hq : pot_get s.pot with
            | none => rfl
            | some n =>
              simp only [Option.map_some']
              rw [hkeep n (pot_get_mem _ _ hq)]
          · rw [hl, hn1, last_armed_append_cc_sync]
            rfl
    · simp only [not_or, Bool.not_eq_true] at hacc
      obtain ⟨_, halloc, hpot, hlog, _, hst⟩ :=
        start_rejected cfg B s mode value context ⟨i, hi.1, hi.2.1⟩ hacc.1 hacc.2
      refine ⟨⟨hw1, ?_, ?_, ?_, ?_, ?_⟩, ?_⟩
      · rw [hpot]; exact hnd
      · rw [hpot]
        exact pot_sorted_congr s.vrtc_instances _ s.pot
          (fun x hx => by rw [hkeep x hx]) hsort
      · intro e he
        rw [hpot] at he
        unfold in_use
        rw [halloc]
        exact huse e he
      · intro j hj hstj
        rw [hst j] at hstj
        rw [hpot]; exact harm j hj hstj
      · intro n hn
        rw [hpot] at hn
        obtain ⟨a, ha, hle⟩ := hhw n hn
        refine ⟨a, by rw [hlog]; exact ha, ?_⟩
        rw [hkeep n (pot_get_mem _ _ hn)]; exact hle
      · rintro ⟨hex1, hex2⟩
        refine ⟨?_, ?_⟩
        · intro e he
          rw [hpot] at he
          rw [hst e]; exact hex1 e he
        · rw [hlog, hpot, hex2]
          cases hq : pot_get s.pot with
          | none => rfl
          | some n =>
            simp only [Option.map_some']
            rw [hkeep n (pot_get_mem _ _ hq)]
  · rw [start_of_no_free cfg B s mode value context hnone]
    exact ⟨⟨hw, hnd, hsort, huse, harm, hhw⟩, fun h => h⟩

theorem edf_inv_stop {β : Type} (cfg : Config) (B : Backend β) (s : State β) (i : Nat)
    (hs : edf_inv cfg s) : edf_inv cfg (tmr_mngr_stop cfg B s i).2 := by
  suffices hall : ∀ i, i < 256 → edf_inv cfg (tmr_mngr_stop cfg B s i).2 by
    rw [stop_narrow]; exact hall _ (Nat.mod_lt _ (by decide))
  clear i
  intro i h256
  obtain ⟨hw, hnd, hsort, huse, harm, hhw⟩ := hs
  have hw1 := wf_stop cfg B s i hw
  have hkey : ∀ j, ((tmr_mngr_stop cfg B s i).2.vrtc_instances j).next_cc_value
      = (s.vrtc_instances j).next_cc_value :=
    fun j => (stop_inst_lt cfg B s i j h256).2.2.2.2.2.2.1
  have hsort1 : pot_sorted (tmr_mngr_stop cfg B s i).2.vrtc_instances s.pot :=
    pot_sorted_congr s.vrtc_instances _ s.pot (fun x _ => (hkey x).symm) hsort
  have harm1 : ∀ j, j < cfg.num →
      ((tmr_mngr_stop cfg B s i).2.vrtc_instances j).state = tmr_mngr_state.ARMED →
      j ∈ s.pot ∧ j ≠ i := by
    intro j hj hst
    have := (stop_inst_lt cfg B s i j h256).2.2.2.2.2.2.2 hst
    exact ⟨harm j hj this.1, fun h => this.2 h⟩
  by_cases h : (s.vrtc_instances i).state = tmr_mngr_state.ARMED
  · cases hc : (B.tmr_back_constr_check_handler s.back (s.vrtc_instances i).next_cc_value).1
    · have hpot : (tmr_mngr_stop cfg B s i).2.pot = s.pot := by
        rw [stop_deferred cfg B s i h256 h hc]; rfl
      have halloc : (tmr_mngr_stop cfg B s i).2.allocated_timers = s.allocated_timers := by
        rw [stop_deferred cfg B s i h256 h hc]; rfl
      refine ⟨hw1, by rw [hpot]; exact hnd, by rw [hpot]; exact hsort1, ?_, ?_, ?_⟩
      · intro e he
        rw [hpot] at he
        unfold in_use; rw [halloc]; exact huse e he
      · intro j hj hst
        rw [hpot]; exact (harm1 j hj hst).1
      · intro n hn
        rw [hpot] at hn
        obtain ⟨a, ha, hle⟩ := hhw n hn
        exact ⟨a, by rw [stop_log]; exact ha, by rw [hkey]; exact hle⟩
    · have hpot : (tmr_mngr_stop cfg B s i).2.pot = s.pot.erase i := by
        rw [(stop_safe cfg B s i h256 h hc).2]; simp
      refine ⟨hw1, by rw [hpot]; exact hnd.erase i, ?_, ?_, ?_, ?_⟩
      · rw [hpot]
        exact List.Pairwise.sublist (List.erase_sublist i s.pot) hsort1
      · intro e he
        rw [hpot] at he
        have hmem := (hnd.mem_erase_iff).mp he
        apply stop_in_use_lt cfg B s i e h256 hmem.1 (huse e hmem.2)
      · intro j hj hst
        rw [hpot]
        exact (List.mem_erase_of_ne (harm1 j hj hst).2).mpr (harm1 j hj hst).1
      · intro n hn
        rw [hpot] at hn
        have hmem : n ∈ s.pot := List.mem_of_mem_erase (pot_get_mem _ _ hn)
        obtain ⟨n0, hn0⟩ := pot_get_of_mem s.pot n hmem
        obtain ⟨a, ha, hle⟩ := hhw n0 hn0
        refine ⟨a, by rw [stop_log]; exact ha, ?_⟩
        rw [hkey]
        exact Nat.le_trans hle (pot_sorted_head_le _ s.pot n0 n hsort hn0 hmem)
  · rw [stop_not_armed cfg B s i h256 h]
    exact ⟨hw, hnd, hsort, huse, harm, hhw⟩

theorem edf_inv_run {β : Type} (cfg : Config) (hnum : cfg.num ≤ 256) (B : Backend β)
    (hB : ∀ b v, (B.tmr_back_cc_sync_handler b v).1 = 0) :
    ∀ (cmds : List (Cmd β)) (s s1 : State β), (∀ c, c ∈ cmds → c.is_call = true) →
      edf_inv cfg s → run cfg B s cmds = Res.ok s1 →
      edf_inv cfg s1
      ∧ ((∀ c, c ∈ cmds → c.is_start = true) → edf_exact s → edf_exact s1) := by
  intro cmds
  induction cmds with
  | nil =>
    intro s s1 _ hs h
    simp only [run, Res.ok.injEq] at h
    subst h
    exact ⟨hs, fun _ h => h⟩
  | cons c cs ih =>
    intro s s1 hcall hs h
    have hcs : ∀ c1, c1 ∈ cs → c1.is_call = true :=
      fun c1 h1 => hcall c1 (List.mem_cons_of_mem _ h1)
    have hc := hcall c (List.mem_cons_self _ _)
    cases c with
    | start mode value context =>
      simp only [run, step] at h
      obtain ⟨h1, h2⟩ := edf_inv_start cfg hnum B s mode value context hB hs
      obtain ⟨h3, h4⟩ := ih _ s1 hcs h1 h
      refine ⟨h3, ?_⟩
      intro hst hex
      exact h4 (fun c1 hc1 => hst c1 (List.mem_cons_of_mem _ hc1)) (h2 hex)
    | stop i =>
      simp only [run, step] at h
      obtain ⟨h3, _⟩ := ih _ s1 hcs (edf_inv_stop cfg B s i hs) h
      refine ⟨h3, ?_⟩
      intro hst
      have := hst (Cmd.stop i) (List.mem_cons_self _ _)
      simp [Cmd.is_start] at this
    | irq fuel => simp [Cmd.is_call] at hc
    | env b => simp [Cmd.is_call] at hc
/-- C1, amended: with at most 256 slots, over a backend whose arm requests succeed, after
every sequence of
`tmr_mngr_start` and `tmr_mngr_stop` calls made after `tmr_mngr_init`: whenever some instance
is `ARMED`, the hardware is armed, at a value no later than the minimum `next_cc_value` among
the `ARMED` instances; and as long as the sequence consists of start calls only, the armed
value equals that minimum and the hardware is unarmed if and only if no instance is `ARMED`.
A call of `tmr_mngr_stop` makes no request to the backend's arm functions, so it leaves the
armed value as it was. -/
theorem earliest_deadline_armed {β : Type} (cfg : Config) (hnum : cfg.num ≤ 256)
    (B : Backend β) (s0 : State β) (cmds : List (Cmd β)) (s : State β)
    (hB : ∀ b v, (B.tmr_back_cc_sync_handler b v).1 = 0)
    (hcall : ∀ c, c ∈ cmds → c.is_call = true)
    (hrun : run cfg B (init_state cfg B s0) cmds = Res.ok s) :
    (∀ i, i < cfg.num → (s.vrtc_instances i).state = tmr_mngr_state.ARMED →
        ∃ a, last_armed s.log = some a
          ∧ ∀ j, j < cfg.num → (s.vrtc_instances j).state = tmr_mngr_state.ARMED →
              a ≤ (s.vrtc_instances j).next_cc_value)
    ∧ ((∀ c, c ∈ cmds → c.is_start = true) →
        (last_armed s.log = none
          ↔ ∀ i, i < cfg.num → (s.vrtc_instances i).state ≠ tmr_mngr_state.ARMED)
        ∧ (∀ a, last_armed s.log = some a →
            (∃ i, i < cfg.num ∧ (s.vrtc_instances i).state = tmr_mngr_state.ARMED
              ∧ (s.vrtc_instances i).next_cc_value = a)
            ∧ ∀ j, j < cfg.num → (s.vrtc_instances j).state = tmr_mngr_state.ARMED →
                a ≤ (s.vrtc_instances j).next_cc_value))
    ∧ (∀ i, last_armed (tmr_mngr_stop cfg B s i).2.log = last_armed s.log) := by
  obtain ⟨hinv, hexact⟩ := edf_inv_run cfg hnum B hB cmds _ s hcall (edf_inv_init cfg B s0).1 hrun
  obtain ⟨hw, _, hsort, _, harm, hhw⟩ := hinv
  refine ⟨?_, ?_, fun i => by rw [stop_log]⟩
  · intro i hi hst
    obtain ⟨n, hn⟩ := pot_get_of_mem s.pot i (harm i hi hst)
    obtain ⟨a, ha, hle⟩ := hhw n hn
    refine ⟨a, ha, ?_⟩
    intro j hj hstj
    exact Nat.le_trans hle (pot_sorted_head_le _ s.pot n j hsort hn (harm j hj hstj))
  · intro hstart
    obtain ⟨hex1, hex2⟩ := hexact hstart (edf_inv_init cfg B s0).2
    cases hq : pot_get s.pot with
    | none =>
      rw [hq] at hex2
      refine ⟨⟨?_, fun _ => hex2⟩, ?_⟩
      · intro _ i hi hst
        obtain ⟨n, hn⟩ := pot_get_of_mem s.pot i (harm i hi hst)
        rw [hq] at hn; cases hn
      · intro a ha
        rw [hex2] at ha; cases ha
    | some n =>
      rw [hq] at hex2
      have hmem := pot_get_mem _ _ hq
      refine ⟨⟨?_, ?_⟩, ?_⟩
      · intro h; rw [hex2] at h; cases h
      · intro h
        exact absurd (hex1 n hmem) (h n (hw.2.1 n hmem))
      · intro a ha
        rw [hex2] at ha
        simp only [Option.map_some', Option.some.injEq] at ha
        refine ⟨⟨n, hw.2.1 n hmem, hex1 n hmem, ha⟩, ?_⟩
        intro j hj hstj
        rw [← ha]
        exact pot_sorted_head_le _ s.pot n j hsort hq (harm j hj hstj)

set_option maxRecDepth 100000 in
/-- Witness of `earliest_deadline_armed`: the two starts of the specification scenario over the
mock backend whose arm requests always succeed. -/
theorem earliest_deadline_armed_witness :
    cfg4.num ≤ 256
    ∧ (∀ b v, ((mock_lenient 10).tmr_back_cc_sync_handler b v).1 = 0)
    ∧ (∀ c, c ∈ [Cmd.start tmr_mngr_mode.PERIODIC 100 7,
          (Cmd.start tmr_mngr_mode.ONE_SHOT 50 9 : Cmd Mock)] → c.is_call = true)
    ∧ ∃ s, run cfg4 (mock_lenient 10)
          (init_state cfg4 (mock_lenient 10) (boot { now := 0, armed := none }))
          [Cmd.start tmr_mngr_mode.PERIODIC 100 7, Cmd.start tmr_mngr_mode.ONE_SHOT 50 9]
          = Res.ok s
      ∧ ∀ i, i < cfg4.num → (s.vrtc_instances i).state = tmr_mngr_state.ARMED →
          ∃ a, last_armed s.log = some a
            ∧ ∀ j, j < cfg4.num → (s.vrtc_instances j).state = tmr_mngr_state.ARMED →
                a ≤ (s.vrtc_instances j).next_cc_value := by
  have hcall : ∀ c, c ∈ [Cmd.start tmr_mngr_mode.PERIODIC 100 7,
      (Cmd.start tmr_mngr_mode.ONE_SHOT 50 9 : Cmd Mock)] → c.is_call = true := by
    intro c hc
    simp only [List.mem_cons, List.mem_singleton, List.not_mem_nil, or_false] at hc
    rcases hc with hc | hc <;> rw [hc] <;> rfl
  refine ⟨by decide, fun _ _ => rfl, hcall, ?_⟩
  obtain ⟨s, hs⟩ := res_ok_of_isSome
    (run cfg4 (mock_lenient 10)
      (init_state cfg4 (mock_lenient 10) (boot { now := 0, armed := none }))
      [Cmd.start tmr_mngr_mode.PERIODIC 100 7, Cmd.start tmr_mngr_mode.ONE_SHOT 50 9])
    (by decide)
  exact ⟨s, hs,
    (earliest_deadline_armed cfg4 (by decide) (mock_lenient 10)
      (boot { now := 0, armed := none }) _ s
      (fun _ _ => rfl) hcall hs).1⟩
/-! ## Termination of the inner loop -/

theorem free_noop {β : Type} (cfg : Config) (s : State β) (i : Nat)
    (h : ¬ (nrf_bitmask_bit_is_set i cfg.aval = true
      ∧ nrf_bitmask_bit_is_set i s.allocated_timers = true)) :
    tmr_mngr_free cfg s i = s := by
  unfold tmr_mngr_free
  rw [if_neg]
  simpa using h

/-- C20: reference behaviour of the allocator. When a free index exists, `tmr_mngr_alloc`
returns the lowest index below `TMR_MNGR_NUM` that is eligible and not in use, sets exactly its
in-use bit and changes nothing else; it returns `-ENOMEM` if and only if no such index exists,
and then leaves the state unchanged. `tmr_mngr_free(i)` clears exactly bit `i` when slot `i` is
eligible and in use and otherwise changes nothing, so releasing twice equals releasing once;
and both functions keep the in-use set inside the eligible set. -/
theorem allocator_reference {β : Type} (cfg : Config) (s : State β) (i : Nat) :
    (∀ k, lowest_free cfg s k →
        (tmr_mngr_alloc cfg s).1 = (k : Int)
        ∧ (tmr_mngr_alloc cfg s).2
            = { s with allocated_timers := (tmr_mngr_alloc cfg s).2.allocated_timers }
        ∧ ∀ j, nrf_bitmask_bit_is_set j (tmr_mngr_alloc cfg s).2.allocated_timers
            = (decide (k = j) || nrf_bitmask_bit_is_set j s.allocated_timers))
    ∧ ((tmr_mngr_alloc cfg s).1 = -ENOMEM ↔ ∀ k, k < cfg.num → ¬ free_slot cfg s k)
    ∧ ((∀ k, k < cfg.num → ¬ free_slot cfg s k) → (tmr_mngr_alloc cfg s).2 = s)
    ∧ (nrf_bitmask_bit_is_set i cfg.aval = true ∧ in_use s i →
        (tmr_mngr_free cfg s i)
            = { s with allocated_timers := (tmr_mngr_free cfg s i).allocated_timers }
        ∧ ∀ j, nrf_bitmask_bit_is_set j (tmr_mngr_free cfg s i).allocated_timers
            = (nrf_bitmask_bit_is_set j s.allocated_timers && !decide (i = j)))
    ∧ (¬ (nrf_bitmask_bit_is_set i cfg.aval = true ∧ in_use s i) → tmr_mngr_free cfg s i = s)
    ∧ tmr_mngr_free cfg (tmr_mngr_free cfg s i) i = tmr_mngr_free cfg s i
    ∧ ((∀ j, in_use s j → nrf_bitmask_bit_is_set j cfg.aval = true) →
        (∀ j, in_use (tmr_mngr_alloc cfg s).2 j → nrf_bitmask_bit_is_set j cfg.aval = true)
        ∧ (∀ j, in_use (tmr_mngr_free cfg s i) j → nrf_bitmask_bit_is_set j cfg.aval = true)) := by
  refine ⟨?_, ?_, ?_, ?_, ?_, ?_, ?_⟩
  · intro k hk
    rw [alloc_of_lowest_free cfg s k hk]
    exact ⟨rfl, rfl, fun j => bit_is_set_set k j _⟩
  · constructor
    · intro h
      rcases lowest_free_or_none cfg s with ⟨k, hk⟩ | hnone
      · rw [alloc_of_lowest_free cfg s k hk] at h
        have h0 : (0 : Int) ≤ (k : Int) := Int.natCast_nonneg k
        have h1 : ((k : Nat) : Int) = -ENOMEM := h
        rw [h1] at h0
        exact absurd h0 (by decide)
      · exact hnone
    · intro h
      rw [alloc_of_no_free cfg s h]
  · intro h
    rw [alloc_of_no_free cfg s h]
  · rintro ⟨h1, h2⟩
    unfold in_use at h2
    refine ⟨?_, ?_⟩
    · simp [tmr_mngr_free, h1, h2]
    · intro j
      rw [free_bit]
      simp [h1]
  · intro h
    exact free_noop cfg s i h
  · by_cases h : nrf_bitmask_bit_is_set i cfg.aval = true
        ∧ nrf_bitmask_bit_is_set i s.allocated_timers = true
    · have hclr : nrf_bitmask_bit_is_set i (tmr_mngr_free cfg s i).allocated_timers = false := by
        rw [free_bit]; simp [h.1]
      apply free_noop
      rw [hclr]
      simp
    · rw [free_noop cfg s i h, free_noop cfg s i h]
  · intro hsub
    refine ⟨?_, ?_⟩
    · intro j hj
      rcases lowest_free_or_none cfg s with ⟨k, hk⟩ | hnone
      · rw [alloc_of_lowest_free cfg s k hk] at hj
        unfold in_use at hj
        simp only [bit_is_set_set, Bool.or_eq_true, decide_eq_true_eq] at hj
        rcases hj with hj | hj
        · rw [← hj]; exact hk.2.1.1
        · exact hsub j hj
      · rw [alloc_of_no_free cfg s hnone] at hj
        exact hsub j hj
    · intro j hj
      unfold in_use at hj
      rw [free_bit] at hj
      simp only [Bool.and_eq_true] at hj
      exact hsub j hj.1
/-! ## Arming in `tmr_mngr_start` -/

/-- When `vrtc_reconfig` pushes the instance and the queue minimum changes, its result is the
answer of `tmr_back_cc_sync_handler` for the deadline of the new minimum. -/
theorem vrtc_reconfig_asks_backend {β : Type} (cfg : Config) (B : Backend β) (s : State β)
    (i : Nat) (mode : tmr_mngr_mode) (value : Nat)
    (h : start_check cfg B s mode value = true ∨ mode = tmr_mngr_mode.ONE_SHOT_FORCE)
    (hne : pot_get (vrtc_reconfig cfg B s i mode value).2.pot ≠ pot_get s.pot) :
    ∃ n b, pot_get (vrtc_reconfig cfg B s i mode value).2.pot = some n
      ∧ (vrtc_reconfig cfg B s i mode value).1
          = (B.tmr_back_cc_sync_handler b
              ((vrtc_reconfig cfg B s i mode value).2.vrtc_instances n).next_cc_value).1 := by
  revert hne
  unfold vrtc_reconfig
  generalize i % 256 = k
  have hpush : ∀ (inst : Nat → pot_element) (q : List Nat),
      pot_get (pot_push inst cfg.pot_new_first k q) ≠ none := by
    intro inst q
    cases q with
    | nil => simp [pot_push, pot_get]
    | cons x q =>
      simp only [pot_push, pot_get]
      split_ifs <;> simp
  cases hcv : start_check cfg B s mode value <;> cases mode <;>
    simp_all [set_inst, start_check, start_deadline, start_check_back]
  all_goals
    split
    · rename_i n hn
      split_ifs with hcur
      · intro hne
        simp only [hn] at hne
        exact absurd hcur.symm hne
      · intro _
        simp only [hn]
        exact ⟨n, rfl, _, rfl⟩
    · rename_i hn
      exact absurd hn (hpush _ _)

/-- The queue minimum after a push, when the pushed deadline is strictly later than that of the
minimum `x`, or when `x` is the pushed element itself: it is still `x`. -/
theorem pot_get_push_later (inst : Nat → pot_element) (nf : Bool) (e x : Nat) (q : List Nat)
    (h : x = e ∨ (inst x).next_cc_value < (inst e).next_cc_value) :
    pot_get (pot_push inst nf e (x :: q)) = some x := by
  simp only [pot_push]
  split_ifs with hc
  · rcases h with h | h
    · subst h; rfl
    · exfalso
      rcases hc with hc | hc
      · exact Nat.lt_asymm h hc
      · rw [hc.2] at h; exact Nat.lt_irrefl _ h
  · rfl

/-- The queue minimum after a push onto an empty queue, or when the pushed deadline is strictly
earlier than that of the minimum: it is the pushed element. -/
theorem pot_get_push_earlier (inst : Nat → pot_element) (nf : Bool) (e : Nat) (q : List Nat)
    (h : q = [] ∨ ∃ x, pot_get q = some x ∧ (inst e).next_cc_value < (inst x).next_cc_value) :
    pot_get (pot_push inst nf e q) = some e := by
  cases q with
  | nil => rfl
  | cons y q =>
    rcases h with h | ⟨x, hx, hlt⟩
    · cases h
    · simp only [pot_get, List.head?_cons, Option.some.injEq] at hx
      subst hx
      simp only [pot_push, hlt, true_or, if_true]
      rfl

/-- C19: in `tmr_mngr_start`, when a slot is available and the deadline is accepted (safely
programmable, or forced), the new instance (the record `vrtc_reconfig` works on, whose index is
the slot converted to `uint8_t`) is pushed into the queue with the deadline
`start_pushed_deadline`, and the backend is asked to arm if and only if the queue minimum after
the push differs from the queue minimum before it. The request is then
`tmr_back_cc_sync_handler` with the `next_cc_value` of the new minimum, and its answer is what
the call reports: the slot id when the answer is `0`, the answer itself otherwise. When the
minimum is unchanged no request is made and the call returns the slot id; this is the case when
the pushed deadline is strictly later than that of the previous minimum. When the queue was
empty, or the previous minimum is another instance whose deadline is strictly later than the
pushed one, the new instance is the new minimum and the backend is asked to arm at the pushed
deadline. -/
theorem start_arms_iff_minimum_changed {β : Type} (cfg : Config) (B : Backend β) (s : State β)
    (mode : tmr_mngr_mode) (value context : Nat) (i : Nat) (hi : lowest_free cfg s i)
    (hacc : start_check cfg B s mode value = true ∨ mode = tmr_mngr_mode.ONE_SHOT_FORCE) :
    (tmr_mngr_start cfg B s mode value context).2.pot
        = pot_push (tmr_mngr_start cfg B s mode value context).2.vrtc_instances
            cfg.pot_new_first (i % 256) s.pot
    ∧ ((tmr_mngr_start cfg B s mode value context).2.vrtc_instances (i % 256)).next_cc_value
        = start_pushed_deadline cfg B s mode value
    ∧ ((tmr_mngr_start cfg B s mode value context).2.log ≠ s.log
      ↔ pot_get (tmr_mngr_start cfg B s mode value context).2.pot ≠ pot_get s.pot)
    ∧ (pot_get (tmr_mngr_start cfg B s mode value context).2.pot ≠ pot_get s.pot →
        ∃ n b, pot_get (tmr_mngr_start cfg B s mode value context).2.pot = some n
          ∧ (tmr_mngr_start cfg B s mode value context).2.log
              = s.log ++ [Event.cc_sync
                  ((tmr_mngr_start cfg B s mode value context).2.vrtc_instances n).next_cc_value
                  (B.tmr_back_cc_sync_handler b
                    ((tmr_mngr_start cfg B s mode value context).2.vrtc_instances
                      n).next_cc_value).1]
          ∧ (tmr_mngr_start cfg B s mode value context).1
              = (if (B.tmr_back_cc_sync_handler b
                    ((tmr_mngr_start cfg B s mode value context).2.vrtc_instances
                      n).next_cc_value).1 = 0
                then (i : Int)
                else (B.tmr_back_cc_sync_handler b
                    ((tmr_mngr_start cfg B s mode value context).2.vrtc_instances
                      n).next_cc_value).1))
    ∧ (pot_get (tmr_mngr_start cfg B s mode value context).2.pot = pot_get s.pot →
        (tmr_mngr_start cfg B s mode value context).2.log = s.log
        ∧ (tmr_mngr_start cfg B s mode value context).1 = (i : Int))
    ∧ (∀ x, pot_get s.pot = some x →
        (s.vrtc_instances x).next_cc_value < start_pushed_deadline cfg B s mode value →
        pot_get (tmr_mngr_start cfg B s mode value context).2.pot = pot_get s.pot
        ∧ (tmr_mngr_start cfg B s mode value context).2.log = s.log
        ∧ (tmr_mngr_start cfg B s mode value context).1 = (i : Int))
    ∧ ((s.pot = [] ∨ ∃ x, pot_get s.pot = some x ∧ x ≠ i % 256
          ∧ start_pushed_deadline cfg B s mode value < (s.vrtc_instances x).next_cc_value) →
        pot_get (tmr_mngr_start cfg B s mode value context).2.pot = some (i % 256)
        ∧ pot_get (tmr_mngr_start cfg B s mode value context).2.pot ≠ pot_get s.pot
        ∧ ∃ r, (tmr_mngr_start cfg B s mode value context).2.log
            = s.log ++ [Event.cc_sync (start_pushed_deadline cfg B s mode value) r]) := by
  have hlog := start_accepted_log cfg B s mode value context i hi hacc
  obtain ⟨hpot, hnew, hold⟩ := start_accepted_pot cfg B s mode value context i hi hacc
  have hret := start_accepted_ret cfg B s mode value context i hi
  have hsame : pot_get (tmr_mngr_start cfg B s mode value context).2.pot = pot_get s.pot →
      (tmr_mngr_start cfg B s mode value context).2.log = s.log
      ∧ (tmr_mngr_start cfg B s mode value context).1 = (i : Int) := by
    intro hg
    rcases hlog with ⟨_, hz, hl⟩ | ⟨hne, _⟩
    · exact ⟨hl, (hret.1 hz).1⟩
    · exact absurd hg hne
  have hkey : ∀ j, ((tmr_mngr_start cfg B s mode value context).2.vrtc_instances j).next_cc_value
      = if j = i % 256 then start_pushed_deadline cfg B s mode value
        else (s.vrtc_instances j).next_cc_value := by
    intro j
    by_cases hj : j = i % 256
    · rw [if_pos hj, hj]; exact hnew
    · rw [if_neg hj]; exact hold j hj
  refine ⟨hpot, hnew, ⟨?_, ?_⟩, ?_, hsame, ?_, ?_⟩
  · intro hl hg
    exact hl (hsame hg).1
  · intro hne hl
    rcases hlog with ⟨hg, _, _⟩ | ⟨_, n, _, hl1⟩
    · exact hne hg
    · rw [hl] at hl1
      have := congrArg List.length hl1
      simp at this
  · intro hne
    rcases hlog with ⟨hg, _, _⟩ | ⟨_, n, hn, hl⟩
    · exact absurd hg hne
    · have h1 : start_check cfg B (start_entry s i context) mode value = true
          ∨ mode = tmr_mngr_mode.ONE_SHOT_FORCE := by simpa using hacc
      have hrc : (vrtc_reconfig cfg B (start_entry s i context) i mode value).2.pot
          = (tmr_mngr_start cfg B s mode value context).2.pot := by
        rw [start_of_lowest_free cfg B s mode value context i hi]
        unfold start_finish
        split_ifs <;> simp
      have hrk : ∀ j, ((vrtc_reconfig cfg B (start_entry s i context) i mode
          value).2.vrtc_instances j).next_cc_value
          = ((tmr_mngr_start cfg B s mode value context).2.vrtc_instances j).next_cc_value := by
        intro j
        rw [hkey j]
        by_cases hj : j = i % 256
        · rw [if_pos hj, hj,
            (vrtc_reconfig_accepted cfg B (start_entry s i context) i mode value h1).1,
            start_entry_pushed_deadline]
        · rw [if_neg hj, vrtc_reconfig_inst_ne cfg B (start_entry s i context) i mode value j hj]
          by_cases hji : j = i
          · subst hji; simp [start_entry]
          · simp [start_entry, set_inst, hji]
      obtain ⟨n1, b, hn1, hres⟩ :=
        vrtc_reconfig_asks_backend cfg B (start_entry s i context) i mode value h1
          (by rw [hrc]; simpa using hne)
      rw [hrc, hn] at hn1
      cases hn1
      rw [hrk n] at hres
      have hres1 : start_arm_result cfg B s i mode value context
          = (B.tmr_back_cc_sync_handler b
              ((tmr_mngr_start cfg B s mode value context).2.vrtc_instances n).next_cc_value).1 :=
        hres
      refine ⟨n, b, hn, by rw [← hres1]; exact hl, ?_⟩
      rw [← hres1]
      by_cases hz : start_arm_result cfg B s i mode value context = 0
      · rw [if_pos hz]
        exact (hret.1 hz).1
      · rw [if_neg hz]
        exact (hret.2 hz).1
  · intro x hx hlt
    have hg : pot_get (tmr_mngr_start cfg B s mode value context).2.pot = pot_get s.pot := by
      cases hq : s.pot with
      | nil => rw [hq] at hx; cases hx
      | cons y q =>
        rw [hq] at hx
        simp only [pot_get, List.head?_cons, Option.some.injEq] at hx
        subst hx
        rw [hpot, hq]
        rw [pot_get_push_later]
        · rfl
        · by_cases hyi : y = i % 256
          · exact Or.inl hyi
          · right
            rw [hkey y, hkey (i % 256), if_neg hyi, if_pos rfl]
            exact hlt
    exact ⟨hg, hsame hg⟩
  · intro hearly
    have hmin : pot_get (tmr_mngr_start cfg B s mode value context).2.pot = some (i % 256) := by
      rw [hpot]
      apply pot_get_push_earlier
      rcases hearly with h0 | ⟨x, hx, hxi, hlt⟩
      · exact Or.inl h0
      · refine Or.inr ⟨x, hx, ?_⟩
        rw [hkey x, hkey (i % 256), if_neg hxi, if_pos rfl]
        exact hlt
    have hne : pot_get (tmr_mngr_start cfg B s mode value context).2.pot ≠ pot_get s.pot := by
      rw [hmin]
      rcases hearly with h0 | ⟨x, hx, hxi, _⟩
      · rw [h0]; simp [pot_get]
      · rw [hx]
        intro h
        exact hxi (Option.some.inj h).symm
    refine ⟨hmin, hne, ?_⟩
    rcases hlog with ⟨hg, _, _⟩ | ⟨_, n, hn, hl⟩
    · exact absurd hg hne
    · rw [hmin] at hn
      cases hn
      rw [hnew] at hl
      exact ⟨_, hl⟩

set_option maxRecDepth 100000 in
/-- Witness of `start_arms_iff_minimum_changed`: the first start of the specification
scenario, made on an empty queue: slot 0 is pushed with deadline 100 and the backend is asked
to arm at 100. -/
theorem start_arms_iff_minimum_changed_witness :
    lowest_free cfg4 (mock_init 10) 0
    ∧ (start_check cfg4 (mock 10) (mock_init 10) tmr_mngr_mode.PERIODIC 100 = true
        ∨ tmr_mngr_mode.PERIODIC = tmr_mngr_mode.ONE_SHOT_FORCE)
    ∧ (mock_init 10).pot = []
    ∧ start_pushed_deadline cfg4 (mock 10) (mock_init 10) tmr_mngr_mode.PERIODIC 100 = 100
    ∧ pot_get (tmr_mngr_start cfg4 (mock 10) (mock_init 10) tmr_mngr_mode.PERIODIC 100 7).2.pot
        = some (0 % 256)
    ∧ (∃ r, (tmr_mngr_start cfg4 (mock 10) (mock_init 10) tmr_mngr_mode.PERIODIC 100 7).2.log
        = (mock_init 10).log
          ++ [Event.cc_sync
              (start_pushed_deadline cfg4 (mock 10) (mock_init 10) tmr_mngr_mode.PERIODIC 100)
              r]) :=
  ⟨⟨by decide, by decide, fun j hj => by omega⟩, Or.inl (by decide), by decide, by decide,
    ((start_arms_iff_minimum_changed cfg4 (mock 10) (mock_init 10) tmr_mngr_mode.PERIODIC 100 7 0
      ⟨by decide, by decide, fun j hj => by omega⟩ (Or.inl (by decide))).2.2.2.2.2.2
        (Or.inl (by decide))).1,
    ((start_arms_iff_minimum_changed cfg4 (mock 10) (mock_init 10) tmr_mngr_mode.PERIODIC 100 7 0
      ⟨by decide, by decide, fun j hj => by omega⟩ (Or.inl (by decide))).2.2.2.2.2.2
        (Or.inl (by decide))).2.2⟩

/-! ## The immediate path of `tmr_mngr_stop` -/

/-- In a state whose queue holds no element twice, for an eligible slot that is `ARMED`, is in
the queue and has a `next_cc_value` the backend reports as safely programmable,
`tmr_mngr_stop` returns `0`; afterwards the slot is not in the queue, its state is `IDLE` and
its in-use bit is clear, while the record, the in-use bit and the queue membership of every
other slot are unchanged. -/
theorem stop_immediate_frame {β : Type} (cfg : Config) (B : Backend β) (s : State β) (i : Nat)
    (h256 : i < 256)
    (hnd : s.pot.Nodup)
    (hel : nrf_bitmask_bit_is_set i cfg.aval = true)
    (harmed : (s.vrtc_instances i).state = tmr_mngr_state.ARMED)
    (hmem : i ∈ s.pot)
    (hc : (B.tmr_back_constr_check_handler s.back (s.vrtc_instances i).next_cc_value).1 = true) :
    (tmr_mngr_stop cfg B s i).1 = 0
    ∧ i ∉ (tmr_mngr_stop cfg B s i).2.pot
    ∧ ((tmr_mngr_stop cfg B s i).2.vrtc_instances i).state = tmr_mngr_state.IDLE
    ∧ ¬ in_use (tmr_mngr_stop cfg B s i).2 i
    ∧ ∀ j, j ≠ i →
        (tmr_mngr_stop cfg B s i).2.vrtc_instances j = s.vrtc_instances j
        ∧ nrf_bitmask_bit_is_set j (tmr_mngr_stop cfg B s i).2.allocated_timers
            = nrf_bitmask_bit_is_set j s.allocated_timers
        ∧ (j ∈ (tmr_mngr_stop cfg B s i).2.pot ↔ j ∈ s.pot) := by
  obtain ⟨hret, hst⟩ := stop_safe cfg B s i h256 harmed hc
  refine ⟨by rw [hret, if_pos hmem], ?_, ?_, ?_, ?_⟩
  · rw [hst]
    simp only [free_pot, set_inst_pot]
    intro h
    exact ((hnd.mem_erase_iff).mp h).1 rfl
  · rw [hst]; simp
  · unfold in_use
    rw [hst, free_bit]
    simp [hel]
  · intro j hj
    refine ⟨(stop_inst_lt cfg B s i j h256).1 hj, ?_, ?_⟩
    · rw [hst, free_bit_ne cfg _ i j (Ne.symm hj)]; rfl
    · rw [hst]
      simp only [free_pot, set_inst_pot]
      exact List.mem_erase_of_ne hj

set_option maxRecDepth 100000 in
/-- C11: with the mock clock at 100, `tmr_mngr_start(ONE_SHOT_FORCE, 10)` takes slot 0, fails
in the backend's arm function and releases the slot but leaves it in the queue; the next
start, a one-shot timer with deadline 500, takes slot 0 again and pushes it a second time.
Slot 0 is then `ARMED`, in the queue and its deadline is safely programmable;
`tmr_mngr_stop(0)` returns `0`, sets the state to `IDLE` and clears the in-use bit, but removes
one of the two queue entries only: afterwards slot 0 is still in the queue. -/
theorem stop_leaves_slot_in_queue :
    (tmr_mngr_start cfg4 (mock 10) (mock_at 100) tmr_mngr_mode.ONE_SHOT_FORCE 10 7).1 = -EPERM
    ∧ (run cfg4 (mock 10) (mock_at 100)
        [Cmd.start tmr_mngr_mode.ONE_SHOT_FORCE 10 7]).toOption.map
      (fun s => (s.pot, decide (in_use s 0),
                 (tmr_mngr_start cfg4 (mock 10) s tmr_mngr_mode.ONE_SHOT 500 8).1))
      = some ([0], false, 0)
    ∧ (run cfg4 (mock 10) (mock_at 100)
        [Cmd.start tmr_mngr_mode.ONE_SHOT_FORCE 10 7,
         Cmd.start tmr_mngr_mode.ONE_SHOT 500 8]).toOption.map
      (fun s => ((s.vrtc_instances 0).state, s.pot, decide (0 ∈ s.pot), decide (in_use s 0),
                 ((mock 10).tmr_back_constr_check_handler s.back
                    (s.vrtc_instances 0).next_cc_value).1,
                 (tmr_mngr_stop cfg4 (mock 10) s 0).1))
      = some (tmr_mngr_state.ARMED, [0, 0], true, true, true, 0)
    ∧ (run cfg4 (mock 10) (mock_at 100)
        [Cmd.start tmr_mngr_mode.ONE_SHOT_FORCE 10 7,
         Cmd.start tmr_mngr_mode.ONE_SHOT 500 8, Cmd.stop 0]).toOption.map
      (fun s => ((s.vrtc_instances 0).state, s.pot, decide (0 ∈ s.pot), decide (in_use s 0),
                 s.assert_failed))
      = some (tmr_mngr_state.IDLE, [0], true, false, false) := by
  refine ⟨by decide, by decide, by decide, by decide⟩
/-! ## More evaluations on concrete traces -/

/-- On an empty queue the handler reads the `state` of the null pointer that `pot_pop`
returns. -/
theorem irq_empty_queue {β : Type} (cfg : Config) (B : Backend β) (fuel : Nat) (s : State β)
    (h : s.pot = []) : tmr_mngr_back_cc_irq cfg B (fuel + 1) s = Res.null_deref := by
  simp [tmr_mngr_back_cc_irq, irq_loop, drain, pot_pop, h]

set_option maxRecDepth 100000 in
/-- C14: after `tmr_mngr_init`, a one-shot timer with deadline 100 is started and stopped on
the immediate path, which empties the queue and leaves the hardware armed at 100. In the
handler run at clock 100 `pot_pop` yields no instance and the handler reads the `state` field
through that null pointer: the run does not complete. -/
theorem handler_on_empty_queue_dereferences_null :
    (run cfg4 (mock 10) (mock_init 10)
        [Cmd.start tmr_mngr_mode.ONE_SHOT 100 7]).toOption.map
      (fun s => (tmr_mngr_stop cfg4 (mock 10) s 0).1) = some 0
    ∧ (run cfg4 (mock 10) (mock_init 10)
        [Cmd.start tmr_mngr_mode.ONE_SHOT 100 7, Cmd.stop 0,
         Cmd.env { now := 100, armed := some 100 }]).toOption.map
      (fun s => (s.pot, pot_pop s.pot, last_armed s.log)) = some ([], (none, []), some 100)
    ∧ (run cfg4 (mock 10) (mock_init 10)
        [Cmd.start tmr_mngr_mode.ONE_SHOT 100 7, Cmd.stop 0,
         Cmd.env { now := 100, armed := some 100 }, Cmd.irq 1]).is_null_deref = true
    ∧ (run cfg4 (mock 10) (mock_init 10)
        [Cmd.start tmr_mngr_mode.ONE_SHOT 100 7, Cmd.stop 0,
         Cmd.env { now := 100, armed := some 100 }, Cmd.irq 5]).is_null_deref = true := by
  refine ⟨by decide, by decide, by decide, by decide⟩

set_option maxRecDepth 100000 in
/-- C13: a periodic timer with period 1000 is started on slot 0 at clock 0 and a one-shot
timer with deadline 100 on slot 1; the one-shot is stopped on the immediate path, which leaves
the hardware armed at 100. The handler run at clock 100 pops slot 0, whose `next_cc_value` is
1000, strictly after the counter reading 100, and calls its handler. -/
theorem handler_pops_instance_that_is_not_due :
    (run cfg4 (mock 10) (mock_init 10)
        [Cmd.start tmr_mngr_mode.PERIODIC 1000 1, Cmd.start tmr_mngr_mode.ONE_SHOT 100 2,
         Cmd.stop 1, Cmd.env { now := 100, armed := some 100 }]).toOption.map
      (fun s => (s.pot, (s.vrtc_instances 0).next_cc_value,
                 ((mock 10).tmr_back_cnt_get_handler s.back).1, last_armed s.log))
      = some ([0], 1000, 100, some 100)
    ∧ (run cfg4 (mock 10) (mock_init 10)
        [Cmd.start tmr_mngr_mode.PERIODIC 1000 1, Cmd.start tmr_mngr_mode.ONE_SHOT 100 2,
         Cmd.stop 1, Cmd.env { now := 100, armed := some 100 }, Cmd.irq 1]).toOption.map
      (fun s => (s.log.drop 2, ((mock 10).tmr_back_cnt_get_handler s.back).1))
      = some ([Event.pop 0 1000, Event.callback 0 1, Event.cc 2000 0], 100) := by
  refine ⟨by decide, by decide⟩

set_option maxRecDepth 100000 in
/-- C16: over the mock backend, whose clock only advances and whose programmability check
rejects every deadline that is not at least 10 after the clock, one-shot timers are started on
slot 0 (deadline 100) and slot 1 (deadline 500), slot 0 is stopped on the immediate path, and
the handler run at clock 100 pops slot 1, leaving its state `ARMED` and the queue empty. The
following `tmr_mngr_stop(1)` finds state `ARMED` and a safely programmable deadline, takes the
immediate path, fails to remove the slot from the queue, reaches `NRF_ASSERT(0)` and returns
`-EFAULT`. -/
theorem stop_reaches_assertion :
    (run cfg4 (mock 10) (mock_init 10)
        [Cmd.start tmr_mngr_mode.ONE_SHOT 100 1, Cmd.start tmr_mngr_mode.ONE_SHOT 500 2,
         Cmd.stop 0, Cmd.env { now := 100, armed := some 100 }, Cmd.irq 1]).toOption.map
      (fun s => ((s.vrtc_instances 1).state, s.pot, s.assert_failed,
                 ((mock 10).tmr_back_constr_check_handler s.back
                    (s.vrtc_instances 1).next_cc_value).1))
      = some (tmr_mngr_state.ARMED, [], false, true)
    ∧ (run cfg4 (mock 10) (mock_init 10)
        [Cmd.start tmr_mngr_mode.ONE_SHOT 100 1, Cmd.start tmr_mngr_mode.ONE_SHOT 500 2,
         Cmd.stop 0, Cmd.env { now := 100, armed := some 100 }, Cmd.irq 1]).toOption.map
      (fun s => ((tmr_mngr_stop cfg4 (mock 10) s 1).1,
                 (tmr_mngr_stop cfg4 (mock 10) s 1).2.assert_failed))
      = some (-EFAULT, true) := by
  refine ⟨by decide, by decide⟩

set_option maxRecDepth 100000 in
/-- C17, counterexample: a one-shot timer with deadline 100 is started on slot 0 and stopped
at clock 95, when the backend no longer reports its deadline as safely programmable. The stop
returns `-EINPROGRESS`; afterwards slot 0 is in the queue while its state is `STOPPED`, not
`ARMED`. -/
theorem deferred_stop_leaves_stopped_slot_queued :
    (run cfg4 (mock 10) (mock_init 10)
        [Cmd.start tmr_mngr_mode.ONE_SHOT 100 7,
         Cmd.env { now := 95, armed := some 100 }]).toOption.map
      (fun s => (tmr_mngr_stop cfg4 (mock 10) s 0).1) = some (-EINPROGRESS)
    ∧ (run cfg4 (mock 10) (mock_init 10)
        [Cmd.start tmr_mngr_mode.ONE_SHOT 100 7, Cmd.env { now := 95, armed := some 100 },
         Cmd.stop 0]).toOption.map
      (fun s => (decide (0 ∈ s.pot), (s.vrtc_instances 0).state))
      = some (true, tmr_mngr_state.STOPPED) := by
  refine ⟨by decide, by decide⟩

set_option maxRecDepth 100000 in
/-- C12, counterexample: with four eligible slots, four one-shot timers are started
successfully and a fifth start fails with `-EPERM`. The timer on slot 0 (deadline 100) is then
stopped at clock 95: the stop returns `-EINPROGRESS`, an outcome other than `-EPERM`, and
leaves the slot in use, so the next start, with the comfortable deadline 1000, fails with
`-EPERM` again. -/
theorem start_after_deferred_stop_still_fails :
    (run cfg4 (mock 10) (mock_init 10)
        [Cmd.start tmr_mngr_mode.ONE_SHOT 100 0, Cmd.start tmr_mngr_mode.ONE_SHOT 200 1,
         Cmd.start tmr_mngr_mode.ONE_SHOT 300 2, Cmd.start tmr_mngr_mode.ONE_SHOT 400 3]
        ).toOption.map
      (fun s => (s.allocated_timers, s.pot,
                 (tmr_mngr_start cfg4 (mock 10) s tmr_mngr_mode.ONE_SHOT 500 4).1))
      = some (15, [0, 1, 2, 3], -EPERM)
    ∧ (run cfg4 (mock 10) (mock_init 10)
        [Cmd.start tmr_mngr_mode.ONE_SHOT 100 0, Cmd.start tmr_mngr_mode.ONE_SHOT 200 1,
         Cmd.start tmr_mngr_mode.ONE_SHOT 300 2, Cmd.start tmr_mngr_mode.ONE_SHOT 400 3,
         Cmd.start tmr_mngr_mode.ONE_SHOT 500 4,
         Cmd.env { now := 95, armed := some 100 }]).toOption.map
      (fun s => (tmr_mngr_stop cfg4 (mock 10) s 0).1) = some (-EINPROGRESS)
    ∧ (run cfg4 (mock 10) (mock_init 10)
        [Cmd.start tmr_mngr_mode.ONE_SHOT 100 0, Cmd.start tmr_mngr_mode.ONE_SHOT 200 1,
         Cmd.start tmr_mngr_mode.ONE_SHOT 300 2, Cmd.start tmr_mngr_mode.ONE_SHOT 400 3,
         Cmd.start tmr_mngr_mode.ONE_SHOT 500 4,
         Cmd.env { now := 95, armed := some 100 }, Cmd.stop 0]).toOption.map
      (fun s => (s.allocated_timers,
                 start_check cfg4 (mock 10) s tmr_mngr_mode.ONE_SHOT 1000,
                 (tmr_mngr_start cfg4 (mock 10) s tmr_mngr_mode.ONE_SHOT 1000 5).1))
      = some (15, true, -EPERM) := by
  refine ⟨by decide, by decide, by decide⟩
/-! ## One pass of the inner loop -/

/-- On a non-empty queue one pass of the inner loop completes. -/
theorem drain_completes {β : Type} (cfg : Config) (B : Backend β) :
    ∀ (fuel : Nat) (s : State β), s.pot ≠ [] → s.pot.length < fuel →
      ∃ s1, drain cfg B fuel s = Res.ok s1 := by
  intro fuel
  induction fuel with
  | zero => intro s _ h; cases h
  | succ f ih =>
    intro s hne hlen
    cases hp : s.pot with
    | nil => exact absurd hp hne
    | cons e q =>
      simp only [drain, pot_pop, hp, List.head?_cons, List.tail_cons]
      split
      · exact ⟨_, rfl⟩
      · rename_i n hn
        split_ifs
        · exact ⟨_, rfl⟩
        · apply ih
          · intro hq
            simp only [serve_pot] at hn hq
            rw [hq] at hn
            cases hn
          · rw [hp] at hlen
            simp only [serve_pot]
            simpa using hlen

/-- The log segment of one pass of the inner loop: it begins with a pop and holds no arm
request. -/
theorem drain_log {β : Type} (cfg : Config) (B : Backend β) :
    ∀ (fuel : Nat) (s s1 : State β), drain cfg B fuel s = Res.ok s1 →
      ∃ seg, s1.log = s.log ++ seg ∧ starts_with_pop seg = true
        ∧ (∀ ev, ev ∈ seg → ev.is_arm = false) := by
  intro fuel
  induction fuel with
  | zero => intro s s1 h; simp [drain] at h
  | succ f ih =>
    intro s s1 h
    have hserve : ∀ (e : Nat) (q : List Nat), ∃ seg, (serve cfg s e q).log = s.log ++ seg
        ∧ starts_with_pop seg = true ∧ (∀ ev, ev ∈ seg → ev.is_arm = false) := by
      intro e q
      refine ⟨_, serve_log cfg s e q, rfl, ?_⟩
      intro ev hev
      by_cases ha : (s.vrtc_instances e).state = tmr_mngr_state.ARMED
      · simp only [ha, if_true, List.mem_cons, List.mem_singleton, List.not_mem_nil,
          or_false] at hev
        rcases hev with hev | hev <;> rw [hev] <;> rfl
      · simp only [ha, if_false, List.mem_cons, List.not_mem_nil, or_false] at hev
        rw [hev]; rfl
    cases hp : s.pot with
    | nil => simp [drain, pot_pop, hp] at h
    | cons e q =>
      simp only [drain, pot_pop, hp, List.head?_cons, List.tail_cons] at h
      obtain ⟨seg, hseg, hstart, harm⟩ := hserve e q
      split at h
      · cases h
        exact ⟨seg, hseg, hstart, harm⟩
      · split_ifs at h
        · cases h
          exact ⟨seg, hseg, hstart, harm⟩
        · obtain ⟨seg2, hseg2, _, harm2⟩ := ih _ _ h
          refine ⟨seg ++ seg2, ?_, ?_, ?_⟩
          · rw [hseg2]
            simp only [hseg, List.append_assoc]
          · cases seg with
            | nil => cases hstart
            | cons ev seg => cases ev <;> simp_all [starts_with_pop]
          · intro ev hev
            rcases List.mem_append.mp hev with h1 | h1
            · exact harm ev h1
            · exact harm2 ev h1

theorem arm_retried_append_of_no_arm (seg rest : List Event)
    (h : ∀ ev, ev ∈ seg → ev.is_arm = false) :
    arm_retried (seg ++ rest) = arm_retried rest := by
  induction seg with
  | nil => rfl
  | cons ev seg ih =>
    have hev := h ev (List.mem_cons_self _ _)
    have ih1 := ih (fun x hx => h x (List.mem_cons_of_mem _ hx))
    cases ev <;> simp_all [arm_retried, Event.is_arm]

@[simp] theorem reload_list_log {β : Type} (cfg : Config) :
    ∀ (l : List Nat) (s : State β), (l.foldl (reload_one cfg) s).log = s.log := by
  intro l
  induction l with
  | nil => intro s; rfl
  | cons i l ih => intro s; simp only [List.foldl_cons, ih, reload_one_log]

@[simp] theorem reload_all_log {β : Type} (cfg : Config) (s : State β) :
    (reload_all cfg s).log = s.log := by
  unfold reload_all; exact reload_list_log cfg _ s

theorem mem_reload_list_pot {β : Type} (cfg : Config) :
    ∀ (l : List Nat) (s : State β) (x : Nat), x ∈ s.pot →
      x ∈ (l.foldl (reload_one cfg) s).pot := by
  intro l
  induction l with
  | nil => intro s x hx; exact hx
  | cons i l ih =>
    intro s x hx
    simp only [List.foldl_cons]
    exact ih _ x ((mem_reload_one_pot cfg s i x).mpr (Or.inl hx))

/-- The log segment of a handler run that returns: it begins with a pop, every arm request
that reported `-EPERM` is directly followed by a pop, and either the queue is empty at the
end and the segment ends with an event that is not an arm request, or the segment ends with
the arm request for the deadline of the queue minimum, which did not report `-EPERM`. -/
theorem irq_loop_log {β : Type} (cfg : Config) (B : Backend β) :
    ∀ (fuel : Nat) (s s1 : State β), irq_loop cfg B fuel true s = Res.ok s1 →
      ∃ seg, s1.log = s.log ++ seg ∧ starts_with_pop seg = true ∧ arm_retried seg = true
        ∧ ((s1.pot = [] ∧ ∃ l ev, seg = l ++ [ev] ∧ ev.is_arm = false)
          ∨ (∃ n r l, pot_get s1.pot = some n
              ∧ seg = l ++ [Event.cc (s1.vrtc_instances n).next_cc_value r]
              ∧ r ≠ -EPERM)) := by
  intro fuel
  induction fuel with
  | zero => intro s s1 h; simp [irq_loop] at h
  | succ f ih =>
    intro s s1 h
    simp only [irq_loop, if_true] at h
    split at h
    · rename_i s2 hd
      obtain ⟨seg, hseg, hstart, harm⟩ := drain_log cfg B _ s s2 hd
      have hne : seg ≠ [] := by
        intro h0; rw [h0] at hstart; cases hstart
      split at h
      · rename_i n hn
        have hstart1 : ∀ (c : Event) (rest : List Event),
            starts_with_pop (seg ++ c :: rest) = true := by
          intro c rest
          cases seg with
          | nil => exact absurd rfl hne
          | cons ev seg => cases ev <;> simp_all [starts_with_pop]
        split_ifs at h with hr
        · obtain ⟨seg2, hseg2, hstart2, hret2, hfin⟩ := ih _ s1 h
          obtain ⟨c, hc⟩ : ∃ c : Event, c
              = Event.cc ((reload_all cfg s2).vrtc_instances n).next_cc_value
                  (B.tmr_back_cc_handler (reload_all cfg s2).back
                    ((reload_all cfg s2).vrtc_instances n).next_cc_value).1 := ⟨_, rfl⟩
          have hlog : s1.log = s.log ++ (seg ++ c :: seg2) := by
            rw [hseg2, hc]
            simp [hseg]
          refine ⟨seg ++ c :: seg2, hlog, hstart1 c seg2, ?_, ?_⟩
          · rw [arm_retried_append_of_no_arm _ _ harm, hc]
            simp [arm_retried, hstart2, hret2]
          · rcases hfin with ⟨hp, l, ev, hl, hev⟩ | ⟨n1, r, l, hn1, hl, hr1⟩
            · left
              refine ⟨hp, seg ++ c :: l, ev, ?_, hev⟩
              rw [hl]; simp
            · right
              refine ⟨n1, r, seg ++ c :: l, hn1, ?_, hr1⟩
              rw [hl]; simp
        · cases h
          refine ⟨seg ++ [Event.cc ((reload_all cfg s2).vrtc_instances n).next_cc_value
              (B.tmr_back_cc_handler (reload_all cfg s2).back
                ((reload_all cfg s2).vrtc_instances n).next_cc_value).1], ?_, hstart1 _ _, ?_, ?_⟩
          · simp [hseg]
          · rw [arm_retried_append_of_no_arm _ _ harm]
            simp [arm_retried, hr]
          · right
            exact ⟨n, _, seg, hn, rfl, hr⟩
      · rename_i hn
        cases h
        refine ⟨seg, by simp [hseg], hstart, ?_, ?_⟩
        · have := arm_retried_append_of_no_arm seg [] harm
          simpa [arm_retried] using this
        · left
          refine ⟨?_, ?_⟩
          · cases hq : (reload_all cfg s2).pot with
            | nil => rfl
            | cons x q => rw [hq] at hn; cases hn
          · obtain ⟨l, ev, hl⟩ : ∃ l ev, seg = l ++ [ev] :=
              ⟨seg.dropLast, seg.getLast hne, (List.dropLast_append_getLast hne).symm⟩
            refine ⟨l, ev, hl, harm ev ?_⟩
            rw [hl]; simp
    · cases h
    · cases h

/-- Entered with a non-empty queue, the handler never pops from an empty queue. -/
theorem irq_loop_no_null {β : Type} (cfg : Config) (B : Backend β) :
    ∀ (fuel : Nat) (s : State β), s.pot ≠ [] →
      irq_loop cfg B fuel true s ≠ Res.null_deref := by
  intro fuel
  induction fuel with
  | zero => intro s _; simp [irq_loop]
  | succ f ih =>
    intro s hne
    obtain ⟨s2, hs2⟩ := drain_completes cfg B _ s hne (Nat.lt_succ_self _)
    simp only [irq_loop, if_true, hs2]
    split
    · rename_i n hn
      split_ifs
      · apply ih
        intro hq
        simp only [] at hq
        rw [hq] at hn
        cases hn
      · simp
    · simp

/-- C18: whenever `tmr_mngr_back_cc_irq` returns, the events it has added to the log begin
with a pop, and either the queue is empty and the last event is not an arm request (the
handler made no arm request after the pop that emptied the queue), or the last event is the
request to arm at the `next_cc_value` of the current queue minimum and that request did not
report `-EPERM`; every arm request that reported `-EPERM` is directly followed by the first pop
of another pass of the inner loop. Entered with a non-empty queue, the handler never reads a
missing queue element. -/
theorem handler_returns_armed_or_empty {β : Type} (cfg : Config) (B : Backend β) (fuel : Nat)
    (s s1 : State β) (h : tmr_mngr_back_cc_irq cfg B fuel s = Res.ok s1) :
    s.pot ≠ []
    ∧ (∃ seg, s1.log = s.log ++ seg ∧ starts_with_pop seg = true ∧ arm_retried seg = true
        ∧ ((s1.pot = [] ∧ ∃ l ev, seg = l ++ [ev] ∧ ev.is_arm = false)
          ∨ (∃ n r l, pot_get s1.pot = some n
              ∧ seg = l ++ [Event.cc (s1.vrtc_instances n).next_cc_value r]
              ∧ r ≠ -EPERM)))
    ∧ (∀ (t : State β) (k : Nat), t.pot ≠ [] →
        tmr_mngr_back_cc_irq cfg B k t ≠ Res.null_deref) := by
  refine ⟨?_, irq_loop_log cfg B fuel s s1 h, fun t k ht => irq_loop_no_null cfg B k t ht⟩
  intro hp
  cases fuel with
  | zero => simp [tmr_mngr_back_cc_irq, irq_loop] at h
  | succ f => rw [irq_empty_queue cfg B f s hp] at h; cases h

set_option maxRecDepth 100000 in
/-- Witness of `handler_returns_armed_or_empty`: the handler run at clock 50 of the
specification scenario, which returns with the hardware armed at 100. -/
theorem handler_returns_armed_or_empty_witness :
    ∃ s s1, run cfg4 (mock 10) (mock_init 10)
        [Cmd.start tmr_mngr_mode.PERIODIC 100 7, Cmd.start tmr_mngr_mode.ONE_SHOT 50 9,
         Cmd.env { now := 50, armed := some 50 }] = Res.ok s
      ∧ tmr_mngr_back_cc_irq cfg4 (mock 10) 1 s = Res.ok s1
      ∧ ∃ seg, s1.log = s.log ++ seg ∧ starts_with_pop seg = true ∧ arm_retried seg = true := by
  obtain ⟨s, hs⟩ := res_ok_of_isSome
    (run cfg4 (mock 10) (mock_init 10)
      [Cmd.start tmr_mngr_mode.PERIODIC 100 7, Cmd.start tmr_mngr_mode.ONE_SHOT 50 9,
       Cmd.env { now := 50, armed := some 50 }]) (by decide)
  have hrun : (run cfg4 (mock 10) (mock_init 10)
      [Cmd.start tmr_mngr_mode.PERIODIC 100 7, Cmd.start tmr_mngr_mode.ONE_SHOT 50 9,
       Cmd.env { now := 50, armed := some 50 }]).toOption.map
      (fun t => (tmr_mngr_back_cc_irq cfg4 (mock 10) 1 t).toOption.isSome) = some true := by
    decide
  rw [hs] at hrun
  simp only [Res.toOption, Option.map_some', Option.some.injEq] at hrun
  obtain ⟨s1, hs1⟩ := res_ok_of_isSome _ hrun
  obtain ⟨_, ⟨seg, h1, h2, h3, _⟩, _⟩ :=
    handler_returns_armed_or_empty cfg4 (mock 10) 1 s s1 hs1
  exact ⟨s, s1, hs, hs1, seg, h1, h2, h3⟩
/-! ## Queue membership -/

/-- A `reload` flag that is set after an element is served was set before, or belongs to the
served element. -/
theorem serve_reload_inv {β : Type} (cfg : Config) (s : State β) (e : Nat) (q : List Nat)
    (j : Nat) (h : ((serve cfg s e q).vrtc_instances j).reload = true) :
    j = e ∨ (s.vrtc_instances j).reload = true := by
  by_cases hj : j = e
  · exact Or.inl hj
  · rw [serve_inst_ne cfg s e q j hj] at h
    exact Or.inr h

theorem queue_inv_irq_stable {β : Type} (cfg : Config) :
    IrqStable cfg (queue_inv_irq (β := β) cfg) where
  on_serve := by
    intro s e q ⟨hw, hnd, huse, hst, hrel⟩ hpot
    have he : e < cfg.num := hw.2.1 e (by rw [hpot]; exact List.mem_cons_self _ _)
    rw [hpot] at hnd
    have heq : e ∉ q := (List.nodup_cons.mp hnd).1
    have hq : q.Nodup := (List.nodup_cons.mp hnd).2
    have hid : (s.vrtc_instances e).timer_id = e := hw.1 e he
    refine ⟨(wf_irq_stable cfg).on_serve s e q hw hpot, by rw [serve_pot]; exact hq, ?_, ?_, ?_⟩
    · intro x hx
      rw [serve_pot] at hx
      apply serve_in_use_ne cfg s e q x
      · rw [hid]; intro hex; subst hex; exact heq hx
      · exact huse x (by rw [hpot]; exact List.mem_cons_of_mem _ hx)
    · intro i hi
      rw [(serve_inst_fields cfg s e q i).1]
      exact hst i (serve_in_use cfg s e q i hi)
    · intro j hj hr
      rw [serve_pot]
      rcases serve_reload_inv cfg s e q j hr with hje | hr0
      · subst hje
        refine ⟨?_, heq⟩
        have hu : in_use s j := huse j (by rw [hpot]; exact List.mem_cons_self _ _)
        rcases serve_self cfg s j q hid (hw.2.2.1 j hu).2 with _ | hn
        · rcases serve_cases cfg s j q with ⟨h1, h2⟩ | ⟨h1, h2⟩ | h1
          · unfold in_use at hu ⊢
            rw [serve_periodic cfg s j q h1 h2]; exact hu
          · exfalso
            have hr1 := hr
            rw [serve_one_shot cfg s j q h1 h2] at hr1
            simp only [free_inst] at hr1
            have := hrel j hj hr1
            exact this.2 (by rw [hpot]; exact List.mem_cons_self _ _)
          · exfalso
            have hr1 := hr
            rw [serve_not_armed cfg s j q h1] at hr1
            simp only [free_inst] at hr1
            have := hrel j hj hr1
            exact this.2 (by rw [hpot]; exact List.mem_cons_self _ _)
        · exfalso
          rcases serve_cases cfg s j q with ⟨h1, h2⟩ | ⟨h1, h2⟩ | h1
          · apply hn
            unfold in_use at hu ⊢
            rw [serve_periodic cfg s j q h1 h2]; exact hu
          · have hr1 := hr
            rw [serve_one_shot cfg s j q h1 h2] at hr1
            simp only [free_inst] at hr1
            exact (hrel j hj hr1).2 (by rw [hpot]; exact List.mem_cons_self _ _)
          · have hr1 := hr
            rw [serve_not_armed cfg s j q h1] at hr1
            simp only [free_inst] at hr1
            exact (hrel j hj hr1).2 (by rw [hpot]; exact List.mem_cons_self _ _)
      · obtain ⟨hu, hnm⟩ := hrel j hj hr0
        rw [hpot] at hnm
        have hje : j ≠ e := fun h => hnm (by rw [h]; exact List.mem_cons_self _ _)
        refine ⟨?_, fun h => hnm (List.mem_cons_of_mem _ h)⟩
        apply serve_in_use_ne cfg s e q j _ hu
        rw [hid]; exact fun h => hje h.symm
  on_back := by
    intro s b h
    exact h
  on_reload := by
    intro s j hj ⟨hw, hnd, huse, hst, hrel⟩
    have hiu : ∀ x, in_use (reload_one cfg s j) x ↔ in_use s x := by
      intro x; unfold in_use; rw [reload_one_allocated]
    refine ⟨(wf_irq_stable cfg).on_reload s j hj hw, ?_, ?_, ?_, ?_⟩
    · unfold reload_one
      split_ifs with hr
      · exact pot_push_nodup _ _ j s.pot hnd (hrel j hj hr).2
      · exact hnd
    · intro x hx
      rw [hiu]
      rcases (mem_reload_one_pot cfg s j x).mp hx with h1 | ⟨h1, h2⟩
      · exact huse x h1
      · rw [h1]; exact (hrel j hj h2).1
    · intro i hi
      rw [(reload_one_inst_fields cfg s j i).1]
      exact hst i ((hiu i).mp hi)
    · intro k hk hr
      by_cases hkj : k = j
      · subst hkj
        rw [reload_one_reload_self] at hr; cases hr
      · rw [reload_one_inst_ne cfg s j k hkj] at hr
        obtain ⟨hu, hnm⟩ := hrel k hk hr
        refine ⟨(hiu k).mpr hu, ?_⟩
        intro hmem
        rcases (mem_reload_one_pot cfg s j k).mp hmem with h1 | ⟨h1, _⟩
        · exact hnm h1
        · exact hkj h1
  on_log := by
    intro s v r h
    exact h

theorem queue_inv_irq_done {β : Type} (cfg : Config) (B : Backend β) (fuel : Nat)
    (s s1 : State β) (hs : queue_inv cfg s)
    (h : tmr_mngr_back_cc_irq cfg B fuel s = Res.ok s1) : queue_inv cfg s1 := by
  obtain ⟨hw, hnd, huse, hst, hrel⟩ := hs
  have h0 : queue_inv_irq cfg s :=
    ⟨wf_irq_of_wf cfg s hw, hnd, huse, hst, fun j hj hr => by rw [hrel j hj] at hr; cases hr⟩
  have h1 := irq_stable cfg B _ (queue_inv_irq_stable cfg) fuel s s1 h0 h
  obtain ⟨s2, _, hinst, _, _⟩ :=
    irq_loop_final cfg B _ (queue_inv_irq_stable cfg) fuel true s s1 h0 h
  exact ⟨wf_irq_done cfg B fuel s s1 hw h, h1.2.1, h1.2.2.1, h1.2.2.2.1,
    fun j hj => by rw [hinst]; exact reload_all_flags cfg s2 j hj⟩

theorem queue_inv_init {β : Type} (cfg : Config) (B : Backend β) (s : State β)
    (hs : ∀ j, j < cfg.num → (s.vrtc_instances j).reload = false) :
    queue_inv cfg (init_state cfg B s) := by
  refine ⟨wf_init cfg B s, ?_, ?_, ?_, reload_clear_init cfg B s hs⟩
  · simp [init_state, tmr_mngr_init]
  · intro e he; simp [init_state, tmr_mngr_init] at he
  · intro i hi
    simp [init_state, tmr_mngr_init, in_use, nrf_bitmask_bit_is_set] at hi

theorem queue_inv_start {β : Type} (cfg : Config) (hnum : cfg.num ≤ 256) (B : Backend β) (s : State β)
    (mode : tmr_mngr_mode) (value context : Nat)
    (hB : ∀ b v, (B.tmr_back_cc_sync_handler b v).1 = 0)
    (hs : queue_inv cfg s) : queue_inv cfg (tmr_mngr_start cfg B s mode value context).2 := by
  obtain ⟨hw, hnd, huse, hst, hrel⟩ := hs
  have hw1 := wf_start cfg hnum B s mode value context hw
  have hrel1 : ∀ j, j < cfg.num →
      ((tmr_mngr_start cfg B s mode value context).2.vrtc_instances j).reload = false :=
    reload_clear_step cfg hnum B s (Cmd.start mode value context) _ hw hrel rfl
  rcases lowest_free_or_none cfg s with ⟨i, hi⟩ | hnone
  · have hnotin : i ∉ s.pot := by
      intro hmem
      have := huse i hmem
      unfold in_use at this
      rw [hi.2.1.2] at this
      cases this
    by_cases hacc : start_check cfg B s mode value = true
        ∨ mode = tmr_mngr_mode.ONE_SHOT_FORCE
    · have hz : start_arm_result cfg B s i mode value context = 0 := by
        unfold start_arm_result
        rcases vrtc_reconfig_accepted_result cfg B (start_entry s i context) i mode value
          (by simpa using hacc) with h0 | ⟨b, v, hb⟩
        · exact h0
        · rw [hb]; exact hB b v
      obtain ⟨_, hinst, halloc, hpot, _⟩ :=
        start_accepted_ok cfg hnum B s mode value context i hi hacc hz
      refine ⟨hw1, ?_, ?_, ?_, hrel1⟩
      · rw [hpot]; exact pot_push_nodup _ _ i s.pot hnd hnotin
      · intro e he
        rw [hpot, mem_pot_push] at he
        rcases he with he | he
        · subst he
          simp [in_use, halloc, bit_is_set_set]
        · exact start_in_use_mono cfg B s mode value context e (huse e he)
      · intro j hj
        by_cases hji : j = i
        · subst hji; left; rw [hinst]; simp
        · rw [hinst]
          simp only [Function.update_noteq hji]
          apply hst
          unfold in_use at hj ⊢
          rw [halloc, bit_is_set_set] at hj
          simpa [Ne.symm hji] using hj
    · simp only [not_or, Bool.not_eq_true] at hacc
      obtain ⟨_, halloc, hpot, _, _, hstate⟩ :=
        start_rejected cfg B s mode value context ⟨i, hi.1, hi.2.1⟩ hacc.1 hacc.2
      refine ⟨hw1, by rw [hpot]; exact hnd, ?_, ?_, hrel1⟩
      · intro e he
        rw [hpot] at he
        unfold in_use; rw [halloc]; exact huse e he
      · intro j hj
        rw [hstate j]
        apply hst
        unfold in_use at hj ⊢
        rw [halloc] at hj; exact hj
  · rw [start_of_no_free cfg B s mode value context hnone]
    exact ⟨hw, hnd, huse, hst, hrel⟩

theorem queue_inv_stop {β : Type} (cfg : Config) (hnum : cfg.num ≤ 256) (B : Backend β) (s : State β) (i : Nat)
    (hs : queue_inv cfg s) : queue_inv cfg (tmr_mngr_stop cfg B s i).2 := by
  suffices hall : ∀ i, i < 256 → queue_inv cfg (tmr_mngr_stop cfg B s i).2 by
    rw [stop_narrow]; exact hall _ (Nat.mod_lt _ (by decide))
  clear i
  intro i h256
  obtain ⟨hw, hnd, huse, hst, hrel⟩ := hs
  have hw1 := wf_stop cfg B s i hw
  have hrel1 : ∀ j, j < cfg.num →
      ((tmr_mngr_stop cfg B s i).2.vrtc_instances j).reload = false :=
    reload_clear_step cfg hnum B s (Cmd.stop i) _ hw hrel rfl
  by_cases h : (s.vrtc_instances i).state = tmr_mngr_state.ARMED
  · cases hc : (B.tmr_back_constr_check_handler s.back (s.vrtc_instances i).next_cc_value).1
    · rw [stop_deferred cfg B s i h256 h hc] at hw1 hrel1 ⊢
      refine ⟨hw1, hnd, huse, ?_, hrel1⟩
      intro j hj
      by_cases hji : j = i
      · subst hji; right; simp
      · rw [set_inst_ne _ _ _ _ hji]
        exact hst j hj
    · have hst2 := (stop_safe cfg B s i h256 h hc).2
      have hpot : (tmr_mngr_stop cfg B s i).2.pot = s.pot.erase i := by
        rw [hst2]; simp
      have hbits : ∀ j, in_use (tmr_mngr_stop cfg B s i).2 j → in_use s j ∧ j ≠ i := by
        intro j hj
        unfold in_use at hj
        rw [hst2, free_bit] at hj
        simp only [set_inst_allocated, Bool.and_eq_true] at hj
        have hj0 : in_use s j := hj.1
        refine ⟨hj0, ?_⟩
        intro hji
        subst hji
        have := (hw.2.2.1 j hj0).2
        simp [this] at hj
      refine ⟨hw1, by rw [hpot]; exact hnd.erase i, ?_, ?_, hrel1⟩
      · intro e he
        rw [hpot] at he
        have hmem := (hnd.mem_erase_iff).mp he
        exact stop_in_use_lt cfg B s i e h256 hmem.1 (huse e hmem.2)
      · intro j hj
        obtain ⟨hj0, hji⟩ := hbits j hj
        rw [(stop_inst_lt cfg B s i j h256).1 hji]
        exact hst j hj0
  · rw [stop_not_armed cfg B s i h256 h]
    exact ⟨hw, hnd, huse, hst, hrel⟩

theorem queue_inv_run {β : Type} (cfg : Config) (hnum : cfg.num ≤ 256) (B : Backend β)
    (hB : ∀ b v, (B.tmr_back_cc_sync_handler b v).1 = 0) :
    ∀ (cmds : List (Cmd β)) (s s1 : State β), queue_inv cfg s →
      run cfg B s cmds = Res.ok s1 → queue_inv cfg s1 := by
  intro cmds
  induction cmds with
  | nil =>
    intro s s1 hs h
    simp only [run, Res.ok.injEq] at h
    rw [← h]; exact hs
  | cons c cs ih =>
    intro s s1 hs h
    cases c with
    | start mode value context =>
      simp only [run, step] at h
      exact ih _ s1 (queue_inv_start cfg hnum B s mode value context hB hs) h
    | stop i =>
      simp only [run, step] at h
      exact ih _ s1 (queue_inv_stop cfg hnum B s i hs) h
    | irq fuel =>
      simp only [run, step] at h
      split at h
      · rename_i r hstep
        split at hstep
        · rename_i t hirq
          simp only [Res.ok.injEq] at hstep
          subst hstep
          exact ih _ s1 (queue_inv_irq_done cfg B fuel s t hs hirq) h
        · cases hstep
        · cases hstep
      · cases h
      · cases h
    | env b =>
      simp only [run, step] at h
      refine ih _ s1 ?_ h
      exact hs

/-- C17, amended: with at most 256 slots, over a backend whose arm requests in
`tmr_mngr_start` succeed, in every state reached from `tmr_mngr_init` (on static data whose `reload` flags are clear) by
completed start, stop, handler and environment steps, a slot is in the queue if and only if
it is in use, and a slot in use is `ARMED` or `STOPPED`: no slot is in the queue while `IDLE`,
no slot in use that is `ARMED` is absent from the queue, and a slot stopped on the deferred
path stays queued with state `STOPPED` until the handler pops it. -/
theorem queue_membership {β : Type} (cfg : Config) (hnum : cfg.num ≤ 256) (B : Backend β)
    (s0 : State β) (cmds : List (Cmd β)) (s : State β)
    (hclear : ∀ j, j < cfg.num → (s0.vrtc_instances j).reload = false)
    (hB : ∀ b v, (B.tmr_back_cc_sync_handler b v).1 = 0)
    (hrun : run cfg B (init_state cfg B s0) cmds = Res.ok s) :
    (∀ i, i ∈ s.pot ↔ in_use s i)
    ∧ (∀ i, i ∈ s.pot → (s.vrtc_instances i).state = tmr_mngr_state.ARMED
        ∨ (s.vrtc_instances i).state = tmr_mngr_state.STOPPED)
    ∧ (∀ i, i ∈ s.pot → (s.vrtc_instances i).state ≠ tmr_mngr_state.IDLE)
    ∧ (∀ i, in_use s i → (s.vrtc_instances i).state = tmr_mngr_state.ARMED → i ∈ s.pot)
    ∧ (∀ i, in_use s i → (s.vrtc_instances i).state = tmr_mngr_state.ARMED →
        (B.tmr_back_constr_check_handler s.back (s.vrtc_instances i).next_cc_value).1 = false →
        (i ∈ (tmr_mngr_stop cfg B s i).2.pot ↔ i ∈ s.pot)
        ∧ ((tmr_mngr_stop cfg B s i).2.vrtc_instances i).state = tmr_mngr_state.STOPPED) := by
  obtain ⟨hw, _, huse, hst, _⟩ :=
    queue_inv_run cfg hnum B hB cmds _ s (queue_inv_init cfg B s0 hclear) hrun
  refine ⟨fun i => ⟨huse i, hw.2.2.2 i⟩, fun i hi => hst i (huse i hi), ?_,
    fun i hi _ => hw.2.2.2 i hi, ?_⟩
  · intro i hi hidle
    rcases hst i (huse i hi) with h | h <;> rw [hidle] at h <;> cases h
  · intro i hi ha hc
    rw [stop_deferred cfg B s i (lt_of_lt_of_le (hw.2.2.1 i hi).1 hnum) ha hc]
    exact ⟨Iff.rfl, by simp⟩

set_option maxRecDepth 100000 in
/-- Witness of `queue_membership`: the two starts of the specification scenario over the mock
backend whose arm requests always succeed. -/
theorem queue_membership_witness :
    cfg4.num ≤ 256
    ∧ (∀ j, j < cfg4.num →
        ((boot { now := 0, armed := none } : State Mock).vrtc_instances j).reload = false)
    ∧ (∀ b v, ((mock_lenient 10).tmr_back_cc_sync_handler b v).1 = 0)
    ∧ ∃ s, run cfg4 (mock_lenient 10)
          (init_state cfg4 (mock_lenient 10) (boot { now := 0, armed := none }))
          [Cmd.start tmr_mngr_mode.PERIODIC 100 7, Cmd.start tmr_mngr_mode.ONE_SHOT 50 9]
          = Res.ok s
      ∧ ∀ i, i ∈ s.pot ↔ in_use s i := by
  refine ⟨by decide, fun _ _ => rfl, fun _ _ => rfl, ?_⟩
  obtain ⟨s, hs⟩ := res_ok_of_isSome
    (run cfg4 (mock_lenient 10)
      (init_state cfg4 (mock_lenient 10) (boot { now := 0, armed := none }))
      [Cmd.start tmr_mngr_mode.PERIODIC 100 7, Cmd.start tmr_mngr_mode.ONE_SHOT 50 9])
    (by decide)
  exact ⟨s, hs,
    (queue_membership cfg4 (by decide) (mock_lenient 10) (boot { now := 0, armed := none }) _ s
      (fun _ _ => rfl) (fun _ _ => rfl) hs).1⟩
/-! ## Exhaustion of the slots -/

theorem used_slots_congr {β : Type} (cfg : Config) (s t : State β)
    (h : t.allocated_timers = s.allocated_timers) : used_slots cfg t = used_slots cfg s := by
  ext j
  simp only [used_slots, in_use, h]

theorem used_slots_subset {β : Type} (cfg : Config) (s : State β) :
    used_slots cfg s ⊆ eligible_slots cfg := by
  intro j hj
  simp only [used_slots, eligible_slots, Finset.mem_filter, Finset.mem_range] at hj ⊢
  exact ⟨hj.1, hj.2.1⟩

/-- When as many slots are in use as are eligible, no slot is free. -/
theorem no_free_of_card {β : Type} (cfg : Config) (s : State β)
    (h : (used_slots cfg s).card = (eligible_slots cfg).card) :
    ∀ i, i < cfg.num → ¬ free_slot cfg s i := by
  have heq : used_slots cfg s = eligible_slots cfg :=
    Finset.eq_of_subset_of_card_le (used_slots_subset cfg s) (Nat.le_of_eq h.symm)
  intro i hi hf
  have hmem : i ∈ eligible_slots cfg := by
    simp only [eligible_slots, Finset.mem_filter, Finset.mem_range]
    exact ⟨hi, hf.1⟩
  rw [← heq] at hmem
  simp only [used_slots, Finset.mem_filter, Finset.mem_range, in_use] at hmem
  rw [hf.2] at hmem
  exact absurd hmem.2.2 (by decide)

/-- Over a backend whose arm requests succeed, a call of `tmr_mngr_start` that returns a
non-negative value takes one more slot into use, and any other call leaves the slots in use
as they were. -/
theorem used_slots_start {β : Type} (cfg : Config) (B : Backend β) (s : State β)
    (mode : tmr_mngr_mode) (value context : Nat)
    (hB : ∀ b v, (B.tmr_back_cc_sync_handler b v).1 = 0) :
    (used_slots cfg (tmr_mngr_start cfg B s mode value context).2).card
      = (used_slots cfg s).card
        + (if 0 ≤ (tmr_mngr_start cfg B s mode value context).1 then 1 else 0) := by
  rcases lowest_free_or_none cfg s with ⟨i, hi⟩ | hnone
  · by_cases hacc : start_check cfg B s mode value = true
        ∨ mode = tmr_mngr_mode.ONE_SHOT_FORCE
    · have hz : start_arm_result cfg B s i mode value context = 0 := by
        unfold start_arm_result
        rcases vrtc_reconfig_accepted_result cfg B (start_entry s i context) i mode value
          (by simpa using hacc) with h0 | ⟨b, v, hb⟩
        · exact h0
        · rw [hb]; exact hB b v
      obtain ⟨hret, halloc⟩ := (start_accepted_ret cfg B s mode value context i hi).1 hz
      have hins : used_slots cfg (tmr_mngr_start cfg B s mode value context).2
          = insert i (used_slots cfg s) := by
        ext j
        simp only [used_slots, Finset.mem_filter, Finset.mem_range, Finset.mem_insert, in_use,
          halloc, bit_is_set_set, Bool.or_eq_true, decide_eq_true_eq]
        constructor
        · rintro ⟨h1, h2, h3 | h3⟩
          · exact Or.inl h3.symm
          · exact Or.inr ⟨h1, h2, h3⟩
        · rintro (h | ⟨h1, h2, h3⟩)
          · subst h; exact ⟨hi.1, hi.2.1.1, Or.inl rfl⟩
          · exact ⟨h1, h2, Or.inr h3⟩
      have hnot : i ∉ used_slots cfg s := by
        simp only [used_slots, Finset.mem_filter, Finset.mem_range, in_use, hi.2.1.2]
        simp
      rw [hins, Finset.card_insert_of_not_mem hnot, hret,
        if_pos (Int.natCast_nonneg i)]
    · simp only [not_or, Bool.not_eq_true] at hacc
      obtain ⟨hret, halloc, _⟩ :=
        start_rejected cfg B s mode value context ⟨i, hi.1, hi.2.1⟩ hacc.1 hacc.2
      rw [used_slots_congr cfg s _ halloc, hret, if_neg (by decide)]
      rfl
  · rw [start_of_no_free cfg B s mode value context hnone]
    have : ¬ (0 : Int) ≤ -EPERM := by decide
    simp only [this, if_false, Nat.add_zero]

theorem used_slots_run {β : Type} (cfg : Config) (B : Backend β)
    (hB : ∀ b v, (B.tmr_back_cc_sync_handler b v).1 = 0) :
    ∀ (cmds : List (Cmd β)) (s s1 : State β), (∀ c, c ∈ cmds → c.is_start = true) →
      run cfg B s cmds = Res.ok s1 →
      (used_slots cfg s1).card = (used_slots cfg s).card + successes cfg B s cmds := by
  intro cmds
  induction cmds with
  | nil =>
    intro s s1 _ h
    simp only [run, Res.ok.injEq] at h
    subst h
    rfl
  | cons c cs ih =>
    intro s s1 hst h
    have hc := hst c (List.mem_cons_self _ _)
    have hcs : ∀ c1, c1 ∈ cs → c1.is_start = true :=
      fun c1 h1 => hst c1 (List.mem_cons_of_mem _ h1)
    cases c with
    | start mode value context =>
      simp only [run, step] at h
      rw [ih _ s1 hcs h, used_slots_start cfg B s mode value context hB]
      simp only [successes, step, Cmd.is_start, true_and]
      omega
    | stop i => simp [Cmd.is_start] at hc
    | irq fuel => simp [Cmd.is_start] at hc
    | env b => simp [Cmd.is_start] at hc

theorem used_slots_init {β : Type} (cfg : Config) (B : Backend β) (s : State β) :
    (used_slots cfg (init_state cfg B s)).card = 0 := by
  rw [Finset.card_eq_zero]
  ext j
  simp [used_slots, init_state, tmr_mngr_init, in_use, nrf_bitmask_bit_is_set]

/-- Over a backend whose arm requests succeed, a start whose deadline is accepted, made when a
slot is free, returns the lowest free slot. -/
theorem start_accepted_returns {β : Type} (cfg : Config) (B : Backend β) (s : State β)
    (mode : tmr_mngr_mode) (value context : Nat) (i : Nat)
    (hB : ∀ b v, (B.tmr_back_cc_sync_handler b v).1 = 0)
    (hi : lowest_free cfg s i)
    (hacc : start_check cfg B s mode value = true ∨ mode = tmr_mngr_mode.ONE_SHOT_FORCE) :
    (tmr_mngr_start cfg B s mode value context).1 = (i : Int) := by
  have hz : start_arm_result cfg B s i mode value context = 0 := by
    unfold start_arm_result
    rcases vrtc_reconfig_accepted_result cfg B (start_entry s i context) i mode value
      (by simpa using hacc) with h0 | ⟨b, v, hb⟩
    · exact h0
    · rw [hb]; exact hB b v
  exact ((start_accepted_ret cfg B s mode value context i hi).1 hz).1

/-- C12, amended: over a backend whose arm requests succeed, let start calls alone have been
made after `tmr_mngr_init`, of which as many returned a slot id as there are eligible slots.
Then a further `tmr_mngr_start` fails with `-EPERM` (out of resources) and leaves the whole
state unchanged. For an eligible slot whose index fits the `uint8_t` parameter of
`tmr_mngr_stop`: after a stop that returns `0`, the next start with an accepted deadline
succeeds and returns the slot just released; after a stop that returns `-EINPROGRESS` the slot
stays in use until the handler pops it, and the next start still fails with `-EPERM`. With at
most 256 slots, every eligible slot holds an armed timer (it is in use, `ARMED` and in the
queue) and stopping it returns `0` or `-EINPROGRESS`. -/
theorem slot_exhaustion {β : Type} (cfg : Config) (B : Backend β)
    (s0 : State β) (cmds : List (Cmd β)) (s : State β)
    (hB : ∀ b v, (B.tmr_back_cc_sync_handler b v).1 = 0)
    (hstart : ∀ c, c ∈ cmds → c.is_start = true)
    (hrun : run cfg B (init_state cfg B s0) cmds = Res.ok s)
    (hN : successes cfg B (init_state cfg B s0) cmds = (eligible_slots cfg).card) :
    (∀ mode value context, tmr_mngr_start cfg B s mode value context = (-EPERM, s))
    ∧ (∀ i, i < cfg.num → i < 256 → nrf_bitmask_bit_is_set i cfg.aval = true →
        ((tmr_mngr_stop cfg B s i).1 = 0 → ∀ mode value context,
            (start_check cfg B (tmr_mngr_stop cfg B s i).2 mode value = true
              ∨ mode = tmr_mngr_mode.ONE_SHOT_FORCE) →
            (tmr_mngr_start cfg B (tmr_mngr_stop cfg B s i).2 mode value context).1 = (i : Int))
        ∧ ((tmr_mngr_stop cfg B s i).1 = -EINPROGRESS → ∀ mode value context,
            tmr_mngr_start cfg B (tmr_mngr_stop cfg B s i).2 mode value context
              = (-EPERM, (tmr_mngr_stop cfg B s i).2)))
    ∧ (cfg.num ≤ 256 → ∀ i, i < cfg.num → nrf_bitmask_bit_is_set i cfg.aval = true →
        (in_use s i ∧ (s.vrtc_instances i).state = tmr_mngr_state.ARMED ∧ i ∈ s.pot)
        ∧ ((tmr_mngr_stop cfg B s i).1 = 0
          ∨ (tmr_mngr_stop cfg B s i).1 = -EINPROGRESS)) := by
  have hcard : (used_slots cfg s).card = (eligible_slots cfg).card := by
    rw [used_slots_run cfg B hB cmds _ s hstart hrun, used_slots_init, hN, Nat.zero_add]
  have hfull := no_free_of_card cfg s hcard
  refine ⟨fun mode value context => start_of_no_free cfg B s mode value context hfull, ?_, ?_⟩
  · intro i hi h256 hel
    by_cases harmed : (s.vrtc_instances i).state = tmr_mngr_state.ARMED
    · cases hc : (B.tmr_back_constr_check_handler s.back (s.vrtc_instances i).next_cc_value).1
      · rw [stop_deferred cfg B s i h256 harmed hc]
        constructor
        · intro hret
          have h1 : -EINPROGRESS = (0 : Int) := hret
          exact absurd h1 (by decide)
        · intro _ mode value context
          apply start_of_no_free
          intro j hj hf
          exact hfull j hj hf
      · obtain ⟨hret0, hst⟩ := stop_safe cfg B s i h256 harmed hc
        constructor
        · intro _ mode value context hacc
          have hlow : lowest_free cfg (tmr_mngr_stop cfg B s i).2 i := by
            refine ⟨hi, ⟨hel, ?_⟩, ?_⟩
            · rw [hst, free_bit]; simp [hel]
            · intro j hj hf
              have hji : i ≠ j := by omega
              have hbit : nrf_bitmask_bit_is_set j (tmr_mngr_stop cfg B s i).2.allocated_timers
                  = nrf_bitmask_bit_is_set j s.allocated_timers := by
                rw [hst, free_bit_ne cfg _ i j hji]; rfl
              exact hfull j (by omega) ⟨hf.1, by rw [← hbit]; exact hf.2⟩
          exact start_accepted_returns cfg B _ mode value context i hB hlow hacc
        · intro hret
          rw [hret0] at hret
          exfalso
          split_ifs at hret
          · have h1 : (0 : Int) = -EINPROGRESS := hret
            exact absurd h1 (by decide)
          · have h1 : -EFAULT = -EINPROGRESS := hret
            exact absurd h1 (by decide)
    · rw [stop_not_armed cfg B s i h256 harmed]
      constructor
      · intro hret
        have h1 : -EPERM = (0 : Int) := hret
        exact absurd h1 (by decide)
      · intro hret
        have h1 : -EPERM = -EINPROGRESS := hret
        exact absurd h1 (by decide)
  · intro hnum i hi hel
    have hcall : ∀ c, c ∈ cmds → c.is_call = true := by
      intro c hc
      have := hstart c hc
      cases c <;> simp_all [Cmd.is_start, Cmd.is_call]
    obtain ⟨hinv, hexact⟩ :=
      edf_inv_run cfg hnum B hB cmds _ s hcall (edf_inv_init cfg B s0).1 hrun
    obtain ⟨hex1, _⟩ := hexact hstart (edf_inv_init cfg B s0).2
    obtain ⟨hw, _, _, _, _, _⟩ := hinv
    have h256 : i < 256 := lt_of_lt_of_le hi hnum
    have huse : in_use s i := by
      unfold in_use
      by_contra hn
      exact hfull i hi ⟨hel, by simpa using hn⟩
    have hmem : i ∈ s.pot := hw.2.2.2 i huse
    have harmed := hex1 i hmem
    refine ⟨⟨huse, harmed, hmem⟩, ?_⟩
    cases hc : (B.tmr_back_constr_check_handler s.back (s.vrtc_instances i).next_cc_value).1
    · right; rw [stop_deferred cfg B s i h256 harmed hc]
    · left; rw [(stop_safe cfg B s i h256 harmed hc).1, if_pos hmem]

set_option maxRecDepth 100000 in
/-- Witness of `slot_exhaustion`: four successful starts on the four eligible slots over the
mock backend whose arm requests always succeed. -/
theorem slot_exhaustion_witness :
    (∀ b v, ((mock_lenient 10).tmr_back_cc_sync_handler b v).1 = 0)
    ∧ successes cfg4 (mock_lenient 10)
        (init_state cfg4 (mock_lenient 10) (boot { now := 0, armed := none }))
        [Cmd.start tmr_mngr_mode.ONE_SHOT 100 0, Cmd.start tmr_mngr_mode.ONE_SHOT 200 1,
         Cmd.start tmr_mngr_mode.ONE_SHOT 300 2, Cmd.start tmr_mngr_mode.ONE_SHOT 400 3]
      = (eligible_slots cfg4).card
    ∧ ∃ s, run cfg4 (mock_lenient 10)
          (init_state cfg4 (mock_lenient 10) (boot { now := 0, armed := none }))
          [Cmd.start tmr_mngr_mode.ONE_SHOT 100 0, Cmd.start tmr_mngr_mode.ONE_SHOT 200 1,
           Cmd.start tmr_mngr_mode.ONE_SHOT 300 2, Cmd.start tmr_mngr_mode.ONE_SHOT 400 3]
          = Res.ok s
      ∧ ∀ mode value context,
          tmr_mngr_start cfg4 (mock_lenient 10) s mode value context = (-EPERM, s) := by
  have hst : ∀ c, c ∈ [Cmd.start tmr_mngr_mode.ONE_SHOT 100 0,
      Cmd.start tmr_mngr_mode.ONE_SHOT 200 1, Cmd.start tmr_mngr_mode.ONE_SHOT 300 2,
      (Cmd.start tmr_mngr_mode.ONE_SHOT 400 3 : Cmd Mock)] → c.is_start = true := by
    intro c hc
    simp only [List.mem_cons, List.mem_singleton, List.not_mem_nil, or_false] at hc
    rcases hc with hc | hc | hc | hc <;> rw [hc] <;> rfl
  have hN : successes cfg4 (mock_lenient 10)
      (init_state cfg4 (mock_lenient 10) (boot { now := 0, armed := none }))
      [Cmd.start tmr_mngr_mode.ONE_SHOT 100 0, Cmd.start tmr_mngr_mode.ONE_SHOT 200 1,
       Cmd.start tmr_mngr_mode.ONE_SHOT 300 2, Cmd.start tmr_mngr_mode.ONE_SHOT 400 3]
      = (eligible_slots cfg4).card := by decide
  refine ⟨fun _ _ => rfl, hN, ?_⟩
  obtain ⟨s, hs⟩ := res_ok_of_isSome
    (run cfg4 (mock_lenient 10)
      (init_state cfg4 (mock_lenient 10) (boot { now := 0, armed := none }))
      [Cmd.start tmr_mngr_mode.ONE_SHOT 100 0, Cmd.start tmr_mngr_mode.ONE_SHOT 200 1,
       Cmd.start tmr_mngr_mode.ONE_SHOT 300 2, Cmd.start tmr_mngr_mode.ONE_SHOT 400 3])
    (by decide)
  exact ⟨s, hs,
    (slot_exhaustion cfg4 (mock_lenient 10) (boot { now := 0, armed := none }) _ s
      (fun _ _ => rfl) hst hs hN).1⟩

end TmrMngr
